import Mathlib

/-!
# Verification of the property-graph engine

A shallow embedding of the `property-graph` package: a `Graph` maintaining
three edge indices (master edge set, owner bucket map, resource bucket map),
`GraphNode`s holding attribute slots (literal, single reference, `RefList`,
`RefSet`, `RefMap`) whose reference slots store `GraphEdge`s, and the edge
dispose machinery (`GraphEdge.dispose` runs its registered listeners once,
in registration order, then clears them).

Nodes, edges and graphs are identified by natural-number ids.  JavaScript
`Map`s and plain objects are modelled by insertion-ordered association
lists, JavaScript `Set`s by insertion-ordered duplicate-free lists.
Edge dispose listeners — closures in the source — are modelled by `Hook`
values describing the effect each registration site installs:
`Graph.createEdge` installs index removal, `GraphNode.setRef` /
`GraphNode.addRef` / `GraphNode.setRefMap` install slot cleanup plus a
change event, `GraphNode._createAttributes` installs cascading disposal of
the default (immutable) child.  Disposal is recursive (an edge hook may
dispose a node, which disposes further edges), so the dispose interpreter
takes a fuel bound; fuel decreases on every recursive call, and theorems
about disposal state how much fuel suffices.
-/

namespace PG

/-! ## Insertion-ordered maps and sets (JavaScript `Map`, `Set`, object) -/

/-- JavaScript `Map.get` / object property read on an association list. -/
def alget [DecidableEq κ] : List (κ × α) → κ → Option α
  | [], _ => none
  | (k0, v0) :: t, k => if k0 = k then some v0 else alget t k

/-- JavaScript `Map.set` / object property write: overwrites in place when
the key is present (keeping its position), otherwise appends. -/
def alset [DecidableEq κ] : List (κ × α) → κ → α → List (κ × α)
  | [], k, v => [(k, v)]
  | (k0, v0) :: t, k, v => if k0 = k then (k0, v) :: t else (k0, v0) :: alset t k v

/-- JavaScript `Map.delete` / `delete obj[key]`. -/
def aldel [DecidableEq κ] : List (κ × α) → κ → List (κ × α)
  | [], _ => []
  | (k0, v0) :: t, k => if k0 = k then t else (k0, v0) :: aldel t k

/-- JavaScript `Set.add`: appends unless already present. -/
def sadd [DecidableEq α] (l : List α) (x : α) : List α :=
  if x ∈ l then l else l ++ [x]

/-- JavaScript `Set.delete`. -/
def sdel [DecidableEq α] (l : List α) (x : α) : List α :=
  l.filter (fun y => y ≠ x)

/-- `Array.from(new Set(xs))`: first occurrences, in order. -/
def dedup [DecidableEq α] : List α → List α
  | [] => []
  | x :: t => if x ∈ t then dedup t else x :: dedup t

/-! ## Data model -/

/-- A dispose listener registered on an edge, by registration site:
* `graphRemove` — `Graph.createEdge` registers removal of the edge from the
  graph's three indices (`_removeEdge`);
* `singleCleanup` — `GraphNode.setRef` registers deletion of the owner's
  single-reference slot plus a change event;
* `collCleanup` — `GraphNode.addRef` registers removal from the owner's
  `RefList`/`RefSet` collection plus a change event;
* `mapCleanup` — `GraphNode.setRefMap` registers deletion of the owner's
  map entry plus a change event carrying the key;
* `cascadeChildDispose` — `GraphNode._createAttributes` registers disposal
  of the default (immutable) child node. -/
inductive Hook where
  | graphRemove : Hook
  | singleCleanup (owner : Nat) (attr : String) : Hook
  | collCleanup (owner : Nat) (attr : String) : Hook
  | mapCleanup (owner : Nat) (attr : String) (key : String) : Hook
  | cascadeChildDispose (child : Nat) : Hook
deriving DecidableEq

/-- A `GraphEdge` (`graph-edge.ts` / `Link` in `graph-link.ts`): name,
owner (`_parent`), resource (`_child`), auxiliary attribute bag,
`_disposed` flag, registered dispose listeners, and the id of the graph on
which it was registered. -/
structure EdgeRec where
  name : String
  parent : Nat
  child : Nat
  attrs : List (String × String)
  graphId : Nat
  disposed : Bool
  listeners : List Hook
deriving DecidableEq

/-- One attribute slot of a node: a literal value, a single reference
(`null` or a `GraphEdge`), a `RefList` (edge list, duplicates allowed), a
`RefSet` (`set`: insertion-ordered edges; `idx`: the auxiliary
child-to-edge `Map`), or a `RefMap` (string key to edge). -/
inductive Slot where
  | lit (v : String) : Slot
  | nullSingle : Slot
  | single (e : Nat) : Slot
  | list (es : List Nat) : Slot
  | set (ord : List Nat) (idx : List (Nat × Nat)) : Slot
  | map (entries : List (String × Nat)) : Slot
deriving DecidableEq

/-- A `GraphNode`: its graph, `_disposed` flag, attribute slots
(insertion-ordered, as JavaScript object keys), and `$immutableKeys`. -/
structure NodeRec where
  graphId : Nat
  disposed : Bool
  attributes : List (String × Slot)
  immutableKeys : List String
deriving DecidableEq

/-- A `Graph`'s three indices: `_edges` (master set), `_parentEdges`
(owner to outgoing edges), `_childEdges` (resource to incoming edges). -/
structure GraphRec where
  edges : List Nat
  parentEdges : List (Nat × List Nat)
  childEdges : List (Nat × List Nat)
deriving DecidableEq

/-- Events observable on a node (each is also re-dispatched on its graph
with a `node:`-prefixed type, synchronously, with the same payload). -/
inductive Event where
  | change (node : Nat) (attr : String) : Event
  | changeKey (node : Nat) (attr : String) (key : String) : Event
  | nodeDispose (node : Nat) : Event
deriving DecidableEq

/-- The whole system state: all graphs, nodes and edges (by id), fresh-id
counters, and the log of dispatched node events. -/
structure PGState where
  graphs : List (Nat × GraphRec)
  nodes : List (Nat × NodeRec)
  edges : List (Nat × EdgeRec)
  nextGraphId : Nat
  nextNodeId : Nat
  nextEdgeId : Nat
  events : List Event
deriving DecidableEq

def emptyGraph : GraphRec := ⟨[], [], []⟩

def getGraph (s : PGState) (gid : Nat) : Option GraphRec := alget s.graphs gid
def getNode (s : PGState) (nid : Nat) : Option NodeRec := alget s.nodes nid
def getEdge (s : PGState) (eid : Nat) : Option EdgeRec := alget s.edges eid

def setGraph (s : PGState) (gid : Nat) (g : GraphRec) : PGState :=
  { s with graphs := alset s.graphs gid g }
def setNode (s : PGState) (nid : Nat) (n : NodeRec) : PGState :=
  { s with nodes := alset s.nodes nid n }
def setEdge (s : PGState) (eid : Nat) (e : EdgeRec) : PGState :=
  { s with edges := alset s.edges eid e }

/-- `GraphNode.dispatchEvent`, which also forwards the event to the graph
under a `node:`-prefixed type; the log records the shared payload once. -/
def dispatchEvent (s : PGState) (ev : Event) : PGState :=
  { s with events := s.events ++ [ev] }

/-! ## Graph indices (`graph.ts`) -/

/-- `map.get(node) || emptySet` for a bucket map. -/
def bucket (m : List (Nat × List Nat)) (n : Nat) : List Nat :=
  (alget m n).getD []

/-- Index updates of `Graph._registerEdge` (`_createEdge`): add the edge to
the master set, to the owner's `_parentEdges` bucket (created on demand),
and to the resource's `_childEdges` bucket. -/
def registerEdgeIdx (g : GraphRec) (eid parent child : Nat) : GraphRec :=
  { edges := sadd g.edges eid
    parentEdges := alset g.parentEdges parent (sadd (bucket g.parentEdges parent) eid)
    childEdges := alset g.childEdges child (sadd (bucket g.childEdges child) eid) }

/-- `Graph._removeEdge` (`_destroyEdge`): delete the edge from the master
set and from both buckets.  (The source asserts the buckets exist with
`!`; on a registered edge they do.) -/
def removeEdgeIdx (g : GraphRec) (eid parent child : Nat) : GraphRec :=
  { edges := sdel g.edges eid
    parentEdges := alset g.parentEdges parent (sdel (bucket g.parentEdges parent) eid)
    childEdges := alset g.childEdges child (sdel (bucket g.childEdges child) eid) }

/-- `Graph.listEdges()` of the graph `gid`. -/
def listEdgesS (s : PGState) (gid : Nat) : List Nat :=
  ((getGraph s gid).getD emptyGraph).edges

/-- `Graph.listChildEdges(node)`: edges having `nid` as their parent
(owner), read on the node's own graph. -/
def listChildEdgesS (s : PGState) (nid : Nat) : List Nat :=
  match getNode s nid with
  | some n => bucket ((getGraph s n.graphId).getD emptyGraph).parentEdges nid
  | none => []

/-- `Graph.listParentEdges(node)`: edges having `nid` as their child
(resource). -/
def listParentEdgesS (s : PGState) (nid : Nat) : List Nat :=
  match getNode s nid with
  | some n => bucket ((getGraph s n.graphId).getD emptyGraph).childEdges nid
  | none => []

/-- `Graph.listChildren(node)`: de-duplicated children of the child
edges. -/
def listChildrenS (s : PGState) (nid : Nat) : List Nat :=
  dedup ((listChildEdgesS s nid).filterMap (fun e => (getEdge s e).map (fun r => r.child)))

/-- `Graph.listParents(node)`: de-duplicated parents of the parent
edges. -/
def listParentsS (s : PGState) (nid : Nat) : List Nat :=
  dedup ((listParentEdgesS s nid).filterMap (fun e => (getEdge s e).map (fun r => r.parent)))

/-- `ref.getChild() === x`, reading the edge record. -/
def edgeChildIs (s : PGState) (eid x : Nat) : Bool :=
  match getEdge s eid with
  | some e => e.child = x
  | none => false

/-- `ref.getAttributes()`. -/
def edgeAttrs (s : PGState) (eid : Nat) : List (String × String) :=
  ((getEdge s eid).map (fun r => r.attrs)).getD []

/-- `Graph.createEdge(name, a, b, attributes)`: the `GraphEdge`/`Link`
constructor validates that owner and resource are on the same graph
(throwing the linkage error otherwise), then `_registerEdge` stores the
edge in the three indices and registers the index-removal dispose
listener.  Returns the new edge id. -/
def createEdge (s : PGState) (name : String) (a b : Nat)
    (attrs : List (String × String)) : Except String (Nat × PGState) :=
  match getNode s a, getNode s b with
  | some na, some nb =>
    if na.graphId = nb.graphId then
      let eid := s.nextEdgeId
      let e : EdgeRec :=
        ⟨name, a, b, attrs, na.graphId, false, [Hook.graphRemove]⟩
      let g := (getGraph s na.graphId).getD emptyGraph
      let s1 : PGState := { s with edges := alset s.edges eid e, nextEdgeId := eid + 1 }
      Except.ok (eid, setGraph s1 na.graphId (registerEdgeIdx g eid a b))
    else Except.error "Cannot link disconnected graphs."
  | _, _ => Except.error "missing node"

/-- `GraphEdge.addEventListener('dispose', ...)` / `Link.onDispose`. -/
def addListener (s : PGState) (eid : Nat) (h : Hook) : PGState :=
  match getEdge s eid with
  | some e => setEdge s eid { e with listeners := e.listeners ++ [h] }
  | none => s

/-- Update a node record in place. -/
def updNode (s : PGState) (nid : Nat) (f : NodeRec → NodeRec) : PGState :=
  match getNode s nid with
  | some n => setNode s nid (f n)
  | none => s

/-! ## Disposal (`Link.dispose`, `GraphNode.dispose`, listener effects) -/

/-- The dispose listener `Graph._registerEdge` installs:
`this._removeEdge(edge)` on the edge's graph. -/
def runGraphRemove (s : PGState) (eid : Nat) : PGState :=
  match getEdge s eid with
  | some e =>
    match getGraph s e.graphId with
    | some g => setGraph s e.graphId (removeEdgeIdx g eid e.parent e.child)
    | none => s
  | none => s

/-- The dispose listener `GraphNode.setRef` installs:
`delete this[$attributes][attribute]` then a change event. -/
def runSingleCleanup (s : PGState) (owner : Nat) (attr : String) : PGState :=
  match getNode s owner with
  | some n =>
    dispatchEvent (setNode s owner { n with attributes := aldel n.attributes attr })
      (Event.change owner attr)
  | none => s

/-- The dispose listener `GraphNode.addRef` installs:
`refs.remove(ref)` on the collection (`RefList.remove` deletes the first
exact match; `RefSet.remove` deletes the edge from `set` and the edge's
child from `map`), then a change event. -/
def runCollCleanup (s : PGState) (owner : Nat) (attr : String) (eid : Nat) : PGState :=
  match getNode s owner with
  | some n =>
    let attributes :=
      match alget n.attributes attr with
      | some (Slot.list es) => alset n.attributes attr (Slot.list (es.erase eid))
      | some (Slot.set ord idx) =>
        let idx1 := match getEdge s eid with
          | some e => aldel idx e.child
          | none => idx
        alset n.attributes attr (Slot.set (sdel ord eid) idx1)
      | _ => n.attributes
    dispatchEvent (setNode s owner { n with attributes := attributes })
      (Event.change owner attr)
  | none => s

/-- The dispose listener `GraphNode.setRefMap` installs:
`refMap.delete(key)` then a change event carrying the key. -/
def runMapCleanup (s : PGState) (owner : Nat) (attr key : String) : PGState :=
  match getNode s owner with
  | some n =>
    let attributes :=
      match alget n.attributes attr with
      | some (Slot.map entries) => alset n.attributes attr (Slot.map (aldel entries key))
      | _ => n.attributes
    dispatchEvent (setNode s owner { n with attributes := attributes })
      (Event.changeKey owner attr key)
  | none => s

/-- Work items of the dispose interpreter. -/
inductive DTask where
  | edge (eid : Nat) : DTask
  | node (nid : Nat) : DTask
  | hooks (l : List Hook) (eid : Nat) : DTask
  | edges (l : List Nat) : DTask
deriving DecidableEq

/-- The dispose interpreter.
* `edge eid` — `Link.dispose` / `GraphEdge.dispose`: if already disposed
  return; mark disposed; invoke the registered listeners in order; clear
  the listeners.
* `node nid` — `GraphNode.dispose`: if already disposed return; dispose
  every child edge (snapshot); `disconnectParents` (dispose every parent
  edge, fresh snapshot); mark disposed; dispatch the dispose event.
* `hooks l eid` — run the listeners of edge `eid` in order.
* `edges l` — dispose the listed edges in order (a `forEach` over an
  `Array.from` snapshot).
Fuel decreases on every recursive call; with fuel `0` the remaining work
is skipped, so theorems state how much fuel suffices. -/
def runD : Nat → DTask → PGState → PGState
  | 0, _, s => s
  | fuel + 1, DTask.edge eid, s =>
    match getEdge s eid with
    | none => s
    | some e =>
      if e.disposed then s
      else
        let s1 := setEdge s eid { e with disposed := true }
        let s2 := runD fuel (DTask.hooks e.listeners eid) s1
        match getEdge s2 eid with
        | some e2 => setEdge s2 eid { e2 with listeners := [] }
        | none => s2
  | fuel + 1, DTask.node nid, s =>
    match getNode s nid with
    | none => s
    | some n =>
      if n.disposed then s
      else
        let s1 := runD fuel (DTask.edges (listChildEdgesS s nid)) s
        let s2 := runD fuel (DTask.edges (listParentEdgesS s1 nid)) s1
        let s3 :=
          match getNode s2 nid with
          | some n2 => setNode s2 nid { n2 with disposed := true }
          | none => s2
        dispatchEvent s3 (Event.nodeDispose nid)
  | _ + 1, DTask.hooks [] _, s => s
  | fuel + 1, DTask.hooks (h :: t) eid, s =>
    let s1 :=
      match h with
      | Hook.graphRemove => runGraphRemove s eid
      | Hook.singleCleanup o a => runSingleCleanup s o a
      | Hook.collCleanup o a => runCollCleanup s o a eid
      | Hook.mapCleanup o a k => runMapCleanup s o a k
      | Hook.cascadeChildDispose c => runD fuel (DTask.node c) s
    runD fuel (DTask.hooks t eid) s1
  | _ + 1, DTask.edges [], s => s
  | fuel + 1, DTask.edges (e :: t), s =>
    runD fuel (DTask.edges t) (runD fuel (DTask.edge e) s)

/-- `GraphEdge.dispose` with a fuel bound. -/
def disposeEdge (fuel eid : Nat) (s : PGState) : PGState :=
  runD fuel (DTask.edge eid) s

/-- `GraphNode.dispose` with a fuel bound. -/
def disposeNode (fuel nid : Nat) (s : PGState) : PGState :=
  runD fuel (DTask.node nid) s

/-- `GraphNode.detach` (`Graph.disconnectParents`, no filter). -/
def detachNode (fuel nid : Nat) (s : PGState) : PGState :=
  runD fuel (DTask.edges (listParentEdgesS s nid)) s

/-! ## Node construction (`GraphNode` constructor, `_createAttributes`) -/

/-- One default attribute value returned by a subclass `getDefaults`:
a literal, a null single reference, a `GraphNode` (which becomes an
immutable single-reference edge), or an empty collection. -/
inductive DefaultVal where
  | lit (v : String) : DefaultVal
  | nullRef : DefaultVal
  | node (child : Nat) : DefaultVal
  | refList : DefaultVal
  | refSet : DefaultVal
  | refMap : DefaultVal
deriving DecidableEq

/-- `GraphNode._createAttributes`: fold the defaults in order.  A
`GraphNode` default creates an edge via the graph, registers the cascading
child-dispose listener, and marks the key immutable; other defaults
populate the slot directly.  A thrown linkage error aborts the fold
(partially constructed state is kept, as thrown exceptions keep already
performed registrations). -/
def createAttributes (nid : Nat) :
    List (String × DefaultVal) → PGState → PGState × Option String
  | [], s => (s, none)
  | (key, v) :: rest, s =>
    match v with
    | DefaultVal.node c =>
      match createEdge s key nid c [] with
      | Except.ok (eid, s1) =>
        let s2 := addListener s1 eid (Hook.cascadeChildDispose c)
        let s3 := updNode s2 nid (fun n =>
          { n with
            immutableKeys := n.immutableKeys ++ [key]
            attributes := alset n.attributes key (Slot.single eid) })
        createAttributes nid rest s3
      | Except.error err => (s, some err)
    | DefaultVal.lit lv =>
      createAttributes nid rest (updNode s nid (fun n =>
        { n with attributes := alset n.attributes key (Slot.lit lv) }))
    | DefaultVal.nullRef =>
      createAttributes nid rest (updNode s nid (fun n =>
        { n with attributes := alset n.attributes key Slot.nullSingle }))
    | DefaultVal.refList =>
      createAttributes nid rest (updNode s nid (fun n =>
        { n with attributes := alset n.attributes key (Slot.list []) }))
    | DefaultVal.refSet =>
      createAttributes nid rest (updNode s nid (fun n =>
        { n with attributes := alset n.attributes key (Slot.set [] []) }))
    | DefaultVal.refMap =>
      createAttributes nid rest (updNode s nid (fun n =>
        { n with attributes := alset n.attributes key (Slot.map []) }))

/-- `new Graph()`. -/
def newGraphOp (s : PGState) : Nat × PGState :=
  (s.nextGraphId,
   { s with
     graphs := alset s.graphs s.nextGraphId emptyGraph
     nextGraphId := s.nextGraphId + 1 })

/-- The base state of the `GraphNode` constructor: store the node record
(graph fixed, not disposed, no attributes, no immutable keys) under a
fresh id. -/
def newNodeBase (s : PGState) (gid : Nat) : PGState :=
  { s with
    nodes := alset s.nodes s.nextNodeId ⟨gid, false, [], []⟩
    nextNodeId := s.nextNodeId + 1 }

/-- `new SomeNode(graph)` for a subclass whose `getDefaults` returns
`schema`: store the node, then build its attributes. -/
def newNodeOp (s : PGState) (gid : Nat) (schema : List (String × DefaultVal)) :
    Nat × PGState × Option String :=
  let r := createAttributes s.nextNodeId schema (newNodeBase s gid)
  (s.nextNodeId, r.1, r.2)

/-! ## Attribute access (`GraphNode`) -/

/-- `GraphNode.set` (literal slot): assign and dispatch a change event. -/
def setLitOp (s : PGState) (nid : Nat) (attr v : String) : PGState :=
  match getNode s nid with
  | some n =>
    dispatchEvent
      (setNode s nid { n with attributes := alset n.attributes attr (Slot.lit v) })
      (Event.change nid attr)
  | none => s

/-- Continuation of `GraphNode.setRef` after the previous edge (if any)
has been disposed: `if (!value) return this;` then create the edge,
register the slot-cleanup listener, store the edge, dispatch change. -/
def setRefRest (s : PGState) (nid : Nat) (attr : String) (value : Option Nat)
    (attrs : List (String × String)) : PGState × Option String :=
  match value with
  | none => (s, none)
  | some b =>
    match createEdge s attr nid b attrs with
    | Except.error err => (s, some err)
    | Except.ok (eid, s1) =>
      let s2 := addListener s1 eid (Hook.singleCleanup nid attr)
      let s3 := updNode s2 nid (fun n =>
        { n with attributes := alset n.attributes attr (Slot.single eid) })
      (dispatchEvent s3 (Event.change nid attr), none)

/-- `GraphNode.setRef`: throw on an immutable key; dispose the previous
edge (`if (prevRef) prevRef.dispose()` — a non-edge truthy slot value
would make `.dispose()` a type error); then `setRefRest`. -/
def setRefOp (s : PGState) (nid : Nat) (attr : String) (value : Option Nat)
    (attrs : List (String × String)) (fuel : Nat) : PGState × Option String :=
  match getNode s nid with
  | none => (s, some "missing node")
  | some n =>
    if attr ∈ n.immutableKeys then
      (s, some "Cannot overwrite immutable attribute.")
    else
      match alget n.attributes attr with
      | some (Slot.single prev) => setRefRest (disposeEdge fuel prev s) nid attr value attrs
      | some Slot.nullSingle => setRefRest s nid attr value attrs
      | none => setRefRest s nid attr value attrs
      | some (Slot.lit lv) =>
        if lv = "" then setRefRest s nid attr value attrs
        else (s, some "TypeError: dispose is not a function")
      | some _ => (s, some "TypeError: dispose is not a function")

/-- `GraphNode.addRef`: create the edge first, then `assertRefList`
(throwing after the edge is already registered if the slot is not a
list/set collection), insert (`RefList.add` appends; `RefSet.add` evicts
the prior edge for the same child, then appends and re-indexes), register
the collection-cleanup listener, dispatch change. -/
def addRefOp (s : PGState) (nid : Nat) (attr : String) (value : Nat)
    (attrs : List (String × String)) : PGState × Option String :=
  match createEdge s attr nid value attrs with
  | Except.error err => (s, some err)
  | Except.ok (eid, s1) =>
    match getNode s1 nid with
    | none => (s1, some "Unexpected value")
    | some n =>
      match alget n.attributes attr with
      | some (Slot.list es) =>
        let s2 := setNode s1 nid
          { n with attributes := alset n.attributes attr (Slot.list (es ++ [eid])) }
        let s3 := addListener s2 eid (Hook.collCleanup nid attr)
        (dispatchEvent s3 (Event.change nid attr), none)
      | some (Slot.set ord idx) =>
        let p : List Nat × List (Nat × Nat) :=
          match alget idx value with
          | some old => (sdel ord old, aldel idx value)
          | none => (ord, idx)
        let s2 := setNode s1 nid
          { n with attributes :=
              alset n.attributes attr (Slot.set (sadd p.1 eid) (alset p.2 value eid)) }
        let s3 := addListener s2 eid (Hook.collCleanup nid attr)
        (dispatchEvent s3 (Event.change nid attr), none)
      | _ => (s1, some "Unexpected value")

/-- `GraphNode.removeRef`: `assertRefList`; for a `RefList`,
`removeChild` removes every matching edge and the caller disposes each;
for a `RefSet`, `removeChild` removes at most the one indexed edge and the
caller disposes it. -/
def removeRefOp (s : PGState) (nid : Nat) (attr : String) (value fuel : Nat) :
    PGState × Option String :=
  match getNode s nid with
  | none => (s, some "missing node")
  | some n =>
    match alget n.attributes attr with
    | some (Slot.list es) =>
      let matching := es.filter (fun e => edgeChildIs s e value)
      let remaining := es.filter (fun e => !(edgeChildIs s e value))
      let s1 := setNode s nid
        { n with attributes := alset n.attributes attr (Slot.list remaining) }
      (runD fuel (DTask.edges matching) s1, none)
    | some (Slot.set ord idx) =>
      match alget idx value with
      | some r =>
        let s1 := setNode s nid
          { n with attributes :=
              alset n.attributes attr (Slot.set (sdel ord r) (aldel idx value)) }
        (disposeEdge fuel r s1, none)
      | none => (s, none)
    | _ => (s, some "Unexpected value")

/-- `GraphNode.setRefMap`: `assertRefMap`; dispose the previous edge under
the key; `if (!value) return this;` else create the edge with the key
merged into its attributes, register the map-cleanup listener, store under
the key, dispatch change with the key. -/
def setRefMapOp (s : PGState) (nid : Nat) (attr key : String) (value : Option Nat)
    (metadata : List (String × String)) (fuel : Nat) : PGState × Option String :=
  match getNode s nid with
  | none => (s, some "missing node")
  | some n =>
    match alget n.attributes attr with
    | some (Slot.map entries) =>
      let s1 :=
        match alget entries key with
        | some prev => disposeEdge fuel prev s
        | none => s
      match value with
      | none => (s1, none)
      | some b =>
        match createEdge s1 attr nid b (alset metadata "key" key) with
        | Except.error err => (s1, some err)
        | Except.ok (eid, s2) =>
          let s3 := addListener s2 eid (Hook.mapCleanup nid attr key)
          let s4 := updNode s3 nid (fun n2 =>
            { n2 with attributes :=
                match alget n2.attributes attr with
                | some (Slot.map es2) =>
                  alset n2.attributes attr (Slot.map (alset es2 key eid))
                | _ => n2.attributes })
          (dispatchEvent s4 (Event.changeKey nid attr key), none)
    | _ => (s, some "Unexpected value")

/-! ## `GraphNode.swap` -/

/-- The `RefList` arm of `swap`: for each edge of the snapshot
`listRefsByChild(prevValue)`, read its attributes, `removeRef` the old
child (which removes and disposes every currently matching edge at once),
then `addRef` the new child with the carried attributes. -/
def swapListGo (nid : Nat) (attr : String) (prevV nextV fuel : Nat) :
    List Nat → PGState → PGState × Option String
  | [], s => (s, none)
  | m :: rest, s =>
    let a := edgeAttrs s m
    match removeRefOp s nid attr prevV fuel with
    | (s1, some err) => (s1, some err)
    | (s1, none) =>
      match addRefOp s1 nid attr nextV a with
      | (s2, some err) => (s2, some err)
      | (s2, none) => swapListGo nid attr prevV nextV fuel rest s2

/-- The `RefMap` arm of `swap`: for each key of the snapshot, re-read the
entry and, when it points at the old child, `setRefMap` the new child with
the carried attributes. -/
def swapMapGo (nid : Nat) (attr : String) (prevV nextV fuel : Nat) :
    List String → PGState → PGState × Option String
  | [], s => (s, none)
  | key :: rest, s =>
    let step : PGState × Option String :=
      match getNode s nid with
      | some n =>
        match alget n.attributes attr with
        | some (Slot.map entries) =>
          match alget entries key with
          | some r =>
            if edgeChildIs s r prevV then
              setRefMapOp s nid attr key (some nextV) (edgeAttrs s r) fuel
            else (s, none)
          | none => (s, none)
        | _ => (s, none)
      | none => (s, none)
    match step with
    | (s1, some err) => (s1, some err)
    | (s1, none) => swapMapGo nid attr prevV nextV fuel rest s1

/-- The per-attribute dispatch of `swap`: re-read the slot and branch on
its runtime kind (`Ref` / `RefList` / `RefSet` / `RefMap`). -/
def swapAttr (s : PGState) (nid : Nat) (attr : String) (prevV nextV fuel : Nat) :
    PGState × Option String :=
  match getNode s nid with
  | none => (s, none)
  | some n =>
    match alget n.attributes attr with
    | some (Slot.single e) =>
      if edgeChildIs s e prevV then
        setRefOp s nid attr (some nextV) (edgeAttrs s e) fuel
      else (s, none)
    | some (Slot.list es) =>
      swapListGo nid attr prevV nextV fuel
        (es.filter (fun m => edgeChildIs s m prevV)) s
    | some (Slot.set _ idx) =>
      match alget idx prevV with
      | some r =>
        let a := edgeAttrs s r
        match removeRefOp s nid attr prevV fuel with
        | (s1, some err) => (s1, some err)
        | (s1, none) => addRefOp s1 nid attr nextV a
      | none => (s, none)
    | some (Slot.map entries) =>
      swapMapGo nid attr prevV nextV fuel (entries.map Prod.fst) s
    | _ => (s, none)

/-- Iterate `swap` over the attribute keys. -/
def swapGo (nid : Nat) (prevV nextV fuel : Nat) :
    List String → PGState → PGState × Option String
  | [], s => (s, none)
  | attr :: rest, s =>
    match swapAttr s nid attr prevV nextV fuel with
    | (s1, some err) => (s1, some err)
    | (s1, none) => swapGo nid prevV nextV fuel rest s1

/-- `GraphNode.swap(prevValue, nextValue)`: for every attribute slot,
replace references to the old node by equivalent references to the new
one, carrying each old edge's attributes. -/
def swapOp (s : PGState) (nid prevV nextV fuel : Nat) : PGState × Option String :=
  match getNode s nid with
  | none => (s, none)
  | some n => swapGo nid prevV nextV fuel (n.attributes.map Prod.fst) s

/-! ## Read-only accessors used in statements -/

/-- `GraphNode.getRef`: the child of the single-reference slot. -/
def getRefS (s : PGState) (nid : Nat) (attr : String) : Option Nat :=
  match getNode s nid with
  | some n =>
    match alget n.attributes attr with
    | some (Slot.single e) => (getEdge s e).map (fun r => r.child)
    | _ => none
  | none => none

/-- `GraphNode.listRefs`: children of the collection slot's edges, in
collection order. -/
def listRefsS (s : PGState) (nid : Nat) (attr : String) : List Nat :=
  match getNode s nid with
  | some n =>
    match alget n.attributes attr with
    | some (Slot.list es) => es.filterMap (fun e => (getEdge s e).map (fun r => r.child))
    | some (Slot.set ord _) => ord.filterMap (fun e => (getEdge s e).map (fun r => r.child))
    | _ => []
  | none => []

/-- `GraphNode.isDisposed`. -/
def nodeDisposedS (s : PGState) (nid : Nat) : Bool :=
  ((getNode s nid).map (fun n => n.disposed)).getD false

/-- `GraphEdge.isDisposed` / `Link.isDisposed`. -/
def edgeDisposedS (s : PGState) (eid : Nat) : Bool :=
  ((getEdge s eid).map (fun e => e.disposed)).getD false

/-! ## Public mutating operations -/

/-- The public mutating operations of the engine, with their arguments
(dispose-involving operations carry their fuel bound). -/
inductive POp where
  | newGraph : POp
  | newNode (gid : Nat) (schema : List (String × DefaultVal)) : POp
  | setLit (nid : Nat) (attr v : String) : POp
  | setRef (nid : Nat) (attr : String) (value : Option Nat)
      (attrs : List (String × String)) (fuel : Nat) : POp
  | addRef (nid : Nat) (attr : String) (value : Nat)
      (attrs : List (String × String)) : POp
  | removeRef (nid : Nat) (attr : String) (value fuel : Nat) : POp
  | setRefMap (nid : Nat) (attr key : String) (value : Option Nat)
      (metadata : List (String × String)) (fuel : Nat) : POp
  | swap (nid prevV nextV fuel : Nat) : POp
  | createEdgeOp (name : String) (a b : Nat) (attrs : List (String × String)) : POp
  | detach (nid fuel : Nat) : POp
  | disposeNode (nid fuel : Nat) : POp
  | disposeEdge (eid fuel : Nat) : POp
deriving DecidableEq

/-- Apply a public operation; the returned state is the state when the
call returns or when its error propagates to the caller. -/
def applyOp (s : PGState) : POp → PGState × Option String
  | POp.newGraph => ((newGraphOp s).2, none)
  | POp.newNode gid schema =>
    let r := newNodeOp s gid schema
    (r.2.1, r.2.2)
  | POp.setLit nid attr v => (setLitOp s nid attr v, none)
  | POp.setRef nid attr value attrs fuel => setRefOp s nid attr value attrs fuel
  | POp.addRef nid attr value attrs => addRefOp s nid attr value attrs
  | POp.removeRef nid attr value fuel => removeRefOp s nid attr value fuel
  | POp.setRefMap nid attr key value metadata fuel =>
    setRefMapOp s nid attr key value metadata fuel
  | POp.swap nid prevV nextV fuel => swapOp s nid prevV nextV fuel
  | POp.createEdgeOp name a b attrs =>
    match createEdge s name a b attrs with
    | Except.ok (_, s1) => (s1, none)
    | Except.error err => (s, some err)
  | POp.detach nid fuel => (detachNode fuel nid s, none)
  | POp.disposeNode nid fuel => (disposeNode fuel nid s, none)
  | POp.disposeEdge eid fuel => (disposeEdge fuel eid s, none)

/-! ## Association-list and set lemmas -/

theorem alget_alset [DecidableEq κ] (l : List (κ × α)) (k : κ) (v : α) (k' : κ) :
    alget (alset l k v) k' = if k = k' then some v else alget l k' := by
  induction l with
  | nil => by_cases h : k = k' <;> simp [alset, alget, h]
  | cons p t ih =>
    obtain ⟨k0, v0⟩ := p
    by_cases h0 : k0 = k
    · subst h0
      by_cases h : k0 = k' <;> simp [alset, alget, h]
    · by_cases h : k0 = k'
      · subst h
        have hkk : ¬ k = k0 := fun hc => h0 hc.symm
        simp [alset, alget, h0, hkk]
      · simp [alset, alget, h0, h, ih]

theorem keys_alset [DecidableEq κ] (l : List (κ × α)) (k : κ) (v : α) :
    (alset l k v).map Prod.fst =
      if k ∈ l.map Prod.fst then l.map Prod.fst else l.map Prod.fst ++ [k] := by
  induction l with
  | nil => simp [alset]
  | cons p t ih =>
    obtain ⟨k0, v0⟩ := p
    by_cases h0 : k0 = k
    · subst h0
      simp [alset]
    · have : ¬ k = k0 := fun hc => h0 hc.symm
      by_cases hmem : k ∈ t.map Prod.fst <;> simp [alset, h0, ih, hmem, this]

theorem nodupkeys_alset [DecidableEq κ] (l : List (κ × α)) (k : κ) (v : α)
    (h : (l.map Prod.fst).Nodup) : ((alset l k v).map Prod.fst).Nodup := by
  rw [keys_alset]
  by_cases hmem : k ∈ l.map Prod.fst
  · simpa [hmem] using h
  · simp only [hmem, if_false]
    exact List.Nodup.append h (List.nodup_singleton k) (List.disjoint_singleton.2 hmem)

theorem alset_cons_eq [DecidableEq κ] (k : κ) (v0 v : α) (t : List (κ × α)) :
    alset ((k, v0) :: t) k v = (k, v) :: t := by
  simp [alset]

theorem alset_cons_ne [DecidableEq κ] {k0 k : κ} (h : k0 ≠ k) (v0 : α) (v : α)
    (t : List (κ × α)) : alset ((k0, v0) :: t) k v = (k0, v0) :: alset t k v := by
  simp [alset, h]

theorem mem_alset_of_ne [DecidableEq κ] {l : List (κ × α)} {p : κ × α} (k : κ) (v : α)
    (hp : p ∈ l) (hne : p.1 ≠ k) : p ∈ alset l k v := by
  induction l with
  | nil => cases hp
  | cons q t ih =>
    obtain ⟨k0, v0⟩ := q
    by_cases h0 : k0 = k
    · subst h0
      rw [alset_cons_eq]
      rcases List.mem_cons.1 hp with h | h
      · exact absurd (congrArg Prod.fst h) (by simpa using hne)
      · exact List.mem_cons_of_mem _ h
    · rw [alset_cons_ne h0]
      rcases List.mem_cons.1 hp with h | h
      · exact h ▸ List.mem_cons_self _ _
      · exact List.mem_cons_of_mem _ (ih h)

theorem self_mem_alset [DecidableEq κ] (l : List (κ × α)) (k : κ) (v : α) :
    (k, v) ∈ alset l k v := by
  induction l with
  | nil => simp [alset]
  | cons q t ih =>
    obtain ⟨k0, v0⟩ := q
    by_cases h0 : k0 = k
    · subst h0
      rw [alset_cons_eq]
      exact List.mem_cons_self _ _
    · rw [alset_cons_ne h0]
      exact List.mem_cons_of_mem _ ih

theorem mem_alset [DecidableEq κ] {l : List (κ × α)} {p : κ × α} {k : κ} {v : α}
    (h : p ∈ alset l k v) : p = (k, v) ∨ p ∈ l := by
  induction l with
  | nil =>
    simp only [alset] at h
    exact Or.inl (List.mem_singleton.1 h)
  | cons q t ih =>
    obtain ⟨k0, v0⟩ := q
    by_cases h0 : k0 = k
    · subst h0
      rw [alset_cons_eq] at h
      rcases List.mem_cons.1 h with h1 | h1
      · exact Or.inl h1
      · exact Or.inr (List.mem_cons_of_mem _ h1)
    · rw [alset_cons_ne h0] at h
      rcases List.mem_cons.1 h with h1 | h1
      · exact Or.inr (h1 ▸ List.mem_cons_self _ _)
      · rcases ih h1 with h2 | h2
        · exact Or.inl h2
        · exact Or.inr (List.mem_cons_of_mem _ h2)

theorem mem_alset_key [DecidableEq κ] {l : List (κ × α)} {p : κ × α} {k : κ} {v : α}
    (hnd : (l.map Prod.fst).Nodup) (h : p ∈ alset l k v) (hk : p.1 = k) : p = (k, v) := by
  induction l with
  | nil =>
    simp only [alset] at h
    exact List.mem_singleton.1 h
  | cons q t ih =>
    obtain ⟨k0, v0⟩ := q
    by_cases h0 : k0 = k
    · subst h0
      rw [alset_cons_eq] at h
      rcases List.mem_cons.1 h with h1 | h1
      · exact h1
      · exact absurd (hk ▸ List.mem_map_of_mem Prod.fst h1)
          (by simpa using (List.nodup_cons.1 hnd).1)
    · rw [alset_cons_ne h0] at h
      rcases List.mem_cons.1 h with h1 | h1
      · exact absurd (hk ▸ congrArg Prod.fst h1) (fun hc => h0 hc.symm)
      · exact ih (List.nodup_cons.1 hnd).2 h1

theorem mem_sadd [DecidableEq α] {l : List α} {x y : α} :
    x ∈ sadd l y ↔ x ∈ l ∨ x = y := by
  by_cases h : y ∈ l
  · simp only [sadd, if_pos h]
    constructor
    · exact Or.inl
    · rintro (hx | rfl) <;> [exact hx; exact h]
  · simp [sadd, if_neg h]

theorem nodup_sadd [DecidableEq α] {l : List α} (y : α) (h : l.Nodup) :
    (sadd l y).Nodup := by
  by_cases hy : y ∈ l
  · simpa [sadd, hy] using h
  · simp only [sadd, if_neg hy]
    exact List.Nodup.append h (List.nodup_singleton y) (List.disjoint_singleton.2 hy)

theorem mem_sdel [DecidableEq α] {l : List α} {x y : α} :
    x ∈ sdel l y ↔ x ∈ l ∧ x ≠ y := by
  simp [sdel, List.mem_filter]

theorem nodup_sdel [DecidableEq α] {l : List α} (y : α) (h : l.Nodup) :
    (sdel l y).Nodup :=
  List.Nodup.filter _ h

theorem mem_dedup [DecidableEq α] {l : List α} {x : α} :
    x ∈ dedup l ↔ x ∈ l := by
  induction l with
  | nil => simp [dedup]
  | cons y t ih =>
    by_cases h : y ∈ t
    · simp only [dedup, if_pos h, ih, List.mem_cons]
      constructor
      · exact Or.inr
      · rintro (rfl | hx) <;> [exact h; exact hx]
    · simp [dedup, if_neg h, ih, List.mem_cons]

theorem dedup_eq_nil [DecidableEq α] {l : List α} : dedup l = [] ↔ l = [] := by
  constructor
  · intro h
    cases l with
    | nil => rfl
    | cons y t =>
      exfalso
      have : y ∈ dedup (y :: t) := mem_dedup.2 (List.mem_cons_self y t)
      simp [h] at this
  · rintro rfl; rfl

theorem alget_mem [DecidableEq κ] {l : List (κ × α)} {k : κ} {v : α}
    (h : alget l k = some v) : (k, v) ∈ l := by
  induction l with
  | nil => simp [alget] at h
  | cons q t ih =>
    obtain ⟨k0, v0⟩ := q
    by_cases h0 : k0 = k
    · subst h0
      have hv : v0 = v := by simpa [alget] using h
      exact hv ▸ List.mem_cons_self _ _
    · simp only [alget, if_neg h0] at h
      exact List.mem_cons_of_mem _ (ih h)

theorem alget_isSome_of_mem [DecidableEq κ] {l : List (κ × α)} {p : κ × α}
    (h : p ∈ l) : (alget l p.1).isSome = true := by
  induction l with
  | nil => cases h
  | cons q t ih =>
    obtain ⟨k0, v0⟩ := q
    rcases List.mem_cons.1 h with h1 | h1
    · subst h1; simp [alget]
    · by_cases h0 : k0 = p.1
      · simp [alget, h0]
      · simpa [alget, h0] using ih h1

/-! ## State projection lemmas -/

@[simp] theorem getEdge_setNode (s : PGState) (nid : Nat) (n : NodeRec) (eid : Nat) :
    getEdge (setNode s nid n) eid = getEdge s eid := rfl

@[simp] theorem getEdge_setGraph (s : PGState) (gid : Nat) (g : GraphRec) (eid : Nat) :
    getEdge (setGraph s gid g) eid = getEdge s eid := rfl

@[simp] theorem getEdge_dispatchEvent (s : PGState) (ev : Event) (eid : Nat) :
    getEdge (dispatchEvent s ev) eid = getEdge s eid := rfl

@[simp] theorem getNode_setEdge (s : PGState) (eid : Nat) (e : EdgeRec) (nid : Nat) :
    getNode (setEdge s eid e) nid = getNode s nid := rfl

@[simp] theorem getNode_setGraph (s : PGState) (gid : Nat) (g : GraphRec) (nid : Nat) :
    getNode (setGraph s gid g) nid = getNode s nid := rfl

@[simp] theorem getNode_dispatchEvent (s : PGState) (ev : Event) (nid : Nat) :
    getNode (dispatchEvent s ev) nid = getNode s nid := rfl

@[simp] theorem getGraph_setNode (s : PGState) (nid : Nat) (n : NodeRec) (gid : Nat) :
    getGraph (setNode s nid n) gid = getGraph s gid := rfl

@[simp] theorem getGraph_setEdge (s : PGState) (eid : Nat) (e : EdgeRec) (gid : Nat) :
    getGraph (setEdge s eid e) gid = getGraph s gid := rfl

@[simp] theorem getGraph_dispatchEvent (s : PGState) (ev : Event) (gid : Nat) :
    getGraph (dispatchEvent s ev) gid = getGraph s gid := rfl

theorem getEdge_setEdge (s : PGState) (eid : Nat) (e : EdgeRec) (x : Nat) :
    getEdge (setEdge s eid e) x = if eid = x then some e else getEdge s x :=
  alget_alset s.edges eid e x

theorem getNode_setNode (s : PGState) (nid : Nat) (n : NodeRec) (x : Nat) :
    getNode (setNode s nid n) x = if nid = x then some n else getNode s x :=
  alget_alset s.nodes nid n x

theorem getGraph_setGraph (s : PGState) (gid : Nat) (g : GraphRec) (x : Nat) :
    getGraph (setGraph s gid g) x = if gid = x then some g else getGraph s x :=
  alget_alset s.graphs gid g x

/-! ## Index consistency invariant -/

/-- The graph-relevant core of an edge record: its graph, owner and
resource (these fields are never mutated by the engine). -/
def edgeCoreV (s : PGState) (eid : Nat) : Option (Nat × Nat × Nat) :=
  (getEdge s eid).map (fun r => (r.graphId, r.parent, r.child))

def evGid (ev : Nat → Option (Nat × Nat × Nat)) (eid : Nat) : Option Nat :=
  (ev eid).map (fun t => t.1)

def evParent (ev : Nat → Option (Nat × Nat × Nat)) (eid : Nat) : Nat :=
  ((ev eid).map (fun t => t.2.1)).getD 0

def evChild (ev : Nat → Option (Nat × Nat × Nat)) (eid : Nat) : Nat :=
  ((ev eid).map (fun t => t.2.2)).getD 0

/-- One bucket map is consistent with the master set: unique keys,
duplicate-free buckets, and every bucket entry lies in the master set in
the bucket keyed by `keyOf` of the edge (its owner resp. resource) — so an
edge occurs in exactly one bucket. -/
def SideWF (keyOf : Nat → Nat) (edges : List Nat) (m : List (Nat × List Nat)) : Prop :=
  (m.map Prod.fst).Nodup ∧
  ∀ p ∈ m, p.2.Nodup ∧ ∀ eid ∈ p.2, eid ∈ edges ∧ keyOf eid = p.1

/-- Mutual consistency of one graph's three index structures, relative to
an edge-core view: the master set is duplicate-free; every master edge
exists, belongs to this graph, and lies in its owner's outgoing bucket and
its resource's incoming bucket; and both bucket maps satisfy `SideWF`. -/
def GraphWF (ev : Nat → Option (Nat × Nat × Nat)) (gid : Nat) (g : GraphRec) : Prop :=
  g.edges.Nodup ∧
  (∀ eid ∈ g.edges,
      evGid ev eid = some gid ∧
      eid ∈ bucket g.parentEdges (evParent ev eid) ∧
      eid ∈ bucket g.childEdges (evChild ev eid)) ∧
  SideWF (evParent ev) g.edges g.parentEdges ∧
  SideWF (evChild ev) g.edges g.childEdges

/-- Global well-formedness of the index structures: unique ids, ids below
the fresh-id counters, every node's graph exists, and every graph's three
indices are mutually consistent. -/
def IndexWF (s : PGState) : Prop :=
  (s.graphs.map Prod.fst).Nodup ∧
  (s.nodes.map Prod.fst).Nodup ∧
  (s.edges.map Prod.fst).Nodup ∧
  (∀ p ∈ s.graphs, p.1 < s.nextGraphId) ∧
  (∀ p ∈ s.nodes, p.1 < s.nextNodeId ∧ (alget s.graphs p.2.graphId).isSome = true) ∧
  (∀ p ∈ s.edges, p.1 < s.nextEdgeId) ∧
  (∀ p ∈ s.graphs, GraphWF (edgeCoreV s) p.1 p.2)

theorem SideWF_congr {keyOf keyOf' : Nat → Nat} {edges : List Nat}
    {m : List (Nat × List Nat)} (hag : ∀ x ∈ edges, keyOf' x = keyOf x)
    (h : SideWF keyOf edges m) : SideWF keyOf' edges m := by
  refine ⟨h.1, fun p hp => ⟨(h.2 p hp).1, fun eid hm => ?_⟩⟩
  have := (h.2 p hp).2 eid hm
  exact ⟨this.1, (hag eid this.1).trans this.2⟩

theorem GraphWF_congr {ev ev' : Nat → Option (Nat × Nat × Nat)} {gid : Nat} {g : GraphRec}
    (hag : ∀ x ∈ g.edges, ev' x = ev x) (h : GraphWF ev gid g) : GraphWF ev' gid g := by
  obtain ⟨h1, h2, h3, h4⟩ := h
  refine ⟨h1, ?_, ?_, ?_⟩
  · intro eid hm
    have := h2 eid hm
    simpa [evGid, evParent, evChild, hag eid hm] using this
  · exact SideWF_congr (fun x hx => by simp [evParent, hag x hx]) h3
  · exact SideWF_congr (fun x hx => by simp [evChild, hag x hx]) h4

/-! ## Frame lemmas for the invariant -/

theorem bucket_alset_self (m : List (Nat × List Nat)) (k : Nat) (l : List Nat) :
    bucket (alset m k l) k = l := by
  simp [bucket, alget_alset]

theorem bucket_alset_ne (m : List (Nat × List Nat)) {k x : Nat} (h : k ≠ x) (l : List Nat) :
    bucket (alset m k l) x = bucket m x := by
  simp [bucket, alget_alset, h]

theorem bucket_cases (m : List (Nat × List Nat)) (n : Nat) :
    bucket m n = [] ∨ (n, bucket m n) ∈ m := by
  cases h : alget m n with
  | none => exact Or.inl (by simp [bucket, h])
  | some l => exact Or.inr (by simpa [bucket, h] using alget_mem h)

theorem alget_alset_isSome_mono [DecidableEq κ] {l : List (κ × α)} {x : κ} (k : κ) (v : α)
    (h : (alget l x).isSome = true) : (alget (alset l k v) x).isSome = true := by
  rw [alget_alset]
  by_cases hk : k = x <;> simp [hk, h]

theorem keys_alset_of_mem [DecidableEq κ] {l : List (κ × α)} {k : κ} (v : α)
    (h : (alget l k).isSome = true) : (alset l k v).map Prod.fst = l.map Prod.fst := by
  rw [keys_alset]
  have : k ∈ l.map Prod.fst := by
    rcases Option.isSome_iff_exists.1 h with ⟨w, hw⟩
    exact List.mem_map_of_mem Prod.fst (alget_mem hw)
  simp [this]

theorem mem_keys_of_getEdge {s : PGState} {eid : Nat} {e : EdgeRec}
    (h : getEdge s eid = some e) : eid ∈ s.edges.map Prod.fst :=
  List.mem_map_of_mem Prod.fst (alget_mem h)

theorem edgeCoreV_setEdge_core {s : PGState} {eid : Nat} {e e' : EdgeRec}
    (h : getEdge s eid = some e) (h1 : e'.graphId = e.graphId)
    (h2 : e'.parent = e.parent) (h3 : e'.child = e.child) :
    edgeCoreV (setEdge s eid e') = edgeCoreV s := by
  funext x
  unfold edgeCoreV
  rw [show getEdge (setEdge s eid e') x = alget (alset s.edges eid e') x from rfl,
    alget_alset]
  by_cases hx : eid = x
  · subst hx
    rw [if_pos rfl, h]
    simp [h1, h2, h3]
  · rw [if_neg hx]
    rfl

theorem IndexWF_dispatchEvent {s : PGState} (ev : Event) (h : IndexWF s) :
    IndexWF (dispatchEvent s ev) := h

theorem IndexWF_setNode {s : PGState} {nid : Nat} {n0 : NodeRec} (n : NodeRec)
    (hwf : IndexWF s) (hn : getNode s nid = some n0) (hg : n.graphId = n0.graphId) :
    IndexWF (setNode s nid n) := by
  obtain ⟨w1, w2, w3, w4, w5, w6, w7⟩ := hwf
  refine ⟨w1, ?_, w3, w4, ?_, w6, w7⟩
  · show ((alset s.nodes nid n).map Prod.fst).Nodup
    rw [keys_alset_of_mem n (by rw [show alget s.nodes nid = getNode s nid from rfl, hn]; rfl)]
    exact w2
  · intro p hp
    rcases mem_alset hp with rfl | hp'
    · have hold := w5 (nid, n0) (alget_mem hn)
      exact ⟨hold.1, by show (alget s.graphs n.graphId).isSome = true; rw [hg]; exact hold.2⟩
    · exact w5 p hp'

theorem IndexWF_updNode {s : PGState} {nid : Nat} {f : NodeRec → NodeRec}
    (hwf : IndexWF s) (hf : ∀ n, (f n).graphId = n.graphId) :
    IndexWF (updNode s nid f) := by
  unfold updNode
  cases hn : getNode s nid with
  | none => exact hwf
  | some n0 => exact IndexWF_setNode (f n0) hwf hn (hf n0)

theorem IndexWF_setEdge_core {s : PGState} {eid : Nat} {e e' : EdgeRec}
    (hwf : IndexWF s) (h : getEdge s eid = some e) (h1 : e'.graphId = e.graphId)
    (h2 : e'.parent = e.parent) (h3 : e'.child = e.child) :
    IndexWF (setEdge s eid e') := by
  obtain ⟨w1, w2, w3, w4, w5, w6, w7⟩ := hwf
  have hcore := edgeCoreV_setEdge_core h h1 h2 h3
  refine ⟨w1, w2, ?_, w4, w5, ?_, ?_⟩
  · show ((alset s.edges eid e').map Prod.fst).Nodup
    rw [keys_alset_of_mem e' (by rw [show alget s.edges eid = getEdge s eid from rfl, h]; rfl)]
    exact w3
  · intro p hp
    rcases mem_alset hp with rfl | hp'
    · exact w6 (eid, e) (alget_mem h)
    · exact w6 p hp'
  · intro p hp
    have := w7 p hp
    show GraphWF (edgeCoreV (setEdge s eid e')) p.1 p.2
    rw [hcore]
    exact this

theorem IndexWF_addListener {s : PGState} (eid : Nat) (hk : Hook) (hwf : IndexWF s) :
    IndexWF (addListener s eid hk) := by
  unfold addListener
  cases h : getEdge s eid with
  | none => exact hwf
  | some e => exact IndexWF_setEdge_core hwf h rfl rfl rfl

/-! ## Registration and removal preserve the bucket invariants -/

theorem bucket_nodup_of_side {keyOf : Nat → Nat} {edges : List Nat}
    {m : List (Nat × List Nat)} (h : SideWF keyOf edges m) (k : Nat) :
    (bucket m k).Nodup := by
  rcases bucket_cases m k with hb | hb
  · simp [hb]
  · exact (h.2 _ hb).1

theorem mem_bucket_spec {keyOf : Nat → Nat} {edges : List Nat}
    {m : List (Nat × List Nat)} (h : SideWF keyOf edges m) {k eid : Nat}
    (hm : eid ∈ bucket m k) : eid ∈ edges ∧ keyOf eid = k := by
  rcases bucket_cases m k with hb | hb
  · rw [hb] at hm; cases hm
  · exact (h.2 _ hb).2 eid hm

theorem SideWF_register (keyOf : Nat → Nat) {edges : List Nat}
    {m : List (Nat × List Nat)} {eid key : Nat}
    (h : SideWF keyOf edges m) (hk : keyOf eid = key) :
    SideWF keyOf (sadd edges eid) (alset m key (sadd (bucket m key) eid)) := by
  refine ⟨nodupkeys_alset _ _ _ h.1, ?_⟩
  intro q hq
  by_cases hqk : q.1 = key
  · have hq' := mem_alset_key h.1 hq hqk
    rw [hq']
    refine ⟨nodup_sadd eid (bucket_nodup_of_side h key), ?_⟩
    intro x hx
    rcases mem_sadd.1 hx with hx' | rfl
    · have := mem_bucket_spec h hx'
      exact ⟨mem_sadd.2 (Or.inl this.1), this.2⟩
    · exact ⟨mem_sadd.2 (Or.inr rfl), hk⟩
  · rcases mem_alset hq with rfl | hq'
    · exact absurd rfl hqk
    · refine ⟨(h.2 q hq').1, ?_⟩
      intro x hx
      have := (h.2 q hq').2 x hx
      exact ⟨mem_sadd.2 (Or.inl this.1), this.2⟩

theorem SideWF_remove (keyOf : Nat → Nat) {edges : List Nat}
    {m : List (Nat × List Nat)} {eid key : Nat}
    (h : SideWF keyOf edges m) (hk : keyOf eid = key) :
    SideWF keyOf (sdel edges eid) (alset m key (sdel (bucket m key) eid)) := by
  refine ⟨nodupkeys_alset _ _ _ h.1, ?_⟩
  intro q hq
  by_cases hqk : q.1 = key
  · have hq' := mem_alset_key h.1 hq hqk
    rw [hq']
    refine ⟨nodup_sdel eid (bucket_nodup_of_side h key), ?_⟩
    intro x hx
    have hx' := mem_sdel.1 hx
    have := mem_bucket_spec h hx'.1
    exact ⟨mem_sdel.2 ⟨this.1, hx'.2⟩, this.2⟩
  · rcases mem_alset hq with rfl | hq'
    · exact absurd rfl hqk
    · refine ⟨(h.2 q hq').1, ?_⟩
      intro x hx
      have := (h.2 q hq').2 x hx
      have hxne : x ≠ eid := by
        intro hxe
        exact hqk (by rw [← this.2, hxe, hk])
      exact ⟨mem_sdel.2 ⟨this.1, hxne⟩, this.2⟩

theorem GraphWF_registerEdgeIdx {ev ev' : Nat → Option (Nat × Nat × Nat)} {gid : Nat}
    {g : GraphRec} {eid a b : Nat}
    (h : GraphWF ev gid g)
    (hag : ∀ x ∈ g.edges, ev' x = ev x)
    (hnew : ev' eid = some (gid, a, b)) :
    GraphWF ev' gid (registerEdgeIdx g eid a b) := by
  have h' : GraphWF ev' gid g := GraphWF_congr hag h
  obtain ⟨h1, h2, h3, h4⟩ := h'
  have hpa : evParent ev' eid = a := by simp [evParent, hnew]
  have hcb : evChild ev' eid = b := by simp [evChild, hnew]
  refine ⟨nodup_sadd eid h1, ?_, ?_, ?_⟩
  · intro x hx
    rcases mem_sadd.1 hx with hx' | hx2
    · obtain ⟨hg2, hp2, hc2⟩ := h2 x hx'
      refine ⟨hg2, ?_, ?_⟩
      · show x ∈ bucket (alset g.parentEdges a (sadd (bucket g.parentEdges a) eid)) _
        by_cases hxa : a = evParent ev' x
        · rw [← hxa, bucket_alset_self]
          exact mem_sadd.2 (Or.inl (hxa ▸ hp2))
        · rw [bucket_alset_ne _ hxa]
          exact hp2
      · show x ∈ bucket (alset g.childEdges b (sadd (bucket g.childEdges b) eid)) _
        by_cases hxb : b = evChild ev' x
        · rw [← hxb, bucket_alset_self]
          exact mem_sadd.2 (Or.inl (hxb ▸ hc2))
        · rw [bucket_alset_ne _ hxb]
          exact hc2
    · rw [hx2]
      refine ⟨by simp [evGid, hnew], ?_, ?_⟩
      · show eid ∈ bucket (alset g.parentEdges a (sadd (bucket g.parentEdges a) eid)) _
        rw [hpa, bucket_alset_self]
        exact mem_sadd.2 (Or.inr rfl)
      · show eid ∈ bucket (alset g.childEdges b (sadd (bucket g.childEdges b) eid)) _
        rw [hcb, bucket_alset_self]
        exact mem_sadd.2 (Or.inr rfl)
  · exact SideWF_register _ h3 hpa
  · exact SideWF_register _ h4 hcb

theorem GraphWF_removeEdgeIdx {ev : Nat → Option (Nat × Nat × Nat)} {gid : Nat}
    {g : GraphRec} {eid : Nat}
    (h : GraphWF ev gid g) :
    GraphWF ev gid (removeEdgeIdx g eid (evParent ev eid) (evChild ev eid)) := by
  obtain ⟨h1, h2, h3, h4⟩ := h
  refine ⟨nodup_sdel eid h1, ?_, ?_, ?_⟩
  · intro x hx
    have hx' := mem_sdel.1 hx
    obtain ⟨hg2, hp2, hc2⟩ := h2 x hx'.1
    refine ⟨hg2, ?_, ?_⟩
    · show x ∈ bucket (alset g.parentEdges (evParent ev eid)
        (sdel (bucket g.parentEdges (evParent ev eid)) eid)) _
      by_cases hxa : evParent ev eid = evParent ev x
      · rw [← hxa, bucket_alset_self]
        exact mem_sdel.2 ⟨hxa ▸ hp2, hx'.2⟩
      · rw [bucket_alset_ne _ hxa]
        exact hp2
    · show x ∈ bucket (alset g.childEdges (evChild ev eid)
        (sdel (bucket g.childEdges (evChild ev eid)) eid)) _
      by_cases hxb : evChild ev eid = evChild ev x
      · rw [← hxb, bucket_alset_self]
        exact mem_sdel.2 ⟨hxb ▸ hc2, hx'.2⟩
      · rw [bucket_alset_ne _ hxb]
        exact hc2
  · exact SideWF_remove _ h3 rfl
  · exact SideWF_remove _ h4 rfl

theorem master_mem_isSome {s : PGState} {gid : Nat} {g : GraphRec}
    (hg : GraphWF (edgeCoreV s) gid g) {x : Nat} (hx : x ∈ g.edges) :
    (getEdge s x).isSome = true := by
  have h := (hg.2.1 x hx).1
  unfold evGid edgeCoreV at h
  cases hge : getEdge s x with
  | none => rw [hge] at h; cases h
  | some e => rfl

theorem master_mem_lt {s : PGState} (w6 : ∀ p ∈ s.edges, p.1 < s.nextEdgeId)
    {gid : Nat} {g : GraphRec} (hg : GraphWF (edgeCoreV s) gid g) {x : Nat}
    (hx : x ∈ g.edges) : x < s.nextEdgeId := by
  rcases Option.isSome_iff_exists.1 (master_mem_isSome hg hx) with ⟨e, he⟩
  exact w6 (x, e) (alget_mem he)

theorem IndexWF_runGraphRemove {s : PGState} (eid : Nat) (hwf : IndexWF s) :
    IndexWF (runGraphRemove s eid) := by
  unfold runGraphRemove
  cases he : getEdge s eid with
  | none => exact hwf
  | some e =>
    dsimp only
    cases hg : getGraph s e.graphId with
    | none => exact hwf
    | some gr =>
      dsimp only
      obtain ⟨w1, w2, w3, w4, w5, w6, w7⟩ := hwf
      have hple : evParent (edgeCoreV s) eid = e.parent := by
        simp [evParent, edgeCoreV, he]
      have hcle : evChild (edgeCoreV s) eid = e.child := by
        simp [evChild, edgeCoreV, he]
      refine ⟨?_, w2, w3, ?_, ?_, w6, ?_⟩
      · show ((alset s.graphs e.graphId _).map Prod.fst).Nodup
        rw [keys_alset_of_mem _ (by
          rw [show alget s.graphs e.graphId = getGraph s e.graphId from rfl, hg]; rfl)]
        exact w1
      · intro p hp
        rcases mem_alset hp with hpeq | hp'
        · rw [hpeq]
          exact w4 (e.graphId, gr) (alget_mem hg)
        · exact w4 p hp'
      · intro p hp
        exact ⟨(w5 p hp).1, alget_alset_isSome_mono _ _ (w5 p hp).2⟩
      · intro p hp
        by_cases hpg : p.1 = e.graphId
        · have hp' := mem_alset_key w1 hp hpg
          rw [hp']
          have hwf_gr := w7 (e.graphId, gr) (alget_mem hg)
          have hrem := @GraphWF_removeEdgeIdx _ _ _ eid hwf_gr
          rw [hple, hcle] at hrem
          exact hrem
        · rcases mem_alset hp with hpeq | hp'
          · exact absurd (congrArg Prod.fst hpeq) (by simpa using hpg)
          · exact w7 p hp'

theorem edgeCoreV_register_ne (s : PGState) (eid : Nat) (rec : EdgeRec) (gid : Nat)
    (g : GraphRec) (x : Nat) (hx : x ≠ eid) :
    edgeCoreV (setGraph
      { s with edges := alset s.edges eid rec, nextEdgeId := eid + 1 } gid g) x =
      edgeCoreV s x := by
  unfold edgeCoreV
  rw [show getEdge (setGraph
      { s with edges := alset s.edges eid rec, nextEdgeId := eid + 1 } gid g) x =
      alget (alset s.edges eid rec) x from rfl,
    alget_alset, if_neg (fun hc => hx hc.symm)]
  rfl

theorem edgeCoreV_register_self (s : PGState) (eid : Nat) (rec : EdgeRec) (gid : Nat)
    (g : GraphRec) :
    edgeCoreV (setGraph
      { s with edges := alset s.edges eid rec, nextEdgeId := eid + 1 } gid g) eid =
      some (rec.graphId, rec.parent, rec.child) := by
  unfold edgeCoreV
  rw [show getEdge (setGraph
      { s with edges := alset s.edges eid rec, nextEdgeId := eid + 1 } gid g) eid =
      alget (alset s.edges eid rec) eid from rfl,
    alget_alset, if_pos rfl]
  rfl

theorem IndexWF_createEdge {s s' : PGState} {name : String} {a b eid : Nat}
    {attrs : List (String × String)} (hwf : IndexWF s)
    (hok : createEdge s name a b attrs = Except.ok (eid, s')) :
    IndexWF s' ∧ eid = s.nextEdgeId := by
  obtain ⟨w1, w2, w3, w4, w5, w6, w7⟩ := hwf
  unfold createEdge at hok
  cases hna : getNode s a with
  | none => rw [hna] at hok; cases hok
  | some na =>
  cases hnb : getNode s b with
  | none => rw [hna, hnb] at hok; cases hok
  | some nb =>
  rw [hna, hnb] at hok
  dsimp only at hok
  by_cases hgid : na.graphId = nb.graphId
  · rw [if_pos hgid] at hok
    simp only [Except.ok.injEq, Prod.mk.injEq] at hok
    obtain ⟨heid, hs'⟩ := hok
    subst heid
    have hgisSome : (alget s.graphs na.graphId).isSome = true :=
      (w5 (a, na) (alget_mem hna)).2
    rcases Option.isSome_iff_exists.1 hgisSome with ⟨gr, hgr⟩
    have hgrD : (getGraph s na.graphId).getD emptyGraph = gr := by
      rw [show getGraph s na.graphId = alget s.graphs na.graphId from rfl, hgr]; rfl
    rw [hgrD] at hs'
    subst hs'
    refine And.intro ?_ rfl
    set eid := s.nextEdgeId with heiddef
    have hfreshkey : eid ∉ s.edges.map Prod.fst := by
      intro hmem
      rcases List.mem_map.1 hmem with ⟨p, hp, hp1⟩
      exact absurd (hp1 ▸ w6 p hp) (lt_irrefl _)
    refine ⟨?_, w2, ?_, ?_, ?_, ?_, ?_⟩
    · show ((alset s.graphs na.graphId _).map Prod.fst).Nodup
      rw [keys_alset_of_mem _ hgisSome]
      exact w1
    · show ((alset s.edges eid _).map Prod.fst).Nodup
      rw [keys_alset]
      simp only [hfreshkey, if_false]
      exact List.Nodup.append w3 (List.nodup_singleton eid)
        (List.disjoint_singleton.2 hfreshkey)
    · intro p hp
      rcases mem_alset hp with hpeq | hp'
      · rw [hpeq]
        exact w4 (na.graphId, gr) (alget_mem hgr)
      · exact w4 p hp'
    · intro p hp
      exact ⟨(w5 p hp).1, alget_alset_isSome_mono _ _ (w5 p hp).2⟩
    · intro p hp
      rcases mem_alset hp with hpeq | hp'
      · rw [hpeq]
        exact Nat.lt_succ_self _
      · exact Nat.lt_succ_of_lt (w6 p hp')
    · intro p hp
      have hcore_old := fun (x : Nat) (hx : x ≠ eid) =>
        edgeCoreV_register_ne s eid
          { name := name, parent := a, child := b, attrs := attrs,
            graphId := na.graphId, disposed := false, listeners := [Hook.graphRemove] }
          na.graphId (registerEdgeIdx gr eid a b) x hx
      have hcore_new :=
        edgeCoreV_register_self s eid
          { name := name, parent := a, child := b, attrs := attrs,
            graphId := na.graphId, disposed := false, listeners := [Hook.graphRemove] }
          na.graphId (registerEdgeIdx gr eid a b)
      by_cases hpg : p.1 = na.graphId
      · have hp' := mem_alset_key w1 hp hpg
        rw [hp']
        refine GraphWF_registerEdgeIdx (w7 (na.graphId, gr) (alget_mem hgr)) ?_ hcore_new
        intro x hx
        exact hcore_old x (Nat.ne_of_lt (master_mem_lt w6 (w7 _ (alget_mem hgr)) hx))
      · rcases mem_alset hp with hpeq | hp'
        · exact absurd (congrArg Prod.fst hpeq) (by simpa using hpg)
        · refine GraphWF_congr ?_ (w7 p hp')
          intro x hx
          exact hcore_old x (Nat.ne_of_lt (master_mem_lt w6 (w7 p hp') hx))
  · rw [if_neg hgid] at hok
    cases hok

theorem IndexWF_runSingleCleanup {s : PGState} (o : Nat) (attr : String)
    (hwf : IndexWF s) : IndexWF (runSingleCleanup s o attr) := by
  unfold runSingleCleanup
  cases hn : getNode s o with
  | none => exact hwf
  | some n =>
    exact IndexWF_dispatchEvent _ (IndexWF_setNode _ hwf hn rfl)

theorem IndexWF_runCollCleanup {s : PGState} (o : Nat) (attr : String) (eid : Nat)
    (hwf : IndexWF s) : IndexWF (runCollCleanup s o attr eid) := by
  unfold runCollCleanup
  cases hn : getNode s o with
  | none => exact hwf
  | some n =>
    exact IndexWF_dispatchEvent _ (IndexWF_setNode _ hwf hn rfl)

theorem IndexWF_runMapCleanup {s : PGState} (o : Nat) (attr key : String)
    (hwf : IndexWF s) : IndexWF (runMapCleanup s o attr key) := by
  unfold runMapCleanup
  cases hn : getNode s o with
  | none => exact hwf
  | some n =>
    exact IndexWF_dispatchEvent _ (IndexWF_setNode _ hwf hn rfl)

theorem runD_zero (t : DTask) (s : PGState) : runD 0 t s = s := rfl

theorem runD_edge (f eid : Nat) (s : PGState) :
    runD (f + 1) (DTask.edge eid) s =
      match getEdge s eid with
      | none => s
      | some e =>
        if e.disposed then s
        else
          let s1 := setEdge s eid { e with disposed := true }
          let s2 := runD f (DTask.hooks e.listeners eid) s1
          match getEdge s2 eid with
          | some e2 => setEdge s2 eid { e2 with listeners := [] }
          | none => s2 := rfl

theorem runD_node (f nid : Nat) (s : PGState) :
    runD (f + 1) (DTask.node nid) s =
      match getNode s nid with
      | none => s
      | some n =>
        if n.disposed then s
        else
          let s1 := runD f (DTask.edges (listChildEdgesS s nid)) s
          let s2 := runD f (DTask.edges (listParentEdgesS s1 nid)) s1
          let s3 :=
            match getNode s2 nid with
            | some n2 => setNode s2 nid { n2 with disposed := true }
            | none => s2
          dispatchEvent s3 (Event.nodeDispose nid) := rfl

theorem runD_hooks_nil (f : Nat) (eid : Nat) (s : PGState) :
    runD (f + 1) (DTask.hooks [] eid) s = s := rfl

theorem runD_hooks_cons (f : Nat) (hk : Hook) (t : List Hook) (eid : Nat) (s : PGState) :
    runD (f + 1) (DTask.hooks (hk :: t) eid) s =
      runD f (DTask.hooks t eid)
        (match hk with
          | Hook.graphRemove => runGraphRemove s eid
          | Hook.singleCleanup o a => runSingleCleanup s o a
          | Hook.collCleanup o a => runCollCleanup s o a eid
          | Hook.mapCleanup o a k => runMapCleanup s o a k
          | Hook.cascadeChildDispose c => runD f (DTask.node c) s) := rfl

theorem runD_edges_nil (f : Nat) (s : PGState) :
    runD (f + 1) (DTask.edges []) s = s := rfl

theorem runD_edges_cons (f e : Nat) (t : List Nat) (s : PGState) :
    runD (f + 1) (DTask.edges (e :: t)) s =
      runD f (DTask.edges t) (runD f (DTask.edge e) s) := rfl

theorem IndexWF_runD : ∀ (fuel : Nat) (t : DTask) {s : PGState},
    IndexWF s → IndexWF (runD fuel t s) := by
  intro fuel
  induction fuel with
  | zero => intro t s h; exact h
  | succ f ih =>
    intro t s h
    cases t with
    | edge eid =>
      rw [runD_edge]
      cases he : getEdge s eid with
      | none => exact h
      | some e =>
        dsimp only
        by_cases hd : e.disposed
        · rw [if_pos hd]; exact h
        · rw [if_neg hd]
          have h1 : IndexWF (setEdge s eid { e with disposed := true }) :=
            IndexWF_setEdge_core h he rfl rfl rfl
          have h2 := ih (DTask.hooks e.listeners eid) h1
          cases he2 : getEdge (runD f (DTask.hooks e.listeners eid)
              (setEdge s eid { e with disposed := true })) eid with
          | none => exact h2
          | some e2 =>
            exact IndexWF_setEdge_core h2 he2 rfl rfl rfl
    | node nid =>
      rw [runD_node]
      cases hn : getNode s nid with
      | none => exact h
      | some n =>
        dsimp only
        by_cases hd : n.disposed
        · rw [if_pos hd]; exact h
        · rw [if_neg hd]
          have h1 := ih (DTask.edges (listChildEdgesS s nid)) h
          have h2 := ih (DTask.edges (listParentEdgesS
            (runD f (DTask.edges (listChildEdgesS s nid)) s) nid)) h1
          cases hn2 : getNode (runD f (DTask.edges (listParentEdgesS
              (runD f (DTask.edges (listChildEdgesS s nid)) s) nid))
              (runD f (DTask.edges (listChildEdgesS s nid)) s)) nid with
          | none => exact IndexWF_dispatchEvent _ h2
          | some n2 =>
            exact IndexWF_dispatchEvent _ (IndexWF_setNode _ h2 hn2 rfl)
    | hooks l eid =>
      cases l with
      | nil => rw [runD_hooks_nil]; exact h
      | cons hk t =>
        rw [runD_hooks_cons]
        have h1 : IndexWF (match hk with
            | Hook.graphRemove => runGraphRemove s eid
            | Hook.singleCleanup o a => runSingleCleanup s o a
            | Hook.collCleanup o a => runCollCleanup s o a eid
            | Hook.mapCleanup o a k => runMapCleanup s o a k
            | Hook.cascadeChildDispose c => runD f (DTask.node c) s) := by
          cases hk with
          | graphRemove => exact IndexWF_runGraphRemove eid h
          | singleCleanup o a => exact IndexWF_runSingleCleanup o a h
          | collCleanup o a => exact IndexWF_runCollCleanup o a eid h
          | mapCleanup o a k => exact IndexWF_runMapCleanup o a k h
          | cascadeChildDispose c => exact ih (DTask.node c) h
        exact ih (DTask.hooks t eid) h1
    | edges l =>
      cases l with
      | nil => rw [runD_edges_nil]; exact h
      | cons e t =>
        rw [runD_edges_cons]
        exact ih (DTask.edges t) (ih (DTask.edge e) h)

/-! ## Every public mutating operation preserves the index invariant -/

theorem IndexWF_setLitOp {s : PGState} (nid : Nat) (attr v : String)
    (hwf : IndexWF s) : IndexWF (setLitOp s nid attr v) := by
  unfold setLitOp
  cases hn : getNode s nid with
  | none => exact hwf
  | some n => exact IndexWF_dispatchEvent _ (IndexWF_setNode _ hwf hn rfl)

theorem IndexWF_setRefRest {s : PGState} (nid : Nat) (attr : String)
    (value : Option Nat) (attrs : List (String × String)) (hwf : IndexWF s) :
    IndexWF (setRefRest s nid attr value attrs).1 := by
  unfold setRefRest
  cases value with
  | none => exact hwf
  | some b =>
    dsimp only
    cases hok : createEdge s attr nid b attrs with
    | error err => exact hwf
    | ok r =>
      obtain ⟨eid, s1⟩ := r
      dsimp only
      exact IndexWF_dispatchEvent _
        (IndexWF_updNode (IndexWF_addListener _ _ (IndexWF_createEdge hwf hok).1)
          (fun _ => rfl))

theorem IndexWF_setRefOp {s : PGState} (nid : Nat) (attr : String)
    (value : Option Nat) (attrs : List (String × String)) (fuel : Nat)
    (hwf : IndexWF s) : IndexWF (setRefOp s nid attr value attrs fuel).1 := by
  unfold setRefOp
  cases hn : getNode s nid with
  | none => exact hwf
  | some n =>
    dsimp only
    by_cases him : attr ∈ n.immutableKeys
    · rw [if_pos him]; exact hwf
    · rw [if_neg him]
      cases hsl : alget n.attributes attr with
      | none => exact IndexWF_setRefRest _ _ _ _ hwf
      | some sl =>
        cases sl with
        | single prev =>
          exact IndexWF_setRefRest _ _ _ _ (IndexWF_runD fuel _ hwf)
        | nullSingle => exact IndexWF_setRefRest _ _ _ _ hwf
        | lit lv =>
          dsimp only
          by_cases hlv : lv = ""
          · rw [if_pos hlv]; exact IndexWF_setRefRest _ _ _ _ hwf
          · rw [if_neg hlv]; exact hwf
        | list es => exact hwf
        | set ord idx => exact hwf
        | map entries => exact hwf

theorem IndexWF_addRefOp {s : PGState} (nid : Nat) (attr : String) (value : Nat)
    (attrs : List (String × String)) (hwf : IndexWF s) :
    IndexWF (addRefOp s nid attr value attrs).1 := by
  unfold addRefOp
  cases hok : createEdge s attr nid value attrs with
  | error err => exact hwf
  | ok r =>
    obtain ⟨eid, s1⟩ := r
    dsimp only
    have h1 := (IndexWF_createEdge hwf hok).1
    cases hn : getNode s1 nid with
    | none => exact h1
    | some n =>
      dsimp only
      cases hsl : alget n.attributes attr with
      | none => exact h1
      | some sl =>
        cases sl with
        | single prev => exact h1
        | nullSingle => exact h1
        | lit lv => exact h1
        | list es =>
          exact IndexWF_dispatchEvent _
            (IndexWF_addListener _ _ (IndexWF_setNode _ h1 hn rfl))
        | set ord idx =>
          exact IndexWF_dispatchEvent _
            (IndexWF_addListener _ _ (IndexWF_setNode _ h1 hn rfl))
        | map entries => exact h1

theorem IndexWF_removeRefOp {s : PGState} (nid : Nat) (attr : String)
    (value fuel : Nat) (hwf : IndexWF s) :
    IndexWF (removeRefOp s nid attr value fuel).1 := by
  unfold removeRefOp
  cases hn : getNode s nid with
  | none => exact hwf
  | some n =>
    dsimp only
    cases hsl : alget n.attributes attr with
    | none => exact hwf
    | some sl =>
      cases sl with
      | single prev => exact hwf
      | nullSingle => exact hwf
      | lit lv => exact hwf
      | list es =>
        exact IndexWF_runD fuel _ (IndexWF_setNode _ hwf hn rfl)
      | set ord idx =>
        dsimp only
        cases hr : alget idx value with
        | none => exact hwf
        | some r =>
          exact IndexWF_runD fuel _ (IndexWF_setNode _ hwf hn rfl)
      | map entries => exact hwf

theorem IndexWF_setRefMapOp {s : PGState} (nid : Nat) (attr key : String)
    (value : Option Nat) (metadata : List (String × String)) (fuel : Nat)
    (hwf : IndexWF s) : IndexWF (setRefMapOp s nid attr key value metadata fuel).1 := by
  unfold setRefMapOp
  cases hn : getNode s nid with
  | none => exact hwf
  | some n =>
    dsimp only
    cases hsl : alget n.attributes attr with
    | none => exact hwf
    | some sl =>
      cases sl with
      | single prev => exact hwf
      | nullSingle => exact hwf
      | lit lv => exact hwf
      | list es => exact hwf
      | set ord idx => exact hwf
      | map entries =>
        dsimp only
        have h1 : IndexWF (match alget entries key with
            | some prev => disposeEdge fuel prev s
            | none => s) := by
          cases alget entries key with
          | none => exact hwf
          | some prev => exact IndexWF_runD fuel _ hwf
        cases value with
        | none => exact h1
        | some b =>
          dsimp only
          cases hok : createEdge (match alget entries key with
              | some prev => disposeEdge fuel prev s
              | none => s) attr nid b (alset metadata "key" key) with
          | error err => exact h1
          | ok r =>
            obtain ⟨eid, s2⟩ := r
            dsimp only
            exact IndexWF_dispatchEvent _
              (IndexWF_updNode (IndexWF_addListener _ _ (IndexWF_createEdge h1 hok).1)
                (fun _ => rfl))

theorem IndexWF_createAttributes {nid : Nat} :
    ∀ (schema : List (String × DefaultVal)) {s : PGState}, IndexWF s →
      IndexWF (createAttributes nid schema s).1 := by
  intro schema
  induction schema with
  | nil => intro s h; exact h
  | cons kv rest ih =>
    intro s h
    obtain ⟨key, v⟩ := kv
    cases v with
    | node c =>
      rw [createAttributes]
      cases hok : createEdge s key nid c [] with
      | error err => exact h
      | ok r =>
        obtain ⟨eid, s1⟩ := r
        dsimp only
        exact ih (IndexWF_updNode (IndexWF_addListener _ _ (IndexWF_createEdge h hok).1)
          (fun _ => rfl))
    | lit lv =>
      rw [createAttributes]
      exact ih (IndexWF_updNode h (fun _ => rfl))
    | nullRef =>
      rw [createAttributes]
      exact ih (IndexWF_updNode h (fun _ => rfl))
    | refList =>
      rw [createAttributes]
      exact ih (IndexWF_updNode h (fun _ => rfl))
    | refSet =>
      rw [createAttributes]
      exact ih (IndexWF_updNode h (fun _ => rfl))
    | refMap =>
      rw [createAttributes]
      exact ih (IndexWF_updNode h (fun _ => rfl))

theorem IndexWF_newNodeOp {s : PGState} (gid : Nat)
    (schema : List (String × DefaultVal)) (hwf : IndexWF s)
    (hg : (alget s.graphs gid).isSome = true) :
    IndexWF (newNodeOp s gid schema).2.1 := by
  unfold newNodeOp
  dsimp only
  refine IndexWF_createAttributes schema ?_
  obtain ⟨w1, w2, w3, w4, w5, w6, w7⟩ := hwf
  have hfresh : s.nextNodeId ∉ s.nodes.map Prod.fst := by
    intro hmem
    rcases List.mem_map.1 hmem with ⟨p, hp, hp1⟩
    exact absurd (hp1 ▸ (w5 p hp).1) (lt_irrefl _)
  refine ⟨w1, ?_, w3, w4, ?_, w6, ?_⟩
  · show ((alset s.nodes s.nextNodeId _).map Prod.fst).Nodup
    rw [keys_alset]
    simp only [hfresh, if_false]
    exact List.Nodup.append w2 (List.nodup_singleton _)
      (List.disjoint_singleton.2 hfresh)
  · intro p hp
    rcases mem_alset hp with hpeq | hp'
    · rw [hpeq]
      exact ⟨Nat.lt_succ_self _, hg⟩
    · exact ⟨Nat.lt_succ_of_lt (w5 p hp').1, (w5 p hp').2⟩
  · exact w7

theorem IndexWF_newGraphOp {s : PGState} (hwf : IndexWF s) :
    IndexWF (newGraphOp s).2 := by
  unfold newGraphOp
  obtain ⟨w1, w2, w3, w4, w5, w6, w7⟩ := hwf
  have hfresh : s.nextGraphId ∉ s.graphs.map Prod.fst := by
    intro hmem
    rcases List.mem_map.1 hmem with ⟨p, hp, hp1⟩
    exact absurd (hp1 ▸ w4 p hp) (lt_irrefl _)
  refine ⟨?_, w2, w3, ?_, ?_, w6, ?_⟩
  · show ((alset s.graphs s.nextGraphId emptyGraph).map Prod.fst).Nodup
    rw [keys_alset]
    simp only [hfresh, if_false]
    exact List.Nodup.append w1 (List.nodup_singleton _)
      (List.disjoint_singleton.2 hfresh)
  · intro p hp
    rcases mem_alset hp with hpeq | hp'
    · rw [hpeq]
      exact Nat.lt_succ_self _
    · exact Nat.lt_succ_of_lt (w4 p hp')
  · intro p hp
    exact ⟨(w5 p hp).1, alget_alset_isSome_mono _ _ (w5 p hp).2⟩
  · intro p hp
    rcases mem_alset hp with hpeq | hp'
    · rw [hpeq]
      exact ⟨List.nodup_nil, fun e he => absurd he (List.not_mem_nil e),
        ⟨List.nodup_nil, fun q hq => absurd hq (List.not_mem_nil q)⟩,
        ⟨List.nodup_nil, fun q hq => absurd hq (List.not_mem_nil q)⟩⟩
    · exact w7 p hp'

theorem IndexWF_swapListGo {nid : Nat} {attr : String} {prevV nextV fuel : Nat} :
    ∀ (l : List Nat) {s : PGState}, IndexWF s →
      IndexWF (swapListGo nid attr prevV nextV fuel l s).1 := by
  intro l
  induction l with
  | nil => intro s h; exact h
  | cons m rest ih =>
    intro s h
    rw [swapListGo]
    cases h1 : removeRefOp s nid attr prevV fuel with
    | mk s1 err1 =>
      have hs1 : IndexWF s1 := by
        have := IndexWF_removeRefOp nid attr prevV fuel h
        rw [h1] at this
        exact this
      cases err1 with
      | some e => exact hs1
      | none =>
        dsimp only
        cases h2 : addRefOp s1 nid attr nextV (edgeAttrs s m) with
        | mk s2 err2 =>
          have hs2 : IndexWF s2 := by
            have := IndexWF_addRefOp nid attr nextV (edgeAttrs s m) hs1
            rw [h2] at this
            exact this
          cases err2 with
          | some e => exact hs2
          | none => exact ih hs2

theorem IndexWF_swapMapGo {nid : Nat} {attr : String} {prevV nextV fuel : Nat} :
    ∀ (keys : List String) {s : PGState}, IndexWF s →
      IndexWF (swapMapGo nid attr prevV nextV fuel keys s).1 := by
  intro keys
  induction keys with
  | nil => intro s h; exact h
  | cons key rest ih =>
    intro s h
    rw [swapMapGo]
    have hstep : ∀ r : PGState × Option String,
        IndexWF r.1 →
        IndexWF (match r with
          | (s1, some err) => (s1, some err)
          | (s1, none) => swapMapGo nid attr prevV nextV fuel rest s1).1 := by
      intro r hr
      obtain ⟨s1, err⟩ := r
      cases err with
      | some e => exact hr
      | none => exact ih hr
    refine hstep _ ?_
    cases hn : getNode s nid with
    | none => exact h
    | some n =>
      dsimp only
      cases hsl : alget n.attributes attr with
      | none => exact h
      | some sl =>
        cases sl with
        | single e => exact h
        | nullSingle => exact h
        | lit lv => exact h
        | list es => exact h
        | set ord idx => exact h
        | map entries =>
          dsimp only
          cases hr : alget entries key with
          | none => exact h
          | some r =>
            dsimp only
            by_cases hc : edgeChildIs s r prevV
            · simp only [hc, if_true]
              exact IndexWF_setRefMapOp nid attr key (some nextV) (edgeAttrs s r) fuel h
            · simp only [hc, if_false]
              exact h

theorem IndexWF_swapAttr {s : PGState} (nid : Nat) (attr : String)
    (prevV nextV fuel : Nat) (hwf : IndexWF s) :
    IndexWF (swapAttr s nid attr prevV nextV fuel).1 := by
  unfold swapAttr
  cases hn : getNode s nid with
  | none => exact hwf
  | some n =>
    dsimp only
    cases hsl : alget n.attributes attr with
    | none => exact hwf
    | some sl =>
      cases sl with
      | single e =>
        dsimp only
        by_cases hc : edgeChildIs s e prevV
        · simp only [hc, if_true]
          exact IndexWF_setRefOp nid attr (some nextV) (edgeAttrs s e) fuel hwf
        · simp only [hc, if_false]
          exact hwf
      | nullSingle => exact hwf
      | lit lv => exact hwf
      | list es => exact IndexWF_swapListGo _ hwf
      | set ord idx =>
        dsimp only
        cases hr : alget idx prevV with
        | none => exact hwf
        | some r =>
          dsimp only
          cases h1 : removeRefOp s nid attr prevV fuel with
          | mk s1 err1 =>
            have hs1 : IndexWF s1 := by
              have := IndexWF_removeRefOp nid attr prevV fuel hwf
              rw [h1] at this
              exact this
            cases err1 with
            | some e => exact hs1
            | none => exact IndexWF_addRefOp nid attr nextV (edgeAttrs s r) hs1
      | map entries => exact IndexWF_swapMapGo _ hwf

theorem IndexWF_swapGo {nid prevV nextV fuel : Nat} :
    ∀ (attrs : List String) {s : PGState}, IndexWF s →
      IndexWF (swapGo nid prevV nextV fuel attrs s).1 := by
  intro attrs
  induction attrs with
  | nil => intro s h; exact h
  | cons attr rest ih =>
    intro s h
    rw [swapGo]
    cases h1 : swapAttr s nid attr prevV nextV fuel with
    | mk s1 err1 =>
      have hs1 : IndexWF s1 := by
        have := IndexWF_swapAttr nid attr prevV nextV fuel h
        rw [h1] at this
        exact this
      cases err1 with
      | some e => exact hs1
      | none => exact ih hs1

theorem IndexWF_swapOp {s : PGState} (nid prevV nextV fuel : Nat)
    (hwf : IndexWF s) : IndexWF (swapOp s nid prevV nextV fuel).1 := by
  unfold swapOp
  cases getNode s nid with
  | none => exact hwf
  | some n => exact IndexWF_swapGo _ hwf

/-- Runtime argument well-formedness the TypeScript API guarantees by
construction: a node is only ever created on an existing `Graph` (the
constructor receives the graph object itself). -/
def OpOK (s : PGState) : POp → Prop
  | POp.newNode gid _ => (alget s.graphs gid).isSome = true
  | _ => True

theorem IndexWF_applyOp {s : PGState} (op : POp) (hwf : IndexWF s)
    (hok : OpOK s op) : IndexWF (applyOp s op).1 := by
  cases op with
  | newGraph => exact IndexWF_newGraphOp hwf
  | newNode gid schema => exact IndexWF_newNodeOp gid schema hwf hok
  | setLit nid attr v => exact IndexWF_setLitOp nid attr v hwf
  | setRef nid attr value attrs fuel => exact IndexWF_setRefOp nid attr value attrs fuel hwf
  | addRef nid attr value attrs => exact IndexWF_addRefOp nid attr value attrs hwf
  | removeRef nid attr value fuel => exact IndexWF_removeRefOp nid attr value fuel hwf
  | setRefMap nid attr key value metadata fuel =>
    exact IndexWF_setRefMapOp nid attr key value metadata fuel hwf
  | swap nid prevV nextV fuel => exact IndexWF_swapOp nid prevV nextV fuel hwf
  | createEdgeOp name a b attrs =>
    show IndexWF (match createEdge s name a b attrs with
      | Except.ok (_, s1) => (s1, none)
      | Except.error err => (s, some err)).1
    cases hok2 : createEdge s name a b attrs with
    | error err => exact hwf
    | ok r =>
      obtain ⟨eid, s1⟩ := r
      exact (IndexWF_createEdge hwf hok2).1
  | detach nid fuel => exact IndexWF_runD fuel _ hwf
  | disposeNode nid fuel => exact IndexWF_runD fuel _ hwf
  | disposeEdge eid fuel => exact IndexWF_runD fuel _ hwf

/-- The owner of an edge (`edge.getParent()`), `0` for a missing id. -/
def edgeParentS (s : PGState) (eid : Nat) : Nat :=
  ((getEdge s eid).map (fun r => r.parent)).getD 0

/-- The resource of an edge (`edge.getChild()`), `0` for a missing id. -/
def edgeChildS (s : PGState) (eid : Nat) : Nat :=
  ((getEdge s eid).map (fun r => r.child)).getD 0

theorem evParent_coreV (s : PGState) (eid : Nat) :
    evParent (edgeCoreV s) eid = edgeParentS s eid := by
  unfold evParent edgeCoreV edgeParentS
  cases getEdge s eid <;> rfl

theorem evChild_coreV (s : PGState) (eid : Nat) :
    evChild (edgeCoreV s) eid = edgeChildS s eid := by
  unfold evChild edgeCoreV edgeChildS
  cases getEdge s eid <;> rfl

/-- The edge occurs in the bucket keyed `key` and in no other bucket of the
map. -/
def InExactlyOneBucket (m : List (Nat × List Nat)) (eid key : Nat) : Prop :=
  eid ∈ bucket m key ∧ ∀ p ∈ m, eid ∈ p.2 → p.1 = key

theorem registered_edge_buckets {s : PGState} (hwf : IndexWF s) {gid : Nat}
    {g : GraphRec} (hg : getGraph s gid = some g) {eid : Nat} (he : eid ∈ g.edges) :
    (getEdge s eid).isSome = true ∧
    InExactlyOneBucket g.parentEdges eid (edgeParentS s eid) ∧
    InExactlyOneBucket g.childEdges eid (edgeChildS s eid) := by
  have hgwf := hwf.2.2.2.2.2.2 (gid, g) (alget_mem hg)
  obtain ⟨hg1, hg2, hg3, hg4⟩ := hgwf
  obtain ⟨hgid, hp, hc⟩ := hg2 eid he
  refine ⟨?_, ⟨?_, ?_⟩, ⟨?_, ?_⟩⟩
  · exact master_mem_isSome ⟨hg1, hg2, hg3, hg4⟩ he
  · rw [← evParent_coreV]; exact hp
  · intro p hpm hmem
    rw [← evParent_coreV]
    exact ((hg3.2 p hpm).2 eid hmem).2.symm
  · rw [← evChild_coreV]; exact hc
  · intro p hpm hmem
    rw [← evChild_coreV]
    exact ((hg4.2 p hpm).2 eid hmem).2.symm

theorem destroyEdge_removes_all {s : PGState} (hwf : IndexWF s) {gid : Nat}
    {g : GraphRec} (hg : getGraph s gid = some g) (eid : Nat) :
    eid ∉ (removeEdgeIdx g eid (edgeParentS s eid) (edgeChildS s eid)).edges ∧
    (∀ p ∈ (removeEdgeIdx g eid (edgeParentS s eid) (edgeChildS s eid)).parentEdges,
      eid ∉ p.2) ∧
    (∀ p ∈ (removeEdgeIdx g eid (edgeParentS s eid) (edgeChildS s eid)).childEdges,
      eid ∉ p.2) := by
  have hgwf := hwf.2.2.2.2.2.2 (gid, g) (alget_mem hg)
  obtain ⟨hg1, hg2, hg3, hg4⟩ := hgwf
  refine ⟨?_, ?_, ?_⟩
  · intro hmem
    exact (mem_sdel.1 hmem).2 rfl
  · intro p hp hmem
    by_cases hk : p.1 = edgeParentS s eid
    · have hpk := mem_alset_key hg3.1 hp hk
      rw [hpk] at hmem
      exact (mem_sdel.1 hmem).2 rfl
    · rcases mem_alset hp with hpeq | hp'
      · exact hk (congrArg Prod.fst hpeq)
      · have := (hg3.2 p hp').2 eid hmem
        rw [evParent_coreV] at this
        exact hk this.2.symm
  · intro p hp hmem
    by_cases hk : p.1 = edgeChildS s eid
    · have hpk := mem_alset_key hg4.1 hp hk
      rw [hpk] at hmem
      exact (mem_sdel.1 hmem).2 rfl
    · rcases mem_alset hp with hpeq | hp'
      · exact hk (congrArg Prod.fst hpeq)
      · have := (hg4.2 p hp').2 eid hmem
        rw [evChild_coreV] at this
        exact hk this.2.symm

instance (keyOf : Nat → Nat) (edges : List Nat) (m : List (Nat × List Nat)) :
    Decidable (SideWF keyOf edges m) := by
  unfold SideWF
  infer_instance

instance (ev : Nat → Option (Nat × Nat × Nat)) (gid : Nat) (g : GraphRec) :
    Decidable (GraphWF ev gid g) := by
  unfold GraphWF
  infer_instance

instance (s : PGState) : Decidable (IndexWF s) := by
  unfold IndexWF
  infer_instance

instance (s : PGState) (op : POp) : Decidable (OpOK s op) := by
  cases op <;> unfold OpOK <;> infer_instance

/-- The empty universe. -/
def state0 : PGState := ⟨[], [], [], 0, 0, 0, []⟩

/-- A small concrete universe used to instantiate hypothesis-bearing
theorems: one graph (id 0), two nodes (0 and 1) with a null single
reference slot and an empty set slot, and one edge (id 0) from node 0 to
node 1 stored in the `partner` slot. -/
def exSchema : List (String × DefaultVal) :=
  [("partner", DefaultVal.nullRef), ("friends", DefaultVal.refSet)]

def exState : PGState :=
  let s1 := (newGraphOp state0).2
  let s2 := (newNodeOp s1 0 exSchema).2.1
  let s3 := (newNodeOp s2 0 exSchema).2.1
  (setRefOp s3 0 "partner" (some 1) [("label", "x")] 8).1

/-- C1: for every edge registered on a graph, the edge is present in the
master edge set (membership in `g.edges` is the registration), exists, and
occurs in exactly one outgoing bucket — the one keyed by its owner — and
exactly one incoming bucket — the one keyed by its resource; `_destroyEdge`
(`removeEdgeIdx`) removes an edge from all three structures at once; and
after every public mutating operation returns, the three index structures
are again mutually consistent (`IndexWF` holds of the resulting state). -/
theorem C1_index_consistency (s : PGState) (op : POp)
    (hwf : IndexWF s) (hop : OpOK s op) :
    IndexWF (applyOp s op).1 ∧
    (∀ gid g, getGraph (applyOp s op).1 gid = some g → ∀ eid ∈ g.edges,
      (getEdge (applyOp s op).1 eid).isSome = true ∧
      InExactlyOneBucket g.parentEdges eid (edgeParentS (applyOp s op).1 eid) ∧
      InExactlyOneBucket g.childEdges eid (edgeChildS (applyOp s op).1 eid)) ∧
    (∀ gid g, getGraph s gid = some g → ∀ eid,
      eid ∉ (removeEdgeIdx g eid (edgeParentS s eid) (edgeChildS s eid)).edges ∧
      (∀ p ∈ (removeEdgeIdx g eid (edgeParentS s eid) (edgeChildS s eid)).parentEdges,
        eid ∉ p.2) ∧
      (∀ p ∈ (removeEdgeIdx g eid (edgeParentS s eid) (edgeChildS s eid)).childEdges,
        eid ∉ p.2)) := by
  have h1 := IndexWF_applyOp op hwf hop
  exact ⟨h1,
    fun gid g hg eid he => registered_edge_buckets h1 hg he,
    fun gid g hg eid => destroyEdge_removes_all hwf hg eid⟩

/-- Witness for C1 at a concrete state and operation. -/
theorem C1_index_consistency_witness :
    IndexWF (applyOp exState (POp.disposeNode 1 20)).1 :=
  (C1_index_consistency exState (POp.disposeNode 1 20) (by decide) (by decide)).1

/-! ## Cross-graph linkage errors (C7) -/

/-- `node.graph` of a node id. -/
def nodeGraphIdS (s : PGState) (nid : Nat) : Option Nat :=
  (getNode s nid).map (fun n => n.graphId)

theorem createEdge_cross_graph {s : PGState} {a b ga gb : Nat}
    (ha : nodeGraphIdS s a = some ga) (hb : nodeGraphIdS s b = some gb)
    (hne : ga ≠ gb) (name : String) (attrs : List (String × String)) :
    createEdge s name a b attrs = Except.error "Cannot link disconnected graphs." := by
  unfold nodeGraphIdS at ha hb
  cases hna : getNode s a with
  | none => rw [hna] at ha; cases ha
  | some na =>
  cases hnb : getNode s b with
  | none => rw [hnb] at hb; cases hb
  | some nb =>
  rw [hna] at ha
  rw [hnb] at hb
  have hga : na.graphId = ga := by simpa using ha
  have hgb : nb.graphId = gb := by simpa using hb
  unfold createEdge
  rw [hna, hnb]
  dsimp only
  rw [if_neg (by rw [hga, hgb]; exact hne)]

/-- C7: constructing an edge between nodes on two different `Graph`
instances fails with the linkage error in either direction, and the state
— in particular both graphs' index structures — is left exactly unchanged
(no partial registration). -/
theorem C7_cross_graph_edges_fail (s : PGState) (name : String) (a b ga gb : Nat)
    (attrs : List (String × String))
    (ha : nodeGraphIdS s a = some ga) (hb : nodeGraphIdS s b = some gb)
    (hne : ga ≠ gb) :
    createEdge s name a b attrs = Except.error "Cannot link disconnected graphs." ∧
    createEdge s name b a attrs = Except.error "Cannot link disconnected graphs." ∧
    applyOp s (POp.createEdgeOp name a b attrs) =
      (s, some "Cannot link disconnected graphs.") ∧
    applyOp s (POp.createEdgeOp name b a attrs) =
      (s, some "Cannot link disconnected graphs.") := by
  have h1 := createEdge_cross_graph ha hb hne name attrs
  have h2 := createEdge_cross_graph hb ha (fun hc => hne hc.symm) name attrs
  refine ⟨h1, h2, ?_, ?_⟩
  · show (match createEdge s name a b attrs with
      | Except.ok (_, s1) => (s1, none)
      | Except.error err => (s, some err)) = _
    rw [h1]
  · show (match createEdge s name b a attrs with
      | Except.ok (_, s1) => (s1, none)
      | Except.error err => (s, some err)) = _
    rw [h2]

/-- A second graph (id 1) with one node (id 2) on it, next to `exState`. -/
def exStateX : PGState :=
  let s1 := (newGraphOp exState).2
  (newNodeOp s1 1 exSchema).2.1

/-- Witness for C7: nodes 0 (graph 0) and 2 (graph 1). -/
theorem C7_cross_graph_edges_fail_witness :
    createEdge exStateX "friends" 0 2 [] =
      Except.error "Cannot link disconnected graphs." ∧
    createEdge exStateX "friends" 2 0 [] =
      Except.error "Cannot link disconnected graphs." ∧
    applyOp exStateX (POp.createEdgeOp "friends" 0 2 []) =
      (exStateX, some "Cannot link disconnected graphs.") ∧
    applyOp exStateX (POp.createEdgeOp "friends" 2 0 []) =
      (exStateX, some "Cannot link disconnected graphs.") :=
  C7_cross_graph_edges_fail exStateX "friends" 0 2 0 1 []
    (by decide) (by decide) (by decide)

/-! ## Immutable default slots (C6) -/

/-- The key is in the node's `$immutableKeys` set. -/
def isImmutableKey (s : PGState) (nid : Nat) (attr : String) : Bool :=
  match getNode s nid with
  | some n => attr ∈ n.immutableKeys
  | none => false

theorem createEdge_ok_frame {s s' : PGState} {name : String} {a b eid : Nat}
    {attrs : List (String × String)}
    (hok : createEdge s name a b attrs = Except.ok (eid, s')) :
    s'.nodes = s.nodes ∧ s'.events = s.events ∧ eid = s.nextEdgeId ∧
    s'.nextEdgeId = s.nextEdgeId + 1 ∧ s'.nextNodeId = s.nextNodeId ∧
    s'.nextGraphId = s.nextGraphId := by
  unfold createEdge at hok
  cases h1 : getNode s a with
  | none => rw [h1] at hok; cases hok
  | some na =>
  cases h2 : getNode s b with
  | none => rw [h1, h2] at hok; cases hok
  | some nb =>
  rw [h1, h2] at hok
  dsimp only at hok
  by_cases hg : na.graphId = nb.graphId
  · rw [if_pos hg] at hok
    simp only [Except.ok.injEq, Prod.mk.injEq] at hok
    rw [← hok.2, ← hok.1]
    exact ⟨rfl, rfl, rfl, rfl, rfl, rfl⟩
  · rw [if_neg hg] at hok
    cases hok

theorem addListener_nodes (s : PGState) (eid : Nat) (hk : Hook) :
    (addListener s eid hk).nodes = s.nodes := by
  unfold addListener
  cases getEdge s eid <;> rfl

theorem addListener_events (s : PGState) (eid : Nat) (hk : Hook) :
    (addListener s eid hk).events = s.events := by
  unfold addListener
  cases getEdge s eid <;> rfl

/-- C6: a single-reference slot populated from `getDefaults` is marked
immutable (building a node whose defaults contain a node value records the
key in `$immutableKeys`), and `setRef` on an immutable key throws the
immutability error before doing anything: the returned state is exactly
the argument state — the slot is unchanged, no edge is disposed or
created, and no change event is dispatched. -/
theorem C6_immutable_setRef_fails (s : PGState) (nid : Nat) (attr : String)
    (value : Option Nat) (attrs : List (String × String)) (fuel : Nat)
    (him : isImmutableKey s nid attr = true) :
    setRefOp s nid attr value attrs fuel =
      (s, some "Cannot overwrite immutable attribute.") ∧
    (∀ (s2 : PGState) (gid c : Nat) (key : String),
      (newNodeOp s2 gid [(key, DefaultVal.node c)]).2.2 = none →
      isImmutableKey (newNodeOp s2 gid [(key, DefaultVal.node c)]).2.1
        s2.nextNodeId key = true) := by
  constructor
  · unfold isImmutableKey at him
    unfold setRefOp
    cases hn : getNode s nid with
    | none => rw [hn] at him; cases him
    | some n =>
      rw [hn] at him
      dsimp only
      rw [if_pos (by simpa using him)]
  · intro s2 gid c key hok
    unfold newNodeOp at hok ⊢
    dsimp only at hok ⊢
    rw [createAttributes] at hok ⊢
    cases hce : createEdge (newNodeBase s2 gid) key s2.nextNodeId c [] with
    | error err =>
      rw [hce] at hok
      cases hok
    | ok r =>
      obtain ⟨eid, s1⟩ := r
      dsimp only at hok ⊢
      simp only [createAttributes] at hok ⊢
      have hn1 : getNode s1 s2.nextNodeId = some (⟨gid, false, [], []⟩ : NodeRec) := by
        show alget s1.nodes s2.nextNodeId = _
        rw [(createEdge_ok_frame hce).1]
        show alget (newNodeBase s2 gid).nodes s2.nextNodeId = _
        unfold newNodeBase
        show alget (alset s2.nodes s2.nextNodeId _) s2.nextNodeId = _
        rw [alget_alset, if_pos rfl]
      have hn2 : getNode (addListener s1 eid (Hook.cascadeChildDispose c))
          s2.nextNodeId = some (⟨gid, false, [], []⟩ : NodeRec) := by
        show alget (addListener s1 eid (Hook.cascadeChildDispose c)).nodes
          s2.nextNodeId = _
        rw [addListener_nodes]
        exact hn1
      unfold updNode
      rw [hn2]
      unfold isImmutableKey
      rw [getNode_setNode, if_pos rfl]
      simp


/-- `exState` plus a node (id 2) constructed with a default node-valued
attribute `child` pointing at node 1, hence an immutable `child` slot. -/
def exStateM : PGState :=
  (newNodeOp exState 0 [("child", DefaultVal.node 1)]).2.1

/-- Witness for C6: overwriting the default-populated `child` slot of node
2 fails and leaves the state unchanged. -/
theorem C6_immutable_setRef_fails_witness :
    setRefOp exStateM 2 "child" (some 0) [] 8 =
      (exStateM, some "Cannot overwrite immutable attribute.") ∧
    (∀ (s2 : PGState) (gid c : Nat) (key : String),
      (newNodeOp s2 gid [(key, DefaultVal.node c)]).2.2 = none →
      isImmutableKey (newNodeOp s2 gid [(key, DefaultVal.node c)]).2.1
        s2.nextNodeId key = true) :=
  C6_immutable_setRef_fails exStateM 2 "child" (some 0) [] 8 (by decide)

/-! ## Dispose idempotence (C8) -/

theorem getEdge_runGraphRemove (s : PGState) (x eid : Nat) :
    getEdge (runGraphRemove s x) eid = getEdge s eid := by
  unfold runGraphRemove
  cases getEdge s x with
  | none => rfl
  | some e =>
    dsimp only
    cases getGraph s e.graphId <;> rfl

theorem getEdge_runSingleCleanup (s : PGState) (o : Nat) (a : String) (eid : Nat) :
    getEdge (runSingleCleanup s o a) eid = getEdge s eid := by
  unfold runSingleCleanup
  cases getNode s o <;> rfl

theorem getEdge_runCollCleanup (s : PGState) (o : Nat) (a : String) (x eid : Nat) :
    getEdge (runCollCleanup s o a x) eid = getEdge s eid := by
  unfold runCollCleanup
  cases getNode s o <;> rfl

theorem getEdge_runMapCleanup (s : PGState) (o : Nat) (a k : String) (eid : Nat) :
    getEdge (runMapCleanup s o a k) eid = getEdge s eid := by
  unfold runMapCleanup
  cases getNode s o <;> rfl

/-- A disposed edge's record is never changed again by the dispose
machinery (the flip and listener-clear writes only happen on the
live-to-disposed transition). -/
theorem disposed_edge_stable : ∀ (fuel : Nat) (t : DTask) {s : PGState} {eid : Nat}
    {e : EdgeRec}, getEdge s eid = some e → e.disposed = true →
    getEdge (runD fuel t s) eid = some e := by
  intro fuel
  induction fuel with
  | zero => intro t s eid e he _; exact he
  | succ f ih =>
    intro t s eid e he hd
    cases t with
    | edge x =>
      rw [runD_edge]
      cases he2 : getEdge s x with
      | none => exact he
      | some e2 =>
        dsimp only
        by_cases hd2 : e2.disposed
        · rw [if_pos hd2]; exact he
        · rw [if_neg hd2]
          have hxne : x ≠ eid := by
            intro hx
            rw [hx, he] at he2
            cases he2
            exact hd2 hd
          have he1 : getEdge (setEdge s x { e2 with disposed := true }) eid = some e := by
            rw [getEdge_setEdge, if_neg hxne]
            exact he
          have he2' := ih (DTask.hooks e2.listeners x) he1 hd
          cases he3 : getEdge (runD f (DTask.hooks e2.listeners x)
              (setEdge s x { e2 with disposed := true })) x with
          | none => exact he2'
          | some e3 =>
            rw [getEdge_setEdge, if_neg hxne]
            exact he2'
    | node nid =>
      rw [runD_node]
      cases getNode s nid with
      | none => exact he
      | some n =>
        dsimp only
        by_cases hd2 : n.disposed
        · rw [if_pos hd2]; exact he
        · rw [if_neg hd2]
          have h1 := ih (DTask.edges (listChildEdgesS s nid)) he hd
          have h2 := ih (DTask.edges (listParentEdgesS
            (runD f (DTask.edges (listChildEdgesS s nid)) s) nid)) h1 hd
          cases getNode (runD f (DTask.edges (listParentEdgesS
              (runD f (DTask.edges (listChildEdgesS s nid)) s) nid))
              (runD f (DTask.edges (listChildEdgesS s nid)) s)) nid with
          | none => exact h2
          | some n2 => exact h2
    | hooks l x =>
      cases l with
      | nil => rw [runD_hooks_nil]; exact he
      | cons hk t =>
        rw [runD_hooks_cons]
        refine ih (DTask.hooks t x) ?_ hd
        cases hk with
        | graphRemove => rw [getEdge_runGraphRemove]; exact he
        | singleCleanup o a => rw [getEdge_runSingleCleanup]; exact he
        | collCleanup o a => rw [getEdge_runCollCleanup]; exact he
        | mapCleanup o a k => rw [getEdge_runMapCleanup]; exact he
        | cascadeChildDispose c => exact ih (DTask.node c) he hd
    | edges l =>
      cases l with
      | nil => rw [runD_edges_nil]; exact he
      | cons x t =>
        rw [runD_edges_cons]
        exact ih (DTask.edges t) (ih (DTask.edge x) he hd) hd

/-- C8: disposing an already-disposed edge or node is a no-op — the state,
hence also the event log, is exactly unchanged, any number of times — and
the first disposal of a live edge marks it disposed and clears its
listener list, so the registered dispose listeners run exactly once. -/
theorem C8_dispose_idempotent (s : PGState) (e1 n1 e2 fuel : Nat) (e : EdgeRec)
    (h1 : edgeDisposedS s e1 = true) (h2 : nodeDisposedS s n1 = true)
    (he : getEdge s e2 = some e) (hlive : e.disposed = false) (hfuel : 1 ≤ fuel) :
    runD fuel (DTask.edge e1) s = s ∧
    runD fuel (DTask.node n1) s = s ∧
    getEdge (runD fuel (DTask.edge e2) s) e2 =
      some { e with disposed := true, listeners := [] } := by
  refine ⟨?_, ?_, ?_⟩
  · cases fuel with
    | zero => rfl
    | succ f =>
      rw [runD_edge]
      unfold edgeDisposedS at h1
      cases hge : getEdge s e1 with
      | none => rfl
      | some r =>
        rw [hge] at h1
        simp at h1
        dsimp only
        rw [if_pos h1]
  · cases fuel with
    | zero => rfl
    | succ f =>
      rw [runD_node]
      unfold nodeDisposedS at h2
      cases hgn : getNode s n1 with
      | none => rfl
      | some n =>
        rw [hgn] at h2
        simp at h2
        dsimp only
        rw [if_pos h2]
  · cases fuel with
    | zero => cases hfuel
    | succ f =>
      rw [runD_edge, he]
      dsimp only
      rw [if_neg (by rw [hlive]; exact Bool.false_ne_true)]
      have hs1 : getEdge (setEdge s e2 { e with disposed := true }) e2 =
          some { e with disposed := true } := by
        rw [getEdge_setEdge, if_pos rfl]
      have hs2 := disposed_edge_stable f (DTask.hooks e.listeners e2) hs1 rfl
      rw [hs2]
      rw [getEdge_setEdge, if_pos rfl]

/-! ## Symbolic computation lemmas for the attribute operations -/

theorem alset_eq_of_alget [DecidableEq κ] {l : List (κ × α)} {k : κ} {v : α}
    (h : alget l k = some v) : alset l k v = l := by
  induction l with
  | nil => simp [alget] at h
  | cons q t ih =>
    obtain ⟨k0, v0⟩ := q
    by_cases h0 : k0 = k
    · subst h0
      have hv : v0 = v := by simpa [alget] using h
      rw [alset_cons_eq, hv]
    · rw [alset_cons_ne h0]
      simp only [alget, if_neg h0] at h
      rw [ih h]

/-- The slot of an attribute of a node. -/
def nodeAttr (s : PGState) (nid : Nat) (attr : String) : Option Slot :=
  match getNode s nid with
  | some n => alget n.attributes attr
  | none => none

/-- The record `Graph.createEdge` stores for a new edge. -/
def mkEdgeRec (name : String) (a b : Nat) (attrs : List (String × String))
    (g : Nat) : EdgeRec :=
  ⟨name, a, b, attrs, g, false, [Hook.graphRemove]⟩

/-- The successful result state of `Graph.createEdge`. -/
def createEdgeResult (s : PGState) (name : String) (a b g : Nat)
    (attrs : List (String × String)) : PGState :=
  setGraph
    { s with edges := alset s.edges s.nextEdgeId (mkEdgeRec name a b attrs g)
             nextEdgeId := s.nextEdgeId + 1 }
    g (registerEdgeIdx ((alget s.graphs g).getD emptyGraph) s.nextEdgeId a b)

theorem createEdge_ok_eq {s : PGState} {a b g : Nat}
    (ha : nodeGraphIdS s a = some g) (hb : nodeGraphIdS s b = some g)
    (name : String) (attrs : List (String × String)) :
    createEdge s name a b attrs =
      Except.ok (s.nextEdgeId, createEdgeResult s name a b g attrs) := by
  unfold nodeGraphIdS at ha hb
  cases hna : getNode s a with
  | none => rw [hna] at ha; cases ha
  | some na =>
  cases hnb : getNode s b with
  | none => rw [hnb] at hb; cases hb
  | some nb =>
  rw [hna] at ha
  rw [hnb] at hb
  have hga : na.graphId = g := by simpa using ha
  have hgb : nb.graphId = g := by simpa using hb
  unfold createEdge createEdgeResult mkEdgeRec
  rw [hna, hnb]
  dsimp only
  rw [if_pos (hga.trans hgb.symm), hga]
  rfl

@[simp] theorem createEdgeResult_nodes (s : PGState) (name : String) (a b g : Nat)
    (attrs : List (String × String)) :
    (createEdgeResult s name a b g attrs).nodes = s.nodes := rfl

@[simp] theorem createEdgeResult_events (s : PGState) (name : String) (a b g : Nat)
    (attrs : List (String × String)) :
    (createEdgeResult s name a b g attrs).events = s.events := rfl

@[simp] theorem createEdgeResult_nextEdgeId (s : PGState) (name : String)
    (a b g : Nat) (attrs : List (String × String)) :
    (createEdgeResult s name a b g attrs).nextEdgeId = s.nextEdgeId + 1 := rfl

theorem createEdgeResult_getEdge (s : PGState) (name : String) (a b g : Nat)
    (attrs : List (String × String)) (y : Nat) :
    getEdge (createEdgeResult s name a b g attrs) y =
      if s.nextEdgeId = y then some (mkEdgeRec name a b attrs g)
      else getEdge s y := by
  show alget (alset s.edges s.nextEdgeId (mkEdgeRec name a b attrs g)) y = _
  rw [alget_alset]
  rfl

/-- `{ n with attributes := alset n.attributes attr sl }`. -/
def withAttr (n : NodeRec) (attr : String) (sl : Slot) : NodeRec :=
  { n with attributes := alset n.attributes attr sl }

theorem addRef_set_eq {s : PGState} {o : Nat} {attr : String} {x g : Nat} {n : NodeRec}
    {ord : List Nat} {idx : List (Nat × Nat)}
    (hn : getNode s o = some n)
    (hslot : alget n.attributes attr = some (Slot.set ord idx))
    (hg : n.graphId = g) (hgx : nodeGraphIdS s x = some g)
    (attrs : List (String × String)) :
    addRefOp s o attr x attrs =
      (dispatchEvent
        (addListener
          (setNode (createEdgeResult s attr o x g attrs) o
            (withAttr n attr
              (Slot.set
                (sadd (match alget idx x with
                       | some old => sdel ord old
                       | none => ord) s.nextEdgeId)
                (alset (match alget idx x with
                        | some _old => aldel idx x
                        | none => idx) x s.nextEdgeId))))
          s.nextEdgeId (Hook.collCleanup o attr))
        (Event.change o attr), none) := by
  have hgo : nodeGraphIdS s o = some g := by
    unfold nodeGraphIdS
    rw [hn]
    simp [hg]
  unfold addRefOp
  rw [createEdge_ok_eq hgo hgx attr attrs]
  dsimp only
  rw [show getNode (createEdgeResult s attr o x g attrs) o = getNode s o from rfl, hn]
  dsimp only
  rw [hslot]
  dsimp only
  cases alget idx x <;> rfl

theorem addRef_list_eq {s : PGState} {o : Nat} {attr : String} {x g : Nat} {n : NodeRec}
    {es : List Nat}
    (hn : getNode s o = some n)
    (hslot : alget n.attributes attr = some (Slot.list es))
    (hg : n.graphId = g) (hgx : nodeGraphIdS s x = some g)
    (attrs : List (String × String)) :
    addRefOp s o attr x attrs =
      (dispatchEvent
        (addListener
          (setNode (createEdgeResult s attr o x g attrs) o
            (withAttr n attr (Slot.list (es ++ [s.nextEdgeId]))))
          s.nextEdgeId (Hook.collCleanup o attr))
        (Event.change o attr), none) := by
  have hgo : nodeGraphIdS s o = some g := by
    unfold nodeGraphIdS
    rw [hn]
    simp [hg]
  unfold addRefOp
  rw [createEdge_ok_eq hgo hgx attr attrs]
  dsimp only
  rw [show getNode (createEdgeResult s attr o x g attrs) o = getNode s o from rfl, hn]
  dsimp only
  rw [hslot]
  rfl

theorem getNode_afterAdd (S : PGState) (o : Nat) (n' : NodeRec) (e : Nat)
    (hk : Hook) (ev : Event) (y : Nat) :
    getNode (dispatchEvent (addListener (setNode S o n') e hk) ev) y =
      if o = y then some n' else getNode S y := by
  show alget (addListener (setNode S o n') e hk).nodes y = _
  rw [addListener_nodes]
  exact getNode_setNode S o n' y

theorem getEdge_afterAdd (S : PGState) (o : Nat) (n' : NodeRec) (e : Nat)
    (hk : Hook) (ev : Event) (y : Nat) (r : EdgeRec) (hr : getEdge S e = some r) :
    getEdge (dispatchEvent (addListener (setNode S o n') e hk) ev) y =
      if e = y then some { r with listeners := r.listeners ++ [hk] }
      else getEdge S y := by
  show getEdge (addListener (setNode S o n') e hk) y = _
  unfold addListener
  rw [show getEdge (setNode S o n') e = getEdge S e from rfl, hr]
  show getEdge (setEdge (setNode S o n') e _) y = _
  rw [getEdge_setEdge]
  by_cases he : e = y
  · rw [if_pos he, if_pos he]
  · rw [if_neg he, if_neg he]
    rfl

theorem graphs_afterAdd (S : PGState) (o : Nat) (n' : NodeRec) (e : Nat)
    (hk : Hook) (ev : Event) :
    (dispatchEvent (addListener (setNode S o n') e hk) ev).graphs = S.graphs := by
  show (addListener (setNode S o n') e hk).graphs = S.graphs
  unfold addListener
  cases getEdge (setNode S o n') e <;> rfl

theorem nextEdgeId_afterAdd (S : PGState) (o : Nat) (n' : NodeRec) (e : Nat)
    (hk : Hook) (ev : Event) :
    (dispatchEvent (addListener (setNode S o n') e hk) ev).nextEdgeId = S.nextEdgeId := by
  show (addListener (setNode S o n') e hk).nextEdgeId = S.nextEdgeId
  unfold addListener
  cases getEdge (setNode S o n') e <;> rfl

theorem events_afterAdd (S : PGState) (o : Nat) (n' : NodeRec) (e : Nat)
    (hk : Hook) (ev : Event) :
    (dispatchEvent (addListener (setNode S o n') e hk) ev).events =
      S.events ++ [ev] := by
  show (addListener (setNode S o n') e hk).events ++ [ev] = S.events ++ [ev]
  rw [addListener_events]
  rfl

/-- All edge ids in the store are below the fresh-id counter (holds in
every reachable state; part of `IndexWF`). -/
def FreshEdges (s : PGState) : Prop :=
  ∀ p ∈ s.edges, p.1 < s.nextEdgeId

instance (s : PGState) : Decidable (FreshEdges s) := by
  unfold FreshEdges
  infer_instance

/-- The `RefSet` slot's auxiliary child map indexes its ordered edge set:
every member exists and the map sends its child to it. -/
def setSlotChildIndex (s : PGState) (ord : List Nat) (idx : List (Nat × Nat)) : Prop :=
  ∀ m ∈ ord, (getEdge s m).isSome = true ∧ alget idx (edgeChildS s m) = some m

instance (s : PGState) (ord : List Nat) (idx : List (Nat × Nat)) :
    Decidable (setSlotChildIndex s ord idx) := by
  unfold setSlotChildIndex
  infer_instance

theorem ord_mem_lt {s : PGState} {ord : List Nat} {idx : List (Nat × Nat)} {m : Nat}
    (hfresh : FreshEdges s) (hwfset : setSlotChildIndex s ord idx)
    (hm : m ∈ ord) : m < s.nextEdgeId := by
  rcases Option.isSome_iff_exists.1 (hwfset m hm).1 with ⟨r, hr⟩
  exact hfresh (m, r) (alget_mem hr)

/-- C4: on a `RefSet`-backed slot, two `addRef` calls with the same
resource `x` succeed and leave exactly one edge for `x` in the
collection afterwards: the second new edge is present and indexed under
`x`, the first new edge has been evicted, and every collection member
whose resource is `x` is the second new edge. -/
theorem C4_refset_addRef_twice_unique (s : PGState) (o : Nat) (attr : String)
    (x g : Nat) (n : NodeRec) (ord : List Nat) (idx : List (Nat × Nat))
    (hn : getNode s o = some n)
    (hslot : alget n.attributes attr = some (Slot.set ord idx))
    (hg : n.graphId = g) (hgx : nodeGraphIdS s x = some g)
    (hfresh : FreshEdges s)
    (hwfset : setSlotChildIndex s ord idx) :
    (addRefOp s o attr x []).2 = none ∧
    (addRefOp (addRefOp s o attr x []).1 o attr x []).2 = none ∧
    ∃ ord2 idx2,
      nodeAttr (addRefOp (addRefOp s o attr x []).1 o attr x []).1 o attr =
        some (Slot.set ord2 idx2) ∧
      (s.nextEdgeId + 1) ∈ ord2 ∧
      edgeChildS (addRefOp (addRefOp s o attr x []).1 o attr x []).1
        (s.nextEdgeId + 1) = x ∧
      alget idx2 x = some (s.nextEdgeId + 1) ∧
      s.nextEdgeId ∉ ord2 ∧
      (∀ m ∈ ord2,
        edgeChildIs (addRefOp (addRefOp s o attr x []).1 o attr x []).1 m x = true →
        m = s.nextEdgeId + 1) := by
  have step1 := addRef_set_eq hn hslot hg hgx []
  -- abbreviations for the state after the first addRef
  rw [step1]
  dsimp only
  set e1 := s.nextEdgeId with he1
  set p1 : List Nat := (match alget idx x with
    | some old => sdel ord old
    | none => ord) with hp1
  set p2 : List (Nat × Nat) := (match alget idx x with
    | some old => aldel idx x
    | none => idx) with hp2
  set sl1 : Slot := Slot.set (sadd p1 e1) (alset p2 x e1) with hsl1
  set S1 : PGState := dispatchEvent
      (addListener (setNode (createEdgeResult s attr o x g []) o (withAttr n attr sl1))
        e1 (Hook.collCleanup o attr)) (Event.change o attr) with hS1
  have hn1 : getNode S1 o = some (withAttr n attr sl1) := by
    rw [hS1, getNode_afterAdd, if_pos rfl]
  have hslot1 : alget (withAttr n attr sl1).attributes attr = some sl1 := by
    unfold withAttr
    show alget (alset n.attributes attr sl1) attr = some sl1
    rw [alget_alset, if_pos rfl]
  have hg1 : (withAttr n attr sl1).graphId = g := hg
  have hgx1 : nodeGraphIdS S1 x = some g := by
    unfold nodeGraphIdS
    by_cases hxo : o = x
    · rw [← hxo, hn1]
      simp [withAttr, hg]
    · rw [hS1, getNode_afterAdd, if_neg hxo]
      rw [show getNode (createEdgeResult s attr o x g []) x = getNode s x from rfl]
      exact hgx
  have hnext1 : S1.nextEdgeId = e1 + 1 := by
    rw [hS1, nextEdgeId_afterAdd, createEdgeResult_nextEdgeId]
  have step2 := addRef_set_eq hn1 hslot1 hg1 hgx1 []
  rw [step2]
  dsimp only
  -- the second add evicts the first: the map sends x to e1
  have halx1 : alget (alset p2 x e1) x = some e1 := by
    rw [alget_alset, if_pos rfl]
  refine ⟨rfl, rfl, ?_⟩
  -- read off the final slot
  rw [halx1]
  dsimp only
  refine ⟨sadd (sdel (sadd p1 e1) e1) S1.nextEdgeId,
    alset (aldel (alset p2 x e1) x) x S1.nextEdgeId, ?_, ?_, ?_, ?_, ?_, ?_⟩
  · unfold nodeAttr
    rw [getNode_afterAdd, if_pos rfl]
    unfold withAttr
    show alget (alset (withAttr n attr sl1).attributes attr _) attr = _
    rw [alget_alset, if_pos rfl]
  · rw [hnext1]
    exact mem_sadd.2 (Or.inr rfl)
  · -- the child of the second new edge is x
    unfold edgeChildS
    rw [← hnext1]
    have hr2 : getEdge (createEdgeResult S1 attr o x g []) S1.nextEdgeId =
        some (mkEdgeRec attr o x [] g) := by
      rw [createEdgeResult_getEdge, if_pos rfl]
    rw [getEdge_afterAdd _ _ _ _ _ _ _ _ hr2, if_pos rfl]
    rfl
  · rw [alget_alset, if_pos rfl, hnext1]
  · rw [hnext1]
    intro hmem
    rcases mem_sadd.1 hmem with hmem' | hmem'
    · exact (mem_sdel.1 hmem').2 rfl
    · exact absurd hmem' (Nat.ne_of_lt (Nat.lt_succ_self e1))
  · intro m hm hchild
    rcases mem_sadd.1 hm with hm' | hm'
    · exfalso
      have hm1 : m ∈ sadd p1 e1 := (mem_sdel.1 hm').1
      have hmne1 : m ≠ e1 := (mem_sdel.1 hm').2
      have hmp1 : m ∈ p1 := by
        rcases mem_sadd.1 hm1 with h | h
        · exact h
        · exact absurd h hmne1
      have hmord : m ∈ ord := by
        rw [hp1] at hmp1
        cases halx : alget idx x with
        | none => rw [halx] at hmp1; exact hmp1
        | some old => rw [halx] at hmp1; exact (mem_sdel.1 hmp1).1
      have hmlt : m < e1 := ord_mem_lt hfresh hwfset hmord
      have hmne2 : S1.nextEdgeId ≠ m := by
        rw [hnext1]
        exact fun hc => absurd (hc ▸ hmlt) (by omega)
      -- the record of m is untouched by both addRef calls
      have hr1 : getEdge (createEdgeResult s attr o x g []) e1 =
          some (mkEdgeRec attr o x [] g) := by
        rw [createEdgeResult_getEdge, if_pos rfl]
      have hEm : getEdge (dispatchEvent (addListener
          (setNode (createEdgeResult S1 attr o x g [])
            o (withAttr (withAttr n attr sl1) attr
              (Slot.set (sadd (sdel (sadd p1 e1) e1) S1.nextEdgeId)
                (alset (aldel (alset p2 x e1) x) x S1.nextEdgeId))))
          S1.nextEdgeId (Hook.collCleanup o attr)) (Event.change o attr)) m =
          getEdge s m := by
        have hr2 : getEdge (createEdgeResult S1 attr o x g []) S1.nextEdgeId =
            some (mkEdgeRec attr o x [] g) := by
          rw [createEdgeResult_getEdge, if_pos rfl]
        rw [getEdge_afterAdd _ _ _ _ _ _ _ _ hr2, if_neg hmne2]
        rw [createEdgeResult_getEdge, if_neg hmne2]
        rw [hS1, getEdge_afterAdd _ _ _ _ _ _ _ _ hr1,
          if_neg (fun hc => hmne1 hc.symm)]
        rw [createEdgeResult_getEdge, if_neg (fun hc => hmne1 hc.symm)]
      unfold edgeChildIs at hchild
      rw [hEm] at hchild
      have hcs : edgeChildS s m = x := by
        unfold edgeChildS
        cases hge : getEdge s m with
        | none => rw [hge] at hchild; cases hchild
        | some r =>
          rw [hge] at hchild
          simp at hchild
          simp [hge, hchild]
      have hidx := (hwfset m hmord).2
      rw [hcs] at hidx
      rw [hp1] at hmp1
      cases halx : alget idx x with
      | none => rw [halx] at hidx; cases hidx
      | some old =>
        rw [halx] at hidx hmp1
        have hmold : m = old := by
          have h2 := hidx
          simp at h2
          exact h2.symm
        exact (mem_sdel.1 hmp1).2 hmold
    · exact hm'.trans hnext1

/-- `exState` after disposing edge 0 and node 1, plus a fresh live edge
(id 1) from node 0 to itself in its `friends` set. -/
def exStateD : PGState :=
  (addRefOp (disposeNode 8 1 (disposeEdge 8 0 exState)) 0 "friends" 0 []).1

/-- Witness for C8: re-disposing edge 0 and node 1 of `exStateD` changes
nothing, and the first disposal of live edge 1 flips it and clears its
listeners. -/
theorem C8_dispose_idempotent_witness :
    runD 5 (DTask.edge 0) exStateD = exStateD ∧
    runD 5 (DTask.node 1) exStateD = exStateD ∧
    getEdge (runD 5 (DTask.edge 1) exStateD) 1 =
      some { name := "friends", parent := 0, child := 0, attrs := [], graphId := 0,
             disposed := true, listeners := [] } :=
  C8_dispose_idempotent exStateD 0 1 1 5
    ⟨"friends", 0, 0, [], 0, false,
      [Hook.graphRemove, Hook.collCleanup 0 "friends"]⟩
    (by decide) (by decide) (by decide) (by decide) (by decide)

end PG

namespace PG

/-- Witness for C4 at `exState`: node 0's empty `friends` set slot,
adding node 1 twice. -/
theorem C4_refset_addRef_twice_unique_witness :
    (addRefOp exState 0 "friends" 1 []).2 = none ∧
    (addRefOp (addRefOp exState 0 "friends" 1 []).1 0 "friends" 1 []).2 = none ∧
    ∃ ord2 idx2,
      nodeAttr (addRefOp (addRefOp exState 0 "friends" 1 []).1 0 "friends" 1 []).1
        0 "friends" = some (Slot.set ord2 idx2) ∧
      (exState.nextEdgeId + 1) ∈ ord2 ∧
      edgeChildS (addRefOp (addRefOp exState 0 "friends" 1 []).1 0 "friends" 1 []).1
        (exState.nextEdgeId + 1) = 1 ∧
      alget idx2 1 = some (exState.nextEdgeId + 1) ∧
      exState.nextEdgeId ∉ ord2 ∧
      (∀ m ∈ ord2,
        edgeChildIs (addRefOp (addRefOp exState 0 "friends" 1 []).1 0 "friends" 1 []).1
          m 1 = true → m = exState.nextEdgeId + 1) :=
  C4_refset_addRef_twice_unique exState 0 "friends" 1 0
    ⟨0, false, [("partner", Slot.single 0), ("friends", Slot.set [] [])], []⟩
    [] [] (by decide) (by decide) (by decide) (by decide) (by decide) (by decide)

end PG

namespace PG

theorem sadd_eq_append [DecidableEq α] {l : List α} {x : α} (h : x ∉ l) :
    sadd l x = l ++ [x] := by
  simp [sadd, h]

theorem listChildEdgesS_eq {s : PGState} {o g : Nat} {n : NodeRec}
    (hn : getNode s o = some n) (hg : n.graphId = g) :
    listChildEdgesS s o = bucket ((getGraph s g).getD emptyGraph).parentEdges o := by
  unfold listChildEdgesS
  rw [hn]
  dsimp only
  rw [hg]

theorem listRefsS_set_eq {s : PGState} {o : Nat} {attr : String} {n : NodeRec}
    {ord : List Nat} {idx : List (Nat × Nat)}
    (hn : getNode s o = some n)
    (hslot : alget n.attributes attr = some (Slot.set ord idx)) :
    listRefsS s o attr =
      ord.filterMap (fun e => (getEdge s e).map (fun r => r.child)) := by
  unfold listRefsS
  rw [hn]
  dsimp only
  rw [hslot]

/-- C10: on a `RefSet`-backed slot already holding a live edge `e` to
resource `x`, one more `addRef` of `x` succeeds and evicts `e` from the
collection only: `e` is no longer in the slot and `listRefs` returns `x`
exactly once (for the new edge), but `e` is never disposed — its record is
exactly unchanged, so `isDisposed()` stays false — and `e` is still
present in the graph's master edge set (`listEdges`) and in the owner's
outgoing bucket (`listChildEdges`), alongside the new edge. -/
theorem C10_refset_eviction_keeps_edge (s : PGState) (o : Nat) (attr : String)
    (x g e : Nat) (n : NodeRec) (er : EdgeRec) (ord : List Nat)
    (idx : List (Nat × Nat))
    (hn : getNode s o = some n)
    (hslot : alget n.attributes attr = some (Slot.set ord idx))
    (hg : n.graphId = g) (hgx : nodeGraphIdS s x = some g)
    (hfresh : FreshEdges s)
    (hwfset : setSlotChildIndex s ord idx)
    (halx : alget idx x = some e)
    (he : getEdge s e = some er) (hlive : er.disposed = false)
    (hmaster : e ∈ listEdgesS s g)
    (hbucket : e ∈ listChildEdgesS s o) :
    (addRefOp s o attr x []).2 = none ∧
    getEdge (addRefOp s o attr x []).1 e = some er ∧
    edgeDisposedS (addRefOp s o attr x []).1 e = false ∧
    e ∈ listEdgesS (addRefOp s o attr x []).1 g ∧
    e ∈ listChildEdgesS (addRefOp s o attr x []).1 o ∧
    s.nextEdgeId ∈ listEdgesS (addRefOp s o attr x []).1 g ∧
    s.nextEdgeId ∈ listChildEdgesS (addRefOp s o attr x []).1 o ∧
    (∃ ord1 idx1,
      nodeAttr (addRefOp s o attr x []).1 o attr = some (Slot.set ord1 idx1) ∧
      e ∉ ord1 ∧ s.nextEdgeId ∈ ord1 ∧ alget idx1 x = some s.nextEdgeId) ∧
    (listRefsS (addRefOp s o attr x []).1 o attr).count x = 1 := by
  have step1 := addRef_set_eq hn hslot hg hgx []
  rw [step1]
  dsimp only
  rw [halx]
  dsimp only
  set e1 := s.nextEdgeId with he1
  set sl1 : Slot := Slot.set (sadd (sdel ord e) e1) (alset (aldel idx x) x e1) with hsl1
  have helt : e < e1 := by
    rcases Option.isSome_iff_exists.1 (by rw [he]; rfl :
      (getEdge s e).isSome = true) with ⟨r, hr⟩
    exact hfresh (e, er) (alget_mem he)
  have hene1 : e1 ≠ e := Nat.ne_of_gt helt
  have hr1 : getEdge (createEdgeResult s attr o x g []) e1 =
      some (mkEdgeRec attr o x [] g) := by
    rw [createEdgeResult_getEdge, if_pos rfl]
  have hEe : getEdge (dispatchEvent
      (addListener (setNode (createEdgeResult s attr o x g []) o (withAttr n attr sl1))
        e1 (Hook.collCleanup o attr)) (Event.change o attr)) e = getEdge s e := by
    rw [getEdge_afterAdd _ _ _ _ _ _ _ _ hr1, if_neg hene1]
    rw [createEdgeResult_getEdge, if_neg hene1]
  have hEe1 : getEdge (dispatchEvent
      (addListener (setNode (createEdgeResult s attr o x g []) o (withAttr n attr sl1))
        e1 (Hook.collCleanup o attr)) (Event.change o attr)) e1 =
      some { mkEdgeRec attr o x [] g with
             listeners := (mkEdgeRec attr o x [] g).listeners ++ [Hook.collCleanup o attr] } := by
    rw [getEdge_afterAdd _ _ _ _ _ _ _ _ hr1, if_pos rfl]
  have hGr : (dispatchEvent
      (addListener (setNode (createEdgeResult s attr o x g []) o (withAttr n attr sl1))
        e1 (Hook.collCleanup o attr)) (Event.change o attr)).graphs =
      alset s.graphs g (registerEdgeIdx ((alget s.graphs g).getD emptyGraph) e1 o x) := by
    rw [graphs_afterAdd]
    rfl
  have hNode : getNode (dispatchEvent
      (addListener (setNode (createEdgeResult s attr o x g []) o (withAttr n attr sl1))
        e1 (Hook.collCleanup o attr)) (Event.change o attr)) o =
      some (withAttr n attr sl1) := by
    rw [getNode_afterAdd, if_pos rfl]
  have hGg : getGraph (dispatchEvent
      (addListener (setNode (createEdgeResult s attr o x g []) o (withAttr n attr sl1))
        e1 (Hook.collCleanup o attr)) (Event.change o attr)) g =
      some (registerEdgeIdx ((alget s.graphs g).getD emptyGraph) e1 o x) := by
    show alget (dispatchEvent (addListener (setNode (createEdgeResult s attr o x g [])
      o (withAttr n attr sl1)) e1 (Hook.collCleanup o attr)) (Event.change o attr)).graphs g = _
    rw [hGr, alget_alset, if_pos rfl]
  have hmaster0 : e ∈ ((alget s.graphs g).getD emptyGraph).edges := hmaster
  have hbucket0 : e ∈ bucket ((alget s.graphs g).getD emptyGraph).parentEdges o := by
    unfold listChildEdgesS at hbucket
    rw [hn] at hbucket
    dsimp only at hbucket
    rw [hg] at hbucket
    exact hbucket
  refine ⟨rfl, hEe.trans he, ?_, ?_, ?_, ?_, ?_, ?_, ?_⟩
  · unfold edgeDisposedS
    rw [hEe, he]
    simpa using hlive
  · unfold listEdgesS
    rw [hGg]
    show e ∈ sadd ((alget s.graphs g).getD emptyGraph).edges e1
    exact mem_sadd.2 (Or.inl hmaster0)
  · rw [listChildEdgesS_eq hNode (show (withAttr n attr sl1).graphId = g from hg), hGg]
    show e ∈ bucket (alset ((alget s.graphs g).getD emptyGraph).parentEdges o
      (sadd (bucket ((alget s.graphs g).getD emptyGraph).parentEdges o) e1)) o
    rw [bucket_alset_self]
    exact mem_sadd.2 (Or.inl hbucket0)
  · unfold listEdgesS
    rw [hGg]
    show e1 ∈ sadd ((alget s.graphs g).getD emptyGraph).edges e1
    exact mem_sadd.2 (Or.inr rfl)
  · rw [listChildEdgesS_eq hNode (show (withAttr n attr sl1).graphId = g from hg), hGg]
    show e1 ∈ bucket (alset ((alget s.graphs g).getD emptyGraph).parentEdges o
      (sadd (bucket ((alget s.graphs g).getD emptyGraph).parentEdges o) e1)) o
    rw [bucket_alset_self]
    exact mem_sadd.2 (Or.inr rfl)
  · refine ⟨sadd (sdel ord e) e1, alset (aldel idx x) x e1, ?_, ?_, ?_, ?_⟩
    · unfold nodeAttr
      rw [hNode]
      unfold withAttr
      show alget (alset n.attributes attr sl1) attr = _
      rw [alget_alset, if_pos rfl]
    · intro hmem
      rcases mem_sadd.1 hmem with h1 | h1
      · exact (mem_sdel.1 h1).2 rfl
      · exact hene1 h1.symm
    · exact mem_sadd.2 (Or.inr rfl)
    · rw [alget_alset, if_pos rfl]
  · have hslotF : alget (withAttr n attr sl1).attributes attr = some sl1 := by
      unfold withAttr
      show alget (alset n.attributes attr sl1) attr = some sl1
      rw [alget_alset, if_pos rfl]
    rw [hsl1] at hslotF
    rw [listRefsS_set_eq hNode hslotF]
    have hnm : e1 ∉ sdel ord e := by
      intro hmem
      exact absurd (ord_mem_lt hfresh hwfset (mem_sdel.1 hmem).1) (lt_irrefl e1)
    rw [sadd_eq_append hnm, List.filterMap_append, List.count_append]
    have hfe1 : (getEdge (dispatchEvent
        (addListener (setNode (createEdgeResult s attr o x g []) o (withAttr n attr sl1))
          e1 (Hook.collCleanup o attr)) (Event.change o attr)) e1).map
          (fun r => r.child) = some x := by
      rw [hEe1]
      rfl
    have hB : ([e1].filterMap (fun e' => (getEdge (dispatchEvent
        (addListener (setNode (createEdgeResult s attr o x g []) o (withAttr n attr sl1))
          e1 (Hook.collCleanup o attr)) (Event.change o attr)) e').map
          (fun r => r.child))).count x = 1 := by
      rw [show [e1].filterMap (fun e' => (getEdge (dispatchEvent
        (addListener (setNode (createEdgeResult s attr o x g []) o (withAttr n attr sl1))
          e1 (Hook.collCleanup o attr)) (Event.change o attr)) e').map
          (fun r => r.child)) = [x] from by
        simp only [List.filterMap]
        rw [hfe1]]
      simp
    have hA : ((sdel ord e).filterMap (fun e' => (getEdge (dispatchEvent
        (addListener (setNode (createEdgeResult s attr o x g []) o (withAttr n attr sl1))
          e1 (Hook.collCleanup o attr)) (Event.change o attr)) e').map
          (fun r => r.child))).count x = 0 := by
      rw [List.count_eq_zero]
      intro hx
      rcases List.mem_filterMap.1 hx with ⟨m, hm, hf⟩
      have hmord : m ∈ ord := (mem_sdel.1 hm).1
      have hmne : m ≠ e := (mem_sdel.1 hm).2
      have hmlt : m < e1 := ord_mem_lt hfresh hwfset hmord
      have hmne1 : e1 ≠ m := Nat.ne_of_gt hmlt
      rw [getEdge_afterAdd _ _ _ _ _ _ _ _ hr1, if_neg hmne1,
        createEdgeResult_getEdge, if_neg hmne1] at hf
      have hcs : edgeChildS s m = x := by
        unfold edgeChildS
        cases hge : getEdge s m with
        | none => rw [hge] at hf; cases hf
        | some r =>
          rw [hge] at hf
          have hrc : r.child = x := by
            have h2 := hf
            simp at h2
            exact h2
          simp [hge, hrc]
      have hidx := (hwfset m hmord).2
      rw [hcs, halx] at hidx
      exact hmne (Option.some.inj hidx).symm
    rw [hA, hB]

end PG

namespace PG

/-- `exState` with node 1 already added once to node 0's `friends` set
(edge 1). -/
def exStateS : PGState := (addRefOp exState 0 "friends" 1 []).1

/-- Witness for C10: adding node 1 to the `friends` set again evicts edge
1 from the collection but leaves it live and registered. -/
theorem C10_refset_eviction_keeps_edge_witness :
    (addRefOp exStateS 0 "friends" 1 []).2 = none ∧
    getEdge (addRefOp exStateS 0 "friends" 1 []).1 1 =
      some ⟨"friends", 0, 1, [], 0, false,
        [Hook.graphRemove, Hook.collCleanup 0 "friends"]⟩ ∧
    edgeDisposedS (addRefOp exStateS 0 "friends" 1 []).1 1 = false ∧
    1 ∈ listEdgesS (addRefOp exStateS 0 "friends" 1 []).1 0 ∧
    1 ∈ listChildEdgesS (addRefOp exStateS 0 "friends" 1 []).1 0 ∧
    exStateS.nextEdgeId ∈ listEdgesS (addRefOp exStateS 0 "friends" 1 []).1 0 ∧
    exStateS.nextEdgeId ∈ listChildEdgesS (addRefOp exStateS 0 "friends" 1 []).1 0 ∧
    (∃ ord1 idx1,
      nodeAttr (addRefOp exStateS 0 "friends" 1 []).1 0 "friends" =
        some (Slot.set ord1 idx1) ∧
      1 ∉ ord1 ∧ exStateS.nextEdgeId ∈ ord1 ∧
      alget idx1 1 = some exStateS.nextEdgeId) ∧
    (listRefsS (addRefOp exStateS 0 "friends" 1 []).1 0 "friends").count 1 = 1 :=
  C10_refset_eviction_keeps_edge exStateS 0 "friends" 1 0 1
    ⟨0, false, [("partner", Slot.single 0), ("friends", Slot.set [1] [(1, 1)])], []⟩
    ⟨"friends", 0, 1, [], 0, false,
      [Hook.graphRemove, Hook.collCleanup 0 "friends"]⟩
    [1] [(1, 1)]
    (by decide) (by decide) (by decide) (by decide) (by decide) (by decide)
    (by decide) (by decide) (by decide) (by decide) (by decide)

/-! ## RefList duplicates and bulk removal (C5) -/

theorem runD_hooks_nil_any (f : Nat) (eid : Nat) (s : PGState) :
    runD f (DTask.hooks [] eid) s = s := by
  cases f <;> rfl

theorem runD_edges_nil_any (f : Nat) (s : PGState) :
    runD f (DTask.edges []) s = s := by
  cases f <;> rfl

theorem nodes_runGraphRemove (s : PGState) (x : Nat) :
    (runGraphRemove s x).nodes = s.nodes := by
  unfold runGraphRemove
  cases getEdge s x with
  | none => rfl
  | some e =>
    dsimp only
    cases getGraph s e.graphId <;> rfl

theorem runD_hooks_gc (f : Nat) (hf : 2 ≤ f) (e o : Nat) (attr : String) (s1 : PGState) :
    runD f (DTask.hooks [Hook.graphRemove, Hook.collCleanup o attr] e) s1 =
      runCollCleanup (runGraphRemove s1 e) o attr e := by
  obtain ⟨f2, rfl⟩ : ∃ f2, f = f2 + 2 := ⟨f - 2, by omega⟩
  rw [runD_hooks_cons]
  dsimp only
  rw [runD_hooks_cons]
  dsimp only
  rw [runD_hooks_nil_any]

/-- The record of an edge after the dispose flag is set while its two
hooks run. -/
def flipRec (r : EdgeRec) (o : Nat) (attr : String) : EdgeRec :=
  EdgeRec.mk r.name r.parent r.child r.attrs r.graphId true
    [Hook.graphRemove, Hook.collCleanup o attr]

/-- State after the flag flip and both hooks of a list-collection edge. -/
def collDisposeMid (s : PGState) (e o : Nat) (attr : String) (r : EdgeRec) : PGState :=
  runCollCleanup (runGraphRemove (setEdge s e (flipRec r o attr)) e) o attr e

theorem getEdge_collDisposeMid (s : PGState) (e o : Nat) (attr : String) (r : EdgeRec)
    (y : Nat) :
    getEdge (collDisposeMid s e o attr r) y =
      getEdge (setEdge s e (flipRec r o attr)) y := by
  unfold collDisposeMid
  rw [getEdge_runCollCleanup, getEdge_runGraphRemove]

/-- One full disposal of an edge whose listeners are the index-removal
hook plus a collection cleanup whose collection no longer holds it: the
node store is unchanged (the cleanup rewrites the identical record), the
edge ends disposed with cleared listeners, and no other edge record
changes. -/
theorem disposeEdge_coll_step {s : PGState} {e o : Nat} {attr : String} {r : EdgeRec}
    {n : NodeRec} {es : List Nat} (f : Nat) (hf : 2 ≤ f)
    (he : getEdge s e = some r) (hlive : r.disposed = false)
    (hl : r.listeners = [Hook.graphRemove, Hook.collCleanup o attr])
    (hn : getNode s o = some n)
    (hslot : alget n.attributes attr = some (Slot.list es))
    (hmem : e ∉ es) :
    ∃ s', runD (f + 1) (DTask.edge e) s = s' ∧
      s'.nodes = s.nodes ∧
      getEdge s' e = some { r with disposed := true, listeners := [] } ∧
      (∀ y, y ≠ e → getEdge s' y = getEdge s y) := by
  have hfe : getEdge (collDisposeMid s e o attr r) e = some (flipRec r o attr) := by
    rw [getEdge_collDisposeMid, getEdge_setEdge, if_pos rfl]
  have hrun : runD (f + 1) (DTask.edge e) s =
      setEdge (collDisposeMid s e o attr r) e
        (EdgeRec.mk r.name r.parent r.child r.attrs r.graphId true []) := by
    rw [runD_edge, he]
    dsimp only
    rw [if_neg (by rw [hlive]; exact Bool.false_ne_true), hl]
    rw [runD_hooks_gc f hf]
    have hfold : runCollCleanup
        (runGraphRemove (setEdge s e
          (EdgeRec.mk r.name r.parent r.child r.attrs r.graphId true
            [Hook.graphRemove, Hook.collCleanup o attr])) e) o attr e =
        collDisposeMid s e o attr r := rfl
    rw [hfold, hfe]
    dsimp only
    rfl
  have hS1nodes : (setEdge s e (flipRec r o attr)).nodes = s.nodes := rfl
  have hS1node_o : getNode (setEdge s e (flipRec r o attr)) o = some n := hn
  have hmidnodes : (collDisposeMid s e o attr r).nodes = s.nodes := by
    unfold collDisposeMid
    have hga : getNode (runGraphRemove (setEdge s e (flipRec r o attr)) e) o = some n := by
      show alget (runGraphRemove (setEdge s e (flipRec r o attr)) e).nodes o = some n
      rw [nodes_runGraphRemove]
      exact hn
    unfold runCollCleanup
    rw [hga]
    dsimp only
    rw [hslot]
    dsimp only
    rw [List.erase_of_not_mem hmem, alset_eq_of_alget hslot]
    show alset (runGraphRemove (setEdge s e (flipRec r o attr)) e).nodes o n = s.nodes
    rw [alset_eq_of_alget hga, nodes_runGraphRemove]
    rfl
  refine ⟨_, hrun, ?_, ?_, ?_⟩
  · show (collDisposeMid s e o attr r).nodes = s.nodes
    exact hmidnodes
  · rw [getEdge_setEdge, if_pos rfl]
  · intro y hy
    rw [getEdge_setEdge, if_neg (fun hc => hy hc.symm)]
    rw [getEdge_collDisposeMid, getEdge_setEdge, if_neg (fun hc => hy hc.symm)]

/-- Disposing a list of distinct live list-collection edges, none of which
is still present in the owner slot, flips each flag and leaves the node
store and every other edge untouched. -/
theorem disposeEdges_coll_loop :
    ∀ (l : List Nat) (F : Nat) (s : PGState) (o : Nat) (attr : String)
      (n : NodeRec) (es : List Nat),
      l.length + 3 ≤ F →
      getNode s o = some n →
      alget n.attributes attr = some (Slot.list es) →
      (∀ e ∈ l, ∃ r, getEdge s e = some r ∧ r.disposed = false ∧
        r.listeners = [Hook.graphRemove, Hook.collCleanup o attr]) →
      (∀ e ∈ l, e ∉ es) →
      l.Nodup →
      ∃ s', runD F (DTask.edges l) s = s' ∧ s'.nodes = s.nodes ∧
        (∀ e ∈ l, edgeDisposedS s' e = true) ∧
        (∀ y, y ∉ l → getEdge s' y = getEdge s y) := by
  intro l
  induction l with
  | nil =>
    intro F s o attr n es hF hn hslot hl hdisj hnodup
    refine ⟨s, runD_edges_nil_any F s, rfl, ?_, ?_⟩
    · intro e he
      exact absurd he (List.not_mem_nil e)
    · intro y hy
      rfl
  | cons e t ih =>
    intro F s o attr n es hF hn hslot hl hdisj hnodup
    obtain ⟨F1, rfl⟩ : ∃ F1, F = F1 + 1 := ⟨F - 1, by simp at hF; omega⟩
    rw [runD_edges_cons]
    obtain ⟨r, hr, hrd, hrl⟩ := hl e (List.mem_cons_self e t)
    obtain ⟨F2, hF2⟩ : ∃ F2, F1 = F2 + 1 := ⟨F1 - 1, by simp at hF; omega⟩
    have hF2b : 2 ≤ F2 := by simp at hF; omega
    obtain ⟨s1, hs1run, hs1nodes, hs1e, hs1frame⟩ :=
      disposeEdge_coll_step F2 hF2b hr hrd hrl hn hslot
        (hdisj e (List.mem_cons_self e t))
    rw [hF2, hs1run]
    have hn1 : getNode s1 o = some n := by
      show alget s1.nodes o = some n
      rw [hs1nodes]
      exact hn
    have het : e ∉ t := (List.nodup_cons.1 hnodup).1
    obtain ⟨s2, hs2run, hs2nodes, hs2disp, hs2frame⟩ :=
      ih (F2 + 1) s1 o attr n es (by simp at hF ⊢; omega) hn1 hslot
        (fun x hx => by
          obtain ⟨rx, hrx, hrxd, hrxl⟩ := hl x (List.mem_cons_of_mem e hx)
          refine ⟨rx, ?_, hrxd, hrxl⟩
          rw [hs1frame x (fun hc => het (hc ▸ hx))]
          exact hrx)
        (fun x hx => hdisj x (List.mem_cons_of_mem e hx))
        (List.nodup_cons.1 hnodup).2
    refine ⟨s2, hs2run, hs2nodes.trans hs1nodes, ?_, ?_⟩
    · intro x hx
      rcases List.mem_cons.1 hx with rfl | hx2
      · show ((getEdge s2 x).map (fun e => e.disposed)).getD false = true
        rw [hs2frame x het, hs1e]
        rfl
      · exact hs2disp x hx2
    · intro y hy
      have hy1 : y ≠ e := fun hc => hy (hc ▸ List.mem_cons_self e t)
      have hy2 : y ∉ t := fun hc => hy (List.mem_cons_of_mem e hc)
      rw [hs2frame y hy2, hs1frame y hy1]

/-- Packaged effects of one `addRef` on a `RefList` slot: the new edge id
is the fresh counter, the slot gains it at the end, the counter bumps, and
everything else is framed. -/
theorem addRef_list_post {s : PGState} {o : Nat} {attr : String} {x g : Nat}
    {n : NodeRec} {es : List Nat}
    (hn : getNode s o = some n)
    (hslot : alget n.attributes attr = some (Slot.list es))
    (hg : n.graphId = g) (hgx : nodeGraphIdS s x = some g)
    (attrs : List (String × String)) :
    (addRefOp s o attr x attrs).2 = none ∧
    (∀ y, getNode (addRefOp s o attr x attrs).1 y =
      if o = y then some (withAttr n attr (Slot.list (es ++ [s.nextEdgeId])))
      else getNode s y) ∧
    (addRefOp s o attr x attrs).1.nextEdgeId = s.nextEdgeId + 1 ∧
    getEdge (addRefOp s o attr x attrs).1 s.nextEdgeId =
      some ⟨attr, o, x, attrs, g, false,
        [Hook.graphRemove, Hook.collCleanup o attr]⟩ ∧
    (∀ y, y ≠ s.nextEdgeId →
      getEdge (addRefOp s o attr x attrs).1 y = getEdge s y) := by
  rw [addRef_list_eq hn hslot hg hgx attrs]
  dsimp only
  have hr : getEdge (createEdgeResult s attr o x g attrs) s.nextEdgeId =
      some (mkEdgeRec attr o x attrs g) := by
    rw [createEdgeResult_getEdge, if_pos rfl]
  refine ⟨rfl, ?_, ?_, ?_, ?_⟩
  · intro y
    exact getNode_afterAdd _ _ _ _ _ _ y
  · rw [nextEdgeId_afterAdd]
    rfl
  · rw [getEdge_afterAdd _ _ _ _ _ _ _ _ hr, if_pos rfl]
    rfl
  · intro y hy
    rw [getEdge_afterAdd _ _ _ _ _ _ _ _ hr, if_neg (fun hc => hy hc.symm)]
    rw [createEdgeResult_getEdge, if_neg (fun hc => hy hc.symm)]

/-- C5: on a `RefList` slot, three `addRef` calls with the same resource
node create three distinct edges, `listRefs` returns that resource three
times, and a single `removeRef` call removes all three occurrences from
the slot and disposes all three edges at once. -/
theorem C5_reflist_duplicates
    (s : PGState) (o : Nat) (attr : String) (x g : Nat) (n : NodeRec)
    (es : List Nat) (A1 A2 A3 : List (String × String)) (fuel : Nat)
    (hn : getNode s o = some n)
    (hslot : alget n.attributes attr = some (Slot.list es))
    (hg : n.graphId = g) (hgx : nodeGraphIdS s x = some g)
    (hes : ∀ m ∈ es, m < s.nextEdgeId ∧ edgeChildIs s m x = false)
    (hfuel : 6 ≤ fuel) :
    ∃ s1 s2 s3 s4,
      addRefOp s o attr x A1 = (s1, none) ∧
      addRefOp s1 o attr x A2 = (s2, none) ∧
      addRefOp s2 o attr x A3 = (s3, none) ∧
      getEdge s3 s.nextEdgeId =
        some ⟨attr, o, x, A1, g, false,
          [Hook.graphRemove, Hook.collCleanup o attr]⟩ ∧
      getEdge s3 (s.nextEdgeId + 1) =
        some ⟨attr, o, x, A2, g, false,
          [Hook.graphRemove, Hook.collCleanup o attr]⟩ ∧
      getEdge s3 (s.nextEdgeId + 2) =
        some ⟨attr, o, x, A3, g, false,
          [Hook.graphRemove, Hook.collCleanup o attr]⟩ ∧
      nodeAttr s3 o attr =
        some (Slot.list
          (es ++ [s.nextEdgeId, s.nextEdgeId + 1, s.nextEdgeId + 2])) ∧
      (listRefsS s3 o attr).count x = 3 ∧
      removeRefOp s3 o attr x fuel = (s4, none) ∧
      nodeAttr s4 o attr = some (Slot.list es) ∧
      edgeDisposedS s4 s.nextEdgeId = true ∧
      edgeDisposedS s4 (s.nextEdgeId + 1) = true ∧
      edgeDisposedS s4 (s.nextEdgeId + 2) = true ∧
      (listRefsS s4 o attr).count x = 0 := by
  obtain ⟨h1err, h1node, h1next, h1edge, h1frame⟩ :=
    addRef_list_post hn hslot hg hgx A1
  set e1 := s.nextEdgeId with he1def
  set S1 := (addRefOp s o attr x A1).1 with hS1def
  have h1eq : addRefOp s o attr x A1 = (S1, none) := by
    rw [hS1def, ← h1err]
  set n1 := withAttr n attr (Slot.list (es ++ [e1])) with hn1def
  have hn1 : getNode S1 o = some n1 := by rw [h1node o, if_pos rfl]
  have hslot1 : alget n1.attributes attr = some (Slot.list (es ++ [e1])) := by
    rw [hn1def]
    show alget (alset n.attributes attr (Slot.list (es ++ [e1]))) attr = _
    rw [alget_alset, if_pos rfl]
  have hg1 : n1.graphId = g := hg
  have hgx1 : nodeGraphIdS S1 x = some g := by
    unfold nodeGraphIdS
    rw [h1node x]
    by_cases hox : o = x
    · rw [if_pos hox]
      show some n1.graphId = some g
      rw [hg1]
    · rw [if_neg hox]
      exact hgx
  obtain ⟨h2err, h2node, h2next, h2edge, h2frame⟩ :=
    addRef_list_post hn1 hslot1 hg1 hgx1 A2
  rw [h1next] at h2node h2next h2edge h2frame
  have h21 : e1 + 1 + 1 = e1 + 2 := rfl
  rw [h21] at h2next
  set S2 := (addRefOp S1 o attr x A2).1 with hS2def
  have h2eq : addRefOp S1 o attr x A2 = (S2, none) := by
    rw [hS2def, ← h2err]
  set n2 := withAttr n1 attr (Slot.list ((es ++ [e1]) ++ [e1 + 1])) with hn2def
  have hn2 : getNode S2 o = some n2 := by rw [h2node o, if_pos rfl]
  have hslot2 : alget n2.attributes attr =
      some (Slot.list ((es ++ [e1]) ++ [e1 + 1])) := by
    rw [hn2def]
    show alget (alset n1.attributes attr (Slot.list ((es ++ [e1]) ++ [e1 + 1]))) attr = _
    rw [alget_alset, if_pos rfl]
  have hg2 : n2.graphId = g := hg1
  have hgx2 : nodeGraphIdS S2 x = some g := by
    unfold nodeGraphIdS
    rw [h2node x]
    by_cases hox : o = x
    · rw [if_pos hox]
      show some n2.graphId = some g
      rw [hg2]
    · rw [if_neg hox]
      exact hgx1
  obtain ⟨h3err, h3node, h3next, h3edge, h3frame⟩ :=
    addRef_list_post hn2 hslot2 hg2 hgx2 A3
  rw [h2next] at h3node h3next h3edge h3frame
  set S3 := (addRefOp S2 o attr x A3).1 with hS3def
  have h3eq : addRefOp S2 o attr x A3 = (S3, none) := by
    rw [hS3def, ← h3err]
  set n3 := withAttr n2 attr (Slot.list (((es ++ [e1]) ++ [e1 + 1]) ++ [e1 + 2]))
    with hn3def
  have hE1 : getEdge S3 e1 =
      some ⟨attr, o, x, A1, g, false,
        [Hook.graphRemove, Hook.collCleanup o attr]⟩ := by
    rw [h3frame e1 (by omega), h2frame e1 (by omega), h1edge]
  have hE2 : getEdge S3 (e1 + 1) =
      some ⟨attr, o, x, A2, g, false,
        [Hook.graphRemove, Hook.collCleanup o attr]⟩ := by
    rw [h3frame (e1 + 1) (by omega), h2edge]
  have hE3 : getEdge S3 (e1 + 2) =
      some ⟨attr, o, x, A3, g, false,
        [Hook.graphRemove, Hook.collCleanup o attr]⟩ := h3edge
  have holdE : ∀ m ∈ es, getEdge S3 m = getEdge s m := by
    intro m hm
    have hlt : m < e1 := (hes m hm).1
    rw [h3frame m (by omega), h2frame m (by omega), h1frame m (by omega)]
  have hnode3 : getNode S3 o = some n3 := by rw [h3node o, if_pos rfl]
  have hslot3 : alget n3.attributes attr =
      some (Slot.list (((es ++ [e1]) ++ [e1 + 1]) ++ [e1 + 2])) := by
    rw [hn3def]
    show alget (alset n2.attributes attr
      (Slot.list (((es ++ [e1]) ++ [e1 + 1]) ++ [e1 + 2]))) attr = _
    rw [alget_alset, if_pos rfl]
  have hattr3 : nodeAttr S3 o attr =
      some (Slot.list (es ++ [e1, e1 + 1, e1 + 2])) := by
    unfold nodeAttr
    rw [hnode3]
    dsimp only
    rw [hslot3]
    simp [List.append_assoc]
  have hnonx : ∀ (S : PGState), (∀ m ∈ es, getEdge S m = getEdge s m) →
      (es.filterMap (fun e => (getEdge S e).map (fun r => r.child))).count x = 0 := by
    intro S hS
    apply List.count_eq_zero.2
    intro hmem
    obtain ⟨m, hm, hfm⟩ := List.mem_filterMap.1 hmem
    rw [hS m hm] at hfm
    have hci := (hes m hm).2
    unfold edgeChildIs at hci
    cases hgm : getEdge s m with
    | none => rw [hgm] at hfm; cases hfm
    | some r =>
      rw [hgm] at hfm hci
      simp at hfm hci
      exact hci hfm
  have hcount3 : (listRefsS S3 o attr).count x = 3 := by
    unfold listRefsS
    rw [hnode3]
    dsimp only
    rw [hslot3]
    dsimp only
    rw [List.filterMap_append, List.filterMap_append, List.filterMap_append]
    rw [List.count_append, List.count_append, List.count_append]
    rw [hnonx S3 holdE]
    simp [hE1, hE2, hE3]
  have hciS3old : ∀ m ∈ es, edgeChildIs S3 m x = false := by
    intro m hm
    unfold edgeChildIs
    rw [holdE m hm]
    have hci := (hes m hm).2
    unfold edgeChildIs at hci
    exact hci
  have hciE1 : edgeChildIs S3 e1 x = true := by
    unfold edgeChildIs
    rw [hE1]
    simp
  have hciE2 : edgeChildIs S3 (e1 + 1) x = true := by
    unfold edgeChildIs
    rw [hE2]
    simp
  have hciE3 : edgeChildIs S3 (e1 + 2) x = true := by
    unfold edgeChildIs
    rw [hE3]
    simp
  have hfm : (((es ++ [e1]) ++ [e1 + 1]) ++ [e1 + 2]).filter
      (fun e => edgeChildIs S3 e x) = [e1, e1 + 1, e1 + 2] := by
    rw [List.filter_append, List.filter_append, List.filter_append]
    have hnil : es.filter (fun e => edgeChildIs S3 e x) = [] :=
      List.filter_eq_nil_iff.2 (fun a ha => by rw [hciS3old a ha]; simp)
    rw [hnil]
    simp [List.filter, hciE1, hciE2, hciE3]
  have hrm : (((es ++ [e1]) ++ [e1 + 1]) ++ [e1 + 2]).filter
      (fun e => !(edgeChildIs S3 e x)) = es := by
    rw [List.filter_append, List.filter_append, List.filter_append]
    have hself : es.filter (fun e => !(edgeChildIs S3 e x)) = es :=
      List.filter_eq_self.2 (fun a ha => by rw [hciS3old a ha]; rfl)
    rw [hself]
    simp [List.filter, hciE1, hciE2, hciE3]
  set SB := setNode S3 o (withAttr n3 attr (Slot.list es)) with hSBdef
  have hremeq : removeRefOp S3 o attr x fuel =
      (runD fuel (DTask.edges [e1, e1 + 1, e1 + 2]) SB, none) := by
    unfold removeRefOp
    rw [hnode3]
    dsimp only
    rw [hslot3]
    dsimp only
    rw [hfm, hrm]
    rfl
  have hnB : getNode SB o = some (withAttr n3 attr (Slot.list es)) := by
    show alget (alset S3.nodes o (withAttr n3 attr (Slot.list es))) o = _
    rw [alget_alset, if_pos rfl]
  have hslotB : alget (withAttr n3 attr (Slot.list es)).attributes attr =
      some (Slot.list es) := by
    show alget (alset n3.attributes attr (Slot.list es)) attr = _
    rw [alget_alset, if_pos rfl]
  have hedgesB : ∀ y, getEdge SB y = getEdge S3 y := fun y => rfl
  obtain ⟨S5, hS5run, hS5nodes, hS5disp, hS5frame⟩ :=
    disposeEdges_coll_loop [e1, e1 + 1, e1 + 2] fuel SB o attr
      (withAttr n3 attr (Slot.list es)) es
      (by simp; omega) hnB hslotB
      (fun m hm => by
        simp only [List.mem_cons, List.not_mem_nil, or_false] at hm
        rcases hm with rfl | rfl | rfl
        · exact ⟨_, (hedgesB _).trans hE1, rfl, rfl⟩
        · exact ⟨_, (hedgesB _).trans hE2, rfl, rfl⟩
        · exact ⟨_, (hedgesB _).trans hE3, rfl, rfl⟩)
      (fun m hm hmem => by
        have hlt := (hes m hmem).1
        simp only [List.mem_cons, List.not_mem_nil, or_false] at hm
        rcases hm with rfl | rfl | rfl <;> omega)
      (by simp)
  have hgn5 : getNode S5 o = some (withAttr n3 attr (Slot.list es)) := by
    show alget S5.nodes o = _
    rw [hS5nodes]
    exact hnB
  refine ⟨S1, S2, S3, S5, h1eq, h2eq, h3eq, hE1, hE2, hE3, hattr3, hcount3,
    ?_, ?_, ?_, ?_, ?_, ?_⟩
  · rw [hremeq, hS5run]
  · unfold nodeAttr
    rw [hgn5]
    dsimp only
    exact hslotB
  · exact hS5disp e1 (by simp)
  · exact hS5disp (e1 + 1) (by simp)
  · exact hS5disp (e1 + 2) (by simp)
  · unfold listRefsS
    rw [hgn5]
    dsimp only
    rw [hslotB]
    dsimp only
    apply hnonx S5
    intro m hm
    have hlt := (hes m hm).1
    rw [hS5frame m (by simp; omega), hedgesB m, holdE m hm]

/-- A graph with two nodes whose schema has a single `RefList` slot. -/
def exSchemaL : List (String × DefaultVal) := [("items", DefaultVal.refList)]

def exStateL : PGState :=
  let s1 := (newGraphOp state0).2
  let s2 := (newNodeOp s1 0 exSchemaL).2.1
  (newNodeOp s2 0 exSchemaL).2.1

/-- Witness for C5: three `addRef` calls of node 1 on node 0's `items`
list followed by one `removeRef`, at a concrete state. -/
theorem C5_reflist_duplicates_witness :
    ∃ s1 s2 s3 s4,
      addRefOp exStateL 0 "items" 1 [("k", "a")] = (s1, none) ∧
      addRefOp s1 0 "items" 1 [("k", "b")] = (s2, none) ∧
      addRefOp s2 0 "items" 1 [("k", "c")] = (s3, none) ∧
      getEdge s3 exStateL.nextEdgeId =
        some ⟨"items", 0, 1, [("k", "a")], 0, false,
          [Hook.graphRemove, Hook.collCleanup 0 "items"]⟩ ∧
      getEdge s3 (exStateL.nextEdgeId + 1) =
        some ⟨"items", 0, 1, [("k", "b")], 0, false,
          [Hook.graphRemove, Hook.collCleanup 0 "items"]⟩ ∧
      getEdge s3 (exStateL.nextEdgeId + 2) =
        some ⟨"items", 0, 1, [("k", "c")], 0, false,
          [Hook.graphRemove, Hook.collCleanup 0 "items"]⟩ ∧
      nodeAttr s3 0 "items" =
        some (Slot.list
          ([] ++ [exStateL.nextEdgeId, exStateL.nextEdgeId + 1,
            exStateL.nextEdgeId + 2])) ∧
      (listRefsS s3 0 "items").count 1 = 3 ∧
      removeRefOp s3 0 "items" 1 6 = (s4, none) ∧
      nodeAttr s4 0 "items" = some (Slot.list []) ∧
      edgeDisposedS s4 exStateL.nextEdgeId = true ∧
      edgeDisposedS s4 (exStateL.nextEdgeId + 1) = true ∧
      edgeDisposedS s4 (exStateL.nextEdgeId + 2) = true ∧
      (listRefsS s4 0 "items").count 1 = 0 :=
  C5_reflist_duplicates exStateL 0 "items" 1 0
    ⟨0, false, [("items", Slot.list [])], []⟩ []
    [("k", "a")] [("k", "b")] [("k", "c")] 6
    (by decide) (by decide) (by decide) (by decide) (by decide) (by decide)

/-! ## setRef semantics (C9) -/

theorem events_runGraphRemove (s : PGState) (x : Nat) :
    (runGraphRemove s x).events = s.events := by
  unfold runGraphRemove
  cases getEdge s x with
  | none => rfl
  | some e =>
    dsimp only
    cases getGraph s e.graphId <;> rfl

theorem nextEdgeId_runGraphRemove (s : PGState) (x : Nat) :
    (runGraphRemove s x).nextEdgeId = s.nextEdgeId := by
  unfold runGraphRemove
  cases getEdge s x with
  | none => rfl
  | some e =>
    dsimp only
    cases getGraph s e.graphId <;> rfl

theorem runD_hooks_gs (f : Nat) (hf : 2 ≤ f) (e o : Nat) (attr : String)
    (s1 : PGState) :
    runD f (DTask.hooks [Hook.graphRemove, Hook.singleCleanup o attr] e) s1 =
      runSingleCleanup (runGraphRemove s1 e) o attr := by
  obtain ⟨f2, rfl⟩ : ∃ f2, f = f2 + 2 := ⟨f - 2, by omega⟩
  rw [runD_hooks_cons]
  dsimp only
  rw [runD_hooks_cons]
  dsimp only
  rw [runD_hooks_nil_any]

/-- The record of an edge in a single-reference slot after its dispose
flag is set while its two hooks run. -/
def flipRecS (r : EdgeRec) (o : Nat) (attr : String) : EdgeRec :=
  EdgeRec.mk r.name r.parent r.child r.attrs r.graphId true
    [Hook.graphRemove, Hook.singleCleanup o attr]

/-- State after the flag flip and both hooks of a single-slot edge. -/
def singleDisposeMid (s : PGState) (e o : Nat) (attr : String) (r : EdgeRec) : PGState :=
  runSingleCleanup (runGraphRemove (setEdge s e (flipRecS r o attr)) e) o attr

/-- `{ n with attributes := aldel n.attributes attr }` — the node record
after the single-slot cleanup listener clears the attribute. -/
def delAttr (n : NodeRec) (attr : String) : NodeRec :=
  { n with attributes := aldel n.attributes attr }

theorem getEdge_singleDisposeMid (s : PGState) (e o : Nat) (attr : String)
    (r : EdgeRec) (y : Nat) :
    getEdge (singleDisposeMid s e o attr r) y =
      getEdge (setEdge s e (flipRecS r o attr)) y := by
  unfold singleDisposeMid
  rw [getEdge_runSingleCleanup, getEdge_runGraphRemove]

/-- One full disposal of an edge whose listeners are the index-removal
hook plus the single-slot cleanup: the owner's attribute is deleted, one
change event fires, the edge ends disposed with cleared listeners, and no
other edge record changes. -/
theorem disposeEdge_single_step {s : PGState} {e o : Nat} {attr : String}
    {r : EdgeRec} {n : NodeRec} (f : Nat) (hf : 2 ≤ f)
    (he : getEdge s e = some r) (hlive : r.disposed = false)
    (hl : r.listeners = [Hook.graphRemove, Hook.singleCleanup o attr])
    (hn : getNode s o = some n) :
    ∃ s', runD (f + 1) (DTask.edge e) s = s' ∧
      (∀ y, getNode s' y = if o = y then some (delAttr n attr) else getNode s y) ∧
      getEdge s' e = some { r with disposed := true, listeners := [] } ∧
      (∀ y, y ≠ e → getEdge s' y = getEdge s y) ∧
      s'.events = s.events ++ [Event.change o attr] ∧
      s'.nextEdgeId = s.nextEdgeId := by
  have hga : getNode (runGraphRemove (setEdge s e (flipRecS r o attr)) e) o = some n := by
    show alget (runGraphRemove (setEdge s e (flipRecS r o attr)) e).nodes o = some n
    rw [nodes_runGraphRemove]
    exact hn
  have hfe : getEdge (singleDisposeMid s e o attr r) e = some (flipRecS r o attr) := by
    rw [getEdge_singleDisposeMid, getEdge_setEdge, if_pos rfl]
  have hmid : singleDisposeMid s e o attr r =
      dispatchEvent
        (setNode (runGraphRemove (setEdge s e (flipRecS r o attr)) e) o (delAttr n attr))
        (Event.change o attr) := by
    unfold singleDisposeMid runSingleCleanup
    rw [hga]
    dsimp only
    rfl
  have hrun : runD (f + 1) (DTask.edge e) s =
      setEdge (singleDisposeMid s e o attr r) e
        (EdgeRec.mk r.name r.parent r.child r.attrs r.graphId true []) := by
    rw [runD_edge, he]
    dsimp only
    rw [if_neg (by rw [hlive]; exact Bool.false_ne_true), hl]
    rw [runD_hooks_gs f hf]
    have hfold : runSingleCleanup
        (runGraphRemove (setEdge s e
          (EdgeRec.mk r.name r.parent r.child r.attrs r.graphId true
            [Hook.graphRemove, Hook.singleCleanup o attr])) e) o attr =
        singleDisposeMid s e o attr r := rfl
    rw [hfold, hfe]
    dsimp only
    rfl
  refine ⟨_, hrun, ?_, ?_, ?_, ?_, ?_⟩
  · intro y
    show getNode (singleDisposeMid s e o attr r) y = _
    rw [hmid]
    show getNode (setNode _ o (delAttr n attr)) y = _
    rw [getNode_setNode]
    by_cases hoy : o = y
    · rw [if_pos hoy, if_pos hoy]
    · rw [if_neg hoy, if_neg hoy]
      show alget (runGraphRemove (setEdge s e (flipRecS r o attr)) e).nodes y = _
      rw [nodes_runGraphRemove]
      rfl
  · rw [getEdge_setEdge, if_pos rfl]
  · intro y hy
    rw [getEdge_setEdge, if_neg (fun hc => hy hc.symm)]
    rw [getEdge_singleDisposeMid, getEdge_setEdge, if_neg (fun hc => hy hc.symm)]
  · show (singleDisposeMid s e o attr r).events = _
    rw [hmid]
    show (runGraphRemove (setEdge s e (flipRecS r o attr)) e).events ++ _ = _
    rw [events_runGraphRemove]
    rfl
  · show (singleDisposeMid s e o attr r).nextEdgeId = _
    rw [hmid]
    show (runGraphRemove (setEdge s e (flipRecS r o attr)) e).nextEdgeId = _
    rw [nextEdgeId_runGraphRemove]
    rfl

theorem alget_eq_none_of_not_mem_keys {κ : Type} {α : Type} [DecidableEq κ] :
    ∀ (l : List (κ × α)) (k : κ), k ∉ l.map Prod.fst → alget l k = none := by
  intro l
  induction l with
  | nil => intro k _; rfl
  | cons p t ih =>
    intro k hk
    obtain ⟨k0, v0⟩ := p
    simp only [List.map_cons, List.mem_cons, not_or] at hk
    show (if k0 = k then some v0 else alget t k) = none
    rw [if_neg (fun hc => hk.1 hc.symm)]
    exact ih k hk.2

theorem alget_aldel_self {κ : Type} {α : Type} [DecidableEq κ] :
    ∀ (l : List (κ × α)) (k : κ), (l.map Prod.fst).Nodup →
      alget (aldel l k) k = none := by
  intro l
  induction l with
  | nil => intro k _; rfl
  | cons p t ih =>
    intro k hnd
    obtain ⟨k0, v0⟩ := p
    simp only [List.map_cons, List.nodup_cons] at hnd
    show alget (if k0 = k then t else (k0, v0) :: aldel t k) k = none
    by_cases h0 : k0 = k
    · rw [if_pos h0]
      exact alget_eq_none_of_not_mem_keys t k (h0 ▸ hnd.1)
    · rw [if_neg h0]
      show (if k0 = k then some v0 else alget (aldel t k) k) = none
      rw [if_neg h0]
      exact ih k hnd.2

/-- Packaged effects of `setRefRest` with a non-null value: the new edge
id is the fresh counter, it is stored in the single slot, a change event
fires, and everything else is framed. -/
theorem setRefRest_some_post {s : PGState} {o : Nat} {attr : String} {b g : Nat}
    {n : NodeRec} (hn : getNode s o = some n) (hg : n.graphId = g)
    (hgb : nodeGraphIdS s b = some g) (attrs : List (String × String)) :
    (setRefRest s o attr (some b) attrs).2 = none ∧
    (∀ y, getNode (setRefRest s o attr (some b) attrs).1 y =
      if o = y then some (withAttr n attr (Slot.single s.nextEdgeId))
      else getNode s y) ∧
    getEdge (setRefRest s o attr (some b) attrs).1 s.nextEdgeId =
      some ⟨attr, o, b, attrs, g, false,
        [Hook.graphRemove, Hook.singleCleanup o attr]⟩ ∧
    (∀ y, y ≠ s.nextEdgeId →
      getEdge (setRefRest s o attr (some b) attrs).1 y = getEdge s y) ∧
    (setRefRest s o attr (some b) attrs).1.events =
      s.events ++ [Event.change o attr] ∧
    (setRefRest s o attr (some b) attrs).1.nextEdgeId = s.nextEdgeId + 1 := by
  have hgo : nodeGraphIdS s o = some g := by
    unfold nodeGraphIdS
    rw [hn]
    simp [hg]
  have heq : setRefRest s o attr (some b) attrs =
      (dispatchEvent
        (setNode
          (setEdge (createEdgeResult s attr o b g attrs) s.nextEdgeId
            (EdgeRec.mk attr o b attrs g false
              [Hook.graphRemove, Hook.singleCleanup o attr]))
          o (withAttr n attr (Slot.single s.nextEdgeId)))
        (Event.change o attr), none) := by
    unfold setRefRest
    dsimp only
    rw [createEdge_ok_eq hgo hgb attr attrs]
    dsimp only
    unfold addListener
    rw [createEdgeResult_getEdge, if_pos rfl]
    dsimp only
    unfold updNode
    have hsn : getNode
        (setEdge (createEdgeResult s attr o b g attrs) s.nextEdgeId
          { mkEdgeRec attr o b attrs g with
            listeners := (mkEdgeRec attr o b attrs g).listeners ++
              [Hook.singleCleanup o attr] }) o = some n := hn
    rw [hsn]
    dsimp only
    rfl
  rw [heq]
  refine ⟨rfl, ?_, ?_, ?_, rfl, rfl⟩
  · intro y
    show getNode (setNode _ o _) y = _
    rw [getNode_setNode]
    by_cases hoy : o = y
    · rw [if_pos hoy, if_pos hoy]
    · rw [if_neg hoy, if_neg hoy]
      rfl
  · show getEdge (setEdge (createEdgeResult s attr o b g attrs) s.nextEdgeId _)
      s.nextEdgeId = _
    rw [getEdge_setEdge, if_pos rfl]
  · intro y hy
    show getEdge (setEdge (createEdgeResult s attr o b g attrs) s.nextEdgeId _) y = _
    rw [getEdge_setEdge, if_neg (fun hc => hy hc.symm)]
    rw [createEdgeResult_getEdge, if_neg (fun hc => hy hc.symm)]

/-- C9 (amended): on a mutable single-reference slot, `setRef` first
disposes any existing edge (whose cleanup listener clears the slot and
dispatches one change event), then — for a non-null value — creates a new
edge via the graph, stores it, and dispatches a change event tagged with
the attribute; for a null value it only clears.  Correction to the claim:
when the slot is already empty and the value is null, `setRef` returns
with the state completely unchanged and dispatches no change event. -/
theorem C9_setRef_semantics (s : PGState) (o : Nat) (attr : String)
    (b prev g : Nat) (r : EdgeRec) (n : NodeRec)
    (attrs : List (String × String)) (fuel : Nat)
    (hn : getNode s o = some n) (himm : attr ∉ n.immutableKeys)
    (hg : n.graphId = g) (hkeys : (n.attributes.map Prod.fst).Nodup) :
    (alget n.attributes attr = some Slot.nullSingle →
      setRefOp s o attr none attrs fuel = (s, none)) ∧
    (alget n.attributes attr = some Slot.nullSingle →
      nodeGraphIdS s b = some g →
      ∃ s1, setRefOp s o attr (some b) attrs fuel = (s1, none) ∧
        nodeAttr s1 o attr = some (Slot.single s.nextEdgeId) ∧
        getEdge s1 s.nextEdgeId =
          some ⟨attr, o, b, attrs, g, false,
            [Hook.graphRemove, Hook.singleCleanup o attr]⟩ ∧
        getRefS s1 o attr = some b ∧
        (∀ y, y ≠ s.nextEdgeId → getEdge s1 y = getEdge s y) ∧
        s1.events = s.events ++ [Event.change o attr]) ∧
    (alget n.attributes attr = some (Slot.single prev) →
      getEdge s prev = some r → r.disposed = false →
      r.listeners = [Hook.graphRemove, Hook.singleCleanup o attr] →
      3 ≤ fuel →
      ∃ s1, setRefOp s o attr none attrs fuel = (s1, none) ∧
        nodeAttr s1 o attr = none ∧
        edgeDisposedS s1 prev = true ∧
        (∀ y, y ≠ prev → getEdge s1 y = getEdge s y) ∧
        s1.events = s.events ++ [Event.change o attr]) ∧
    (alget n.attributes attr = some (Slot.single prev) →
      getEdge s prev = some r → r.disposed = false →
      r.listeners = [Hook.graphRemove, Hook.singleCleanup o attr] →
      3 ≤ fuel → nodeGraphIdS s b = some g → prev < s.nextEdgeId →
      ∃ s1, setRefOp s o attr (some b) attrs fuel = (s1, none) ∧
        edgeDisposedS s1 prev = true ∧
        nodeAttr s1 o attr = some (Slot.single s.nextEdgeId) ∧
        getEdge s1 s.nextEdgeId =
          some ⟨attr, o, b, attrs, g, false,
            [Hook.graphRemove, Hook.singleCleanup o attr]⟩ ∧
        getRefS s1 o attr = some b ∧
        s1.events = s.events ++ [Event.change o attr, Event.change o attr]) := by
  have hbranch : ∀ (v : Option Nat) (sl : Slot),
      alget n.attributes attr = some sl →
      setRefOp s o attr v attrs fuel =
        (match sl with
          | Slot.single prev => setRefRest (disposeEdge fuel prev s) o attr v attrs
          | Slot.nullSingle => setRefRest s o attr v attrs
          | Slot.lit lv =>
            if lv = "" then setRefRest s o attr v attrs
            else (s, some "TypeError: dispose is not a function")
          | _ => (s, some "TypeError: dispose is not a function")) := by
    intro v sl hsl
    unfold setRefOp
    rw [hn]
    dsimp only
    rw [if_neg himm, hsl]
    cases sl <;> rfl
  refine ⟨?_, ?_, ?_, ?_⟩
  · intro hsl
    rw [hbranch none Slot.nullSingle hsl]
    rfl
  · intro hsl hgb
    obtain ⟨hz, hnode, hedge, hframe, hev, hnext⟩ :=
      setRefRest_some_post hn hg hgb attrs
    refine ⟨(setRefRest s o attr (some b) attrs).1, ?_, ?_, hedge, ?_, hframe, hev⟩
    · rw [hbranch (some b) Slot.nullSingle hsl, ← hz]
    · unfold nodeAttr
      rw [hnode o, if_pos rfl]
      dsimp only [withAttr]
      rw [alget_alset, if_pos rfl]
    · unfold getRefS
      rw [hnode o, if_pos rfl]
      dsimp only [withAttr]
      rw [alget_alset, if_pos rfl]
      dsimp only
      rw [hedge]
      rfl
  · intro hsl he hlive hl hfuel
    obtain ⟨f, rfl⟩ : ∃ f, fuel = f + 1 := ⟨fuel - 1, by omega⟩
    obtain ⟨s1, hs1run, hs1node, hs1e, hs1frame, hs1ev, hs1next⟩ :=
      disposeEdge_single_step f (by omega) he hlive hl hn
    have hd : disposeEdge (f + 1) prev s = s1 := hs1run
    refine ⟨s1, ?_, ?_, ?_, hs1frame, hs1ev⟩
    · rw [hbranch none (Slot.single prev) hsl]
      dsimp only
      rw [hd]
      rfl
    · unfold nodeAttr
      rw [hs1node o, if_pos rfl]
      dsimp only [delAttr]
      exact alget_aldel_self n.attributes attr hkeys
    · show ((getEdge s1 prev).map (fun e => e.disposed)).getD false = true
      rw [hs1e]
      rfl
  · intro hsl he hlive hl hfuel hgb hprev
    obtain ⟨f, rfl⟩ : ∃ f, fuel = f + 1 := ⟨fuel - 1, by omega⟩
    obtain ⟨s1, hs1run, hs1node, hs1e, hs1frame, hs1ev, hs1next⟩ :=
      disposeEdge_single_step f (by omega) he hlive hl hn
    have hd : disposeEdge (f + 1) prev s = s1 := hs1run
    have hn1 : getNode s1 o = some (delAttr n attr) := by
      rw [hs1node o, if_pos rfl]
    have hg1 : (delAttr n attr).graphId = g := hg
    have hgb1 : nodeGraphIdS s1 b = some g := by
      unfold nodeGraphIdS
      rw [hs1node b]
      by_cases hob : o = b
      · rw [if_pos hob]
        show some (delAttr n attr).graphId = some g
        rw [hg1]
      · rw [if_neg hob]
        exact hgb
    obtain ⟨hz, hnode, hedge, hframe, hev, hnext⟩ :=
      setRefRest_some_post hn1 hg1 hgb1 attrs
    rw [hs1next] at hnode hedge hframe
    refine ⟨(setRefRest s1 o attr (some b) attrs).1, ?_, ?_, ?_, hedge, ?_, ?_⟩
    · rw [hbranch (some b) (Slot.single prev) hsl]
      dsimp only
      rw [hd, ← hz]
    · show ((getEdge (setRefRest s1 o attr (some b) attrs).1 prev).map
        (fun e => e.disposed)).getD false = true
      rw [hframe prev (by omega), hs1e]
      rfl
    · unfold nodeAttr
      rw [hnode o, if_pos rfl]
      dsimp only [withAttr]
      rw [alget_alset, if_pos rfl]
    · unfold getRefS
      rw [hnode o, if_pos rfl]
      dsimp only [withAttr]
      rw [alget_alset, if_pos rfl]
      dsimp only
      rw [hedge]
      rfl
    · rw [hev, hs1ev]
      simp

/-- `exState` before the `setRef`: node 0's `partner` slot is empty. -/
def exStateN : PGState :=
  let s1 := (newGraphOp state0).2
  let s2 := (newNodeOp s1 0 exSchema).2.1
  (newNodeOp s2 0 exSchema).2.1

/-- C9 counterexample: `setRef(attr, null)` on an empty mutable
single-reference slot returns with the state completely unchanged — in
particular it dispatches no change event, against the claim that every
such `setRef` call dispatches one. -/
theorem C9_setRef_empty_null_counterexample :
    setRefOp exStateN 0 "partner" none [] 8 = (exStateN, none) ∧
    (setRefOp exStateN 0 "partner" none [] 8).1.events = exStateN.events :=
  ⟨rfl, rfl⟩

/-- Witness for C9 at `exState` (node 0's `partner` holds edge 0 to
node 1). -/
theorem C9_setRef_semantics_witness :
    (alget ([("partner", Slot.single 0), ("friends", Slot.set [] [])] :
        List (String × Slot)) "partner" = some Slot.nullSingle →
      setRefOp exState 0 "partner" none [("a", "b")] 8 = (exState, none)) ∧
    (alget ([("partner", Slot.single 0), ("friends", Slot.set [] [])] :
        List (String × Slot)) "partner" = some Slot.nullSingle →
      nodeGraphIdS exState 1 = some 0 →
      ∃ s1, setRefOp exState 0 "partner" (some 1) [("a", "b")] 8 = (s1, none) ∧
        nodeAttr s1 0 "partner" = some (Slot.single exState.nextEdgeId) ∧
        getEdge s1 exState.nextEdgeId =
          some ⟨"partner", 0, 1, [("a", "b")], 0, false,
            [Hook.graphRemove, Hook.singleCleanup 0 "partner"]⟩ ∧
        getRefS s1 0 "partner" = some 1 ∧
        (∀ y, y ≠ exState.nextEdgeId → getEdge s1 y = getEdge exState y) ∧
        s1.events = exState.events ++ [Event.change 0 "partner"]) ∧
    (alget ([("partner", Slot.single 0), ("friends", Slot.set [] [])] :
        List (String × Slot)) "partner" = some (Slot.single 0) →
      getEdge exState 0 =
        some ⟨"partner", 0, 1, [("label", "x")], 0, false,
          [Hook.graphRemove, Hook.singleCleanup 0 "partner"]⟩ →
      (⟨"partner", 0, 1, [("label", "x")], 0, false,
        [Hook.graphRemove, Hook.singleCleanup 0 "partner"]⟩ : EdgeRec).disposed
          = false →
      (⟨"partner", 0, 1, [("label", "x")], 0, false,
        [Hook.graphRemove, Hook.singleCleanup 0 "partner"]⟩ : EdgeRec).listeners
          = [Hook.graphRemove, Hook.singleCleanup 0 "partner"] →
      3 ≤ 8 →
      ∃ s1, setRefOp exState 0 "partner" none [("a", "b")] 8 = (s1, none) ∧
        nodeAttr s1 0 "partner" = none ∧
        edgeDisposedS s1 0 = true ∧
        (∀ y, y ≠ 0 → getEdge s1 y = getEdge exState y) ∧
        s1.events = exState.events ++ [Event.change 0 "partner"]) ∧
    (alget ([("partner", Slot.single 0), ("friends", Slot.set [] [])] :
        List (String × Slot)) "partner" = some (Slot.single 0) →
      getEdge exState 0 =
        some ⟨"partner", 0, 1, [("label", "x")], 0, false,
          [Hook.graphRemove, Hook.singleCleanup 0 "partner"]⟩ →
      (⟨"partner", 0, 1, [("label", "x")], 0, false,
        [Hook.graphRemove, Hook.singleCleanup 0 "partner"]⟩ : EdgeRec).disposed
          = false →
      (⟨"partner", 0, 1, [("label", "x")], 0, false,
        [Hook.graphRemove, Hook.singleCleanup 0 "partner"]⟩ : EdgeRec).listeners
          = [Hook.graphRemove, Hook.singleCleanup 0 "partner"] →
      3 ≤ 8 → nodeGraphIdS exState 1 = some 0 → 0 < exState.nextEdgeId →
      ∃ s1, setRefOp exState 0 "partner" (some 1) [("a", "b")] 8 = (s1, none) ∧
        edgeDisposedS s1 0 = true ∧
        nodeAttr s1 0 "partner" = some (Slot.single exState.nextEdgeId) ∧
        getEdge s1 exState.nextEdgeId =
          some ⟨"partner", 0, 1, [("a", "b")], 0, false,
            [Hook.graphRemove, Hook.singleCleanup 0 "partner"]⟩ ∧
        getRefS s1 0 "partner" = some 1 ∧
        s1.events = exState.events ++
          [Event.change 0 "partner", Event.change 0 "partner"]) :=
  C9_setRef_semantics exState 0 "partner" 1 0 0
    ⟨"partner", 0, 1, [("label", "x")], 0, false,
      [Hook.graphRemove, Hook.singleCleanup 0 "partner"]⟩
    ⟨0, false, [("partner", Slot.single 0), ("friends", Slot.set [] [])], []⟩
    [("a", "b")] 8
    (by decide) (by decide) (by decide) (by decide)

/-! ## swap on a single-reference slot (C3) -/

/-- `setRef` on a mutable occupied single slot with a non-null value:
the old edge is disposed (its cleanup clears the slot and fires one
change event), then the new edge is created, stored, and a second change
event fires. -/
theorem setRef_occupied_some_post {s : PGState} {o : Nat} {attr : String}
    {b prev g : Nat} {r : EdgeRec} {n : NodeRec}
    (attrs : List (String × String)) (fuel : Nat)
    (hn : getNode s o = some n) (himm : attr ∉ n.immutableKeys)
    (hsl : alget n.attributes attr = some (Slot.single prev))
    (he : getEdge s prev = some r) (hlive : r.disposed = false)
    (hl : r.listeners = [Hook.graphRemove, Hook.singleCleanup o attr])
    (hfuel : 3 ≤ fuel) (hg : n.graphId = g) (hgb : nodeGraphIdS s b = some g)
    (hprev : prev < s.nextEdgeId) :
    ∃ s1, setRefOp s o attr (some b) attrs fuel = (s1, none) ∧
      edgeDisposedS s1 prev = true ∧
      nodeAttr s1 o attr = some (Slot.single s.nextEdgeId) ∧
      getEdge s1 s.nextEdgeId =
        some ⟨attr, o, b, attrs, g, false,
          [Hook.graphRemove, Hook.singleCleanup o attr]⟩ ∧
      getRefS s1 o attr = some b ∧
      (∀ y, y ≠ prev → y ≠ s.nextEdgeId → getEdge s1 y = getEdge s y) ∧
      s1.events = s.events ++ [Event.change o attr, Event.change o attr] ∧
      s1.nextEdgeId = s.nextEdgeId + 1 := by
  obtain ⟨f, rfl⟩ : ∃ f, fuel = f + 1 := ⟨fuel - 1, by omega⟩
  obtain ⟨sd, hsdrun, hsdnode, hsde, hsdframe, hsdev, hsdnext⟩ :=
    disposeEdge_single_step f (by omega) he hlive hl hn
  have hd : disposeEdge (f + 1) prev s = sd := hsdrun
  have hn1 : getNode sd o = some (delAttr n attr) := by
    rw [hsdnode o, if_pos rfl]
  have hg1 : (delAttr n attr).graphId = g := hg
  have hgb1 : nodeGraphIdS sd b = some g := by
    unfold nodeGraphIdS
    rw [hsdnode b]
    by_cases hob : o = b
    · rw [if_pos hob]
      show some (delAttr n attr).graphId = some g
      rw [hg1]
    · rw [if_neg hob]
      exact hgb
  obtain ⟨hz, hnode, hedge, hframe, hev, hnext⟩ :=
    setRefRest_some_post hn1 hg1 hgb1 attrs
  rw [hsdnext] at hnode hedge hframe hnext
  have hbr : setRefOp s o attr (some b) attrs (f + 1) =
      setRefRest sd o attr (some b) attrs := by
    unfold setRefOp
    rw [hn]
    dsimp only
    rw [if_neg himm, hsl]
    dsimp only
    rw [hd]
  refine ⟨(setRefRest sd o attr (some b) attrs).1, ?_, ?_, ?_, hedge, ?_, ?_, ?_, ?_⟩
  · rw [hbr, ← hz]
  · show ((getEdge (setRefRest sd o attr (some b) attrs).1 prev).map
      (fun e => e.disposed)).getD false = true
    rw [hframe prev (by omega), hsde]
    rfl
  · unfold nodeAttr
    rw [hnode o, if_pos rfl]
    dsimp only [withAttr]
    rw [alget_alset, if_pos rfl]
  · unfold getRefS
    rw [hnode o, if_pos rfl]
    dsimp only [withAttr]
    rw [alget_alset, if_pos rfl]
    dsimp only
    rw [hedge]
    rfl
  · intro y hyp hynext
    rw [hframe y hynext, hsdframe y hyp]
  · rw [hev, hsdev]
    simp
  · rw [hnext]

/-- C3 (amended): `swap(a, b)` on an owner whose (sole) reference slot is
a mutable single reference currently pointing at `a` replaces it with an
equivalent reference to `b`: exactly one new edge is created carrying the
old edge's auxiliary attributes, and the old edge is removed (disposed).
Correction to the claim: on an immutable (default-populated) slot, `swap`
throws `Cannot overwrite immutable attribute.` instead of replacing the
reference (see the counterexample). -/
theorem C3_swap_single_replaces (s : PGState) (o a b e g fuel : Nat)
    (attr : String) (r : EdgeRec) (n : NodeRec)
    (hn : getNode s o = some n)
    (hattrs : n.attributes = [(attr, Slot.single e)])
    (himm : attr ∉ n.immutableKeys)
    (he : getEdge s e = some r) (hchild : r.child = a)
    (hlive : r.disposed = false)
    (hl : r.listeners = [Hook.graphRemove, Hook.singleCleanup o attr])
    (hg : n.graphId = g) (hgb : nodeGraphIdS s b = some g)
    (hfresh : e < s.nextEdgeId) (hfuel : 3 ≤ fuel) :
    ∃ s1, swapOp s o a b fuel = (s1, none) ∧
      edgeDisposedS s1 e = true ∧
      nodeAttr s1 o attr = some (Slot.single s.nextEdgeId) ∧
      getEdge s1 s.nextEdgeId =
        some ⟨attr, o, b, r.attrs, g, false,
          [Hook.graphRemove, Hook.singleCleanup o attr]⟩ ∧
      getRefS s1 o attr = some b ∧
      s1.events = s.events ++ [Event.change o attr, Event.change o attr] := by
  have hsl : alget n.attributes attr = some (Slot.single e) := by
    rw [hattrs]
    show (if attr = attr then some (Slot.single e) else alget [] attr) = _
    rw [if_pos rfl]
  have hA : edgeAttrs s e = r.attrs := by
    unfold edgeAttrs
    rw [he]
    rfl
  have hci : edgeChildIs s e a = true := by
    unfold edgeChildIs
    rw [he]
    simp [hchild]
  obtain ⟨s1, hset, hdisp, hslot1, hedge1, href1, hframe1, hev1, hnext1⟩ :=
    setRef_occupied_some_post r.attrs fuel hn himm hsl he hlive hl hfuel hg hgb hfresh
  have hsa : swapAttr s o attr a b fuel = (s1, none) := by
    unfold swapAttr
    rw [hn]
    dsimp only
    rw [hsl]
    dsimp only
    rw [hci, if_pos rfl, hA]
    exact hset
  refine ⟨s1, ?_, hdisp, hslot1, hedge1, href1, hev1⟩
  unfold swapOp
  rw [hn]
  dsimp only
  rw [hattrs]
  dsimp only [List.map]
  show (match swapAttr s o attr a b fuel with
        | (s2, some err) => (s2, some err)
        | (s2, none) => swapGo o a b fuel [] s2) = (s1, none)
  rw [hsa]
  rfl

/-- C3 counterexample: node 2's `child` slot is a default-populated
(immutable) single reference to node 1; `swap(1, 0)` does not replace it
— it throws `Cannot overwrite immutable attribute.` and leaves the state
unchanged. -/
theorem C3_swap_immutable_counterexample :
    swapOp exStateM 2 1 0 30 =
      (exStateM, some "Cannot overwrite immutable attribute.") := rfl

/-- Three nodes, each with a single mutable `partner` slot; node 0's
partner is node 1 via edge 0 with attribute `label = x`. -/
def exStateW : PGState :=
  let s1 := (newGraphOp state0).2
  let s2 := (newNodeOp s1 0 [("partner", DefaultVal.nullRef)]).2.1
  let s3 := (newNodeOp s2 0 [("partner", DefaultVal.nullRef)]).2.1
  let s4 := (newNodeOp s3 0 [("partner", DefaultVal.nullRef)]).2.1
  (setRefOp s4 0 "partner" (some 1) [("label", "x")] 8).1

/-- Witness for C3: swapping node 1 for node 2 in node 0's mutable
`partner` slot. -/
theorem C3_swap_single_replaces_witness :
    ∃ s1, swapOp exStateW 0 1 2 8 = (s1, none) ∧
      edgeDisposedS s1 0 = true ∧
      nodeAttr s1 0 "partner" = some (Slot.single exStateW.nextEdgeId) ∧
      getEdge s1 exStateW.nextEdgeId =
        some ⟨"partner", 0, 2,
          (⟨"partner", 0, 1, [("label", "x")], 0, false,
            [Hook.graphRemove, Hook.singleCleanup 0 "partner"]⟩ : EdgeRec).attrs,
          0, false, [Hook.graphRemove, Hook.singleCleanup 0 "partner"]⟩ ∧
      getRefS s1 0 "partner" = some 2 ∧
      s1.events = exStateW.events ++
        [Event.change 0 "partner", Event.change 0 "partner"] :=
  C3_swap_single_replaces exStateW 0 1 2 0 0 8 "partner"
    ⟨"partner", 0, 1, [("label", "x")], 0, false,
      [Hook.graphRemove, Hook.singleCleanup 0 "partner"]⟩
    ⟨0, false, [("partner", Slot.single 0)], []⟩
    (by decide) (by decide) (by decide) (by decide) (by decide) (by decide)
    (by decide) (by decide) (by decide) (by decide) (by decide)

/-! ## Node disposal detaches (C2) -/

theorem graphs_runSingleCleanup (s : PGState) (o : Nat) (a : String) :
    (runSingleCleanup s o a).graphs = s.graphs := by
  unfold runSingleCleanup
  cases getNode s o <;> rfl

theorem sdel_singleton_self {x : Nat} : sdel [x] x = [] := by
  simp [sdel]

/-- Closed form of one disposal of an edge with the graph-removal and
single-slot-cleanup listeners. -/
theorem disposeEdge_single_eq {s : PGState} {e o : Nat} {attr : String} {r : EdgeRec}
    (f : Nat) (hf : 2 ≤ f) (he : getEdge s e = some r) (hlive : r.disposed = false)
    (hl : r.listeners = [Hook.graphRemove, Hook.singleCleanup o attr]) :
    runD (f + 1) (DTask.edge e) s =
      setEdge (singleDisposeMid s e o attr r) e
        (EdgeRec.mk r.name r.parent r.child r.attrs r.graphId true []) := by
  have hfe : getEdge (singleDisposeMid s e o attr r) e = some (flipRecS r o attr) := by
    rw [getEdge_singleDisposeMid, getEdge_setEdge, if_pos rfl]
  rw [runD_edge, he]
  dsimp only
  rw [if_neg (by rw [hlive]; exact Bool.false_ne_true), hl]
  rw [runD_hooks_gs f hf]
  have hfold : runSingleCleanup
      (runGraphRemove (setEdge s e
        (EdgeRec.mk r.name r.parent r.child r.attrs r.graphId true
          [Hook.graphRemove, Hook.singleCleanup o attr])) e) o attr =
      singleDisposeMid s e o attr r := rfl
  rw [hfold, hfe]
  dsimp only
  rfl

/-- Disposing such an edge removes it from its graph's index (the other
graphs are untouched). -/
theorem getGraph_disposeEdge_single {s : PGState} {e o : Nat} {attr : String}
    {r : EdgeRec} {G : GraphRec} (f : Nat) (hf : 2 ≤ f)
    (he : getEdge s e = some r) (hlive : r.disposed = false)
    (hl : r.listeners = [Hook.graphRemove, Hook.singleCleanup o attr])
    (hG : getGraph s r.graphId = some G) (y : Nat) :
    getGraph (runD (f + 1) (DTask.edge e) s) y =
      if r.graphId = y then some (removeEdgeIdx G e r.parent r.child)
      else getGraph s y := by
  rw [disposeEdge_single_eq f hf he hlive hl]
  show getGraph (singleDisposeMid s e o attr r) y = _
  unfold singleDisposeMid
  have h1 : getGraph
      (runSingleCleanup (runGraphRemove (setEdge s e (flipRecS r o attr)) e) o attr) y =
      getGraph (runGraphRemove (setEdge s e (flipRecS r o attr)) e) y := by
    show alget (runSingleCleanup _ o attr).graphs y = _
    rw [graphs_runSingleCleanup]
    rfl
  rw [h1]
  unfold runGraphRemove
  have h2 : getEdge (setEdge s e (flipRecS r o attr)) e = some (flipRecS r o attr) := by
    rw [getEdge_setEdge, if_pos rfl]
  rw [h2]
  dsimp only
  have h3 : getGraph (setEdge s e (flipRecS r o attr)) (flipRecS r o attr).graphId =
      some G := hG
  rw [h3]
  dsimp only
  rw [getGraph_setGraph]
  rfl

/-- `{ n with disposed := true }`. -/
def markDisposed (n : NodeRec) : NodeRec :=
  { n with disposed := true }

/-- C2 (amended): disposing a node whose incoming and outgoing edges live
in mutable single-reference slots detaches it completely: afterwards
`listChildren` and `listParents` are empty, `isDisposed()` is true, both
edges are disposed, and the referencing node's slot is cleared, so no
other node retains an edge whose resource is the disposed node.
Correction to the claim: an immutable (default-populated) slot keeps its
edge after the resource is disposed — its dispose listener only cascades,
it does not clear the owner's slot (see the counterexample). -/
theorem C2_dispose_detaches (s : PGState) (nid p c e_in e_out g F : Nat)
    (attrO attrP : String) (nn np : NodeRec) (rin rout : EdgeRec) (G : GraphRec)
    (hnn : getNode s nid = some nn) (hnd : nn.disposed = false)
    (hgnn : nn.graphId = g)
    (hnp : getNode s p = some np) (hpn : p ≠ nid) (hcn : c ≠ nid)
    (hG : getGraph s g = some G)
    (hBout : bucket G.parentEdges nid = [e_out])
    (hBin : bucket G.childEdges nid = [e_in])
    (hio : e_in ≠ e_out)
    (hrout : getEdge s e_out = some rout)
    (hrout_p : rout.parent = nid) (hrout_c : rout.child = c)
    (hrout_g : rout.graphId = g) (hrout_live : rout.disposed = false)
    (hrout_l : rout.listeners = [Hook.graphRemove, Hook.singleCleanup nid attrO])
    (hrin : getEdge s e_in = some rin)
    (hrin_p : rin.parent = p) (hrin_c : rin.child = nid)
    (hrin_g : rin.graphId = g) (hrin_live : rin.disposed = false)
    (hrin_l : rin.listeners = [Hook.graphRemove, Hook.singleCleanup p attrP])
    (hkeysP : (np.attributes.map Prod.fst).Nodup)
    (hF : 5 ≤ F) :
    ∃ s1, disposeNode F nid s = s1 ∧
      nodeDisposedS s1 nid = true ∧
      listChildEdgesS s1 nid = [] ∧
      listParentEdgesS s1 nid = [] ∧
      listChildrenS s1 nid = [] ∧
      listParentsS s1 nid = [] ∧
      nodeAttr s1 p attrP = none ∧
      edgeDisposedS s1 e_out = true ∧
      edgeDisposedS s1 e_in = true := by
  obtain ⟨f2, hf2, rfl⟩ : ∃ f2, 2 ≤ f2 ∧ F = f2 + 1 + 1 + 1 :=
    ⟨F - 3, by omega, by omega⟩
  -- outgoing edge disposal
  obtain ⟨sa, hsarun, hsanode, hsae, hsaframe, hsaev, hsanext⟩ :=
    disposeEdge_single_step f2 hf2 hrout hrout_live hrout_l hnn
  have hGr : getGraph s rout.graphId = some G := by
    rw [hrout_g]
    exact hG
  have hsagraph : ∀ y, getGraph sa y =
      if g = y then some (removeEdgeIdx G e_out nid c) else getGraph s y := by
    intro y
    rw [← hsarun,
      getGraph_disposeEdge_single f2 hf2 hrout hrout_live hrout_l hGr y,
      hrout_g, hrout_p, hrout_c]
  -- incoming edge, read in the intermediate state
  have hsanp : getNode sa p = some np := by
    rw [hsanode p, if_neg (fun hc => hpn hc.symm)]
    exact hnp
  have hsain : getEdge sa e_in = some rin := by
    rw [hsaframe e_in hio]
    exact hrin
  obtain ⟨sb, hsbrun, hsbnode, hsbe, hsbframe, hsbev, hsbnext⟩ :=
    disposeEdge_single_step f2 hf2 hsain hrin_live hrin_l hsanp
  have hGr2 : getGraph sa rin.graphId = some (removeEdgeIdx G e_out nid c) := by
    rw [hrin_g, hsagraph g, if_pos rfl]
  have hsbgraph : ∀ y, getGraph sb y =
      if g = y then
        some (removeEdgeIdx (removeEdgeIdx G e_out nid c) e_in p nid)
      else getGraph sa y := by
    intro y
    rw [← hsbrun,
      getGraph_disposeEdge_single f2 hf2 hsain hrin_live hrin_l hGr2 y,
      hrin_g, hrin_p, hrin_c]
  -- bucket lists in the intermediate states
  have hLC : listChildEdgesS s nid = [e_out] := by
    unfold listChildEdgesS
    rw [hnn]
    dsimp only
    rw [hgnn, hG]
    exact hBout
  have hsan : getNode sa nid = some (delAttr nn attrO) := by
    rw [hsanode nid, if_pos rfl]
  have hLPa : listParentEdgesS sa nid = [e_in] := by
    unfold listParentEdgesS
    rw [hsan]
    dsimp only
    have hgd : (delAttr nn attrO).graphId = g := hgnn
    rw [hgd, hsagraph g, if_pos rfl]
    show bucket (alset G.childEdges c (sdel (bucket G.childEdges c) e_out)) nid = _
    rw [bucket_alset_ne _ hcn, hBin]
  -- the full node disposal
  have hsbn : getNode sb nid = some (delAttr nn attrO) := by
    rw [hsbnode nid, if_neg hpn]
    exact hsan
  have hmain : runD (f2 + 1 + 1 + 1) (DTask.node nid) s =
      dispatchEvent
        (setNode sb nid (markDisposed (delAttr nn attrO)))
        (Event.nodeDispose nid) := by
    rw [runD_node, hnn]
    dsimp only
    rw [if_neg (by rw [hnd]; exact Bool.false_ne_true)]
    rw [hLC, runD_edges_cons, hsarun, runD_edges_nil_any]
    rw [hLPa, runD_edges_cons, hsbrun, runD_edges_nil_any]
    rw [hsbn]
    rfl
  have hfsn : getNode
      (dispatchEvent (setNode sb nid (markDisposed (delAttr nn attrO)))
        (Event.nodeDispose nid)) nid =
      some (markDisposed (delAttr nn attrO) : NodeRec) := by
    show alget (alset sb.nodes nid _) nid = _
    rw [alget_alset, if_pos rfl]
  have hgd : (markDisposed (delAttr nn attrO) : NodeRec).graphId = g := hgnn
  have hfsgraph : getGraph
      (dispatchEvent (setNode sb nid (markDisposed (delAttr nn attrO)))
        (Event.nodeDispose nid)) g =
      some (removeEdgeIdx (removeEdgeIdx G e_out nid c) e_in p nid) := by
    show getGraph sb g = _
    rw [hsbgraph g, if_pos rfl]
  have hLCfin : listChildEdgesS
      (dispatchEvent (setNode sb nid (markDisposed (delAttr nn attrO)))
        (Event.nodeDispose nid)) nid = [] := by
    unfold listChildEdgesS
    rw [hfsn]
    dsimp only
    rw [hgd, hfsgraph]
    show bucket (alset
      (alset G.parentEdges nid (sdel (bucket G.parentEdges nid) e_out))
      p (sdel (bucket (alset G.parentEdges nid
        (sdel (bucket G.parentEdges nid) e_out)) p) e_in)) nid = []
    rw [bucket_alset_ne _ hpn, bucket_alset_self, hBout, sdel_singleton_self]
  have hLPfin : listParentEdgesS
      (dispatchEvent (setNode sb nid (markDisposed (delAttr nn attrO)))
        (Event.nodeDispose nid)) nid = [] := by
    unfold listParentEdgesS
    rw [hfsn]
    dsimp only
    rw [hgd, hfsgraph]
    show bucket (alset
      (alset G.childEdges c (sdel (bucket G.childEdges c) e_out))
      nid (sdel (bucket (alset G.childEdges c
        (sdel (bucket G.childEdges c) e_out)) nid) e_in)) nid = []
    rw [bucket_alset_self, bucket_alset_ne _ hcn, hBin, sdel_singleton_self]
  refine ⟨_, hmain, ?_, hLCfin, hLPfin, ?_, ?_, ?_, ?_, ?_⟩
  · show ((getNode _ nid).map (fun n => n.disposed)).getD false = true
    rw [hfsn]
    rfl
  · unfold listChildrenS
    rw [hLCfin]
    rfl
  · unfold listParentsS
    rw [hLPfin]
    rfl
  · unfold nodeAttr
    have hfp : getNode
        (dispatchEvent (setNode sb nid (markDisposed (delAttr nn attrO)))
          (Event.nodeDispose nid)) p =
        some (delAttr np attrP) := by
      show alget (alset sb.nodes nid _) p = _
      rw [alget_alset, if_neg (fun hc => hpn hc.symm)]
      show getNode sb p = _
      rw [hsbnode p, if_pos rfl]
    rw [hfp]
    dsimp only [delAttr]
    exact alget_aldel_self np.attributes attrP hkeysP
  · show ((getEdge _ e_out).map (fun e => e.disposed)).getD false = true
    have hfe : getEdge
        (dispatchEvent (setNode sb nid (markDisposed (delAttr nn attrO)))
          (Event.nodeDispose nid)) e_out =
        some { rout with disposed := true, listeners := [] } := by
      show getEdge sb e_out = _
      rw [hsbframe e_out (fun hc => hio hc.symm)]
      exact hsae
    rw [hfe]
    rfl
  · show ((getEdge _ e_in).map (fun e => e.disposed)).getD false = true
    have hfe : getEdge
        (dispatchEvent (setNode sb nid (markDisposed (delAttr nn attrO)))
          (Event.nodeDispose nid)) e_in =
        some { rin with disposed := true, listeners := [] } := by
      show getEdge sb e_in = _
      exact hsbe
    rw [hfe]
    rfl

/-- C2 counterexample: node 2's `child` slot is an immutable default
reference to node 1.  After node 1 is disposed, node 2 still holds, in
that reference slot, the (now disposed) edge whose resource is node 1 —
`getRef` still resolves to node 1 — against the claim that no other node
retains an edge referencing the disposed node. -/
theorem C2_immutable_child_retained_counterexample :
    nodeDisposedS (disposeNode 30 1 exStateM) 1 = true ∧
    nodeAttr (disposeNode 30 1 exStateM) 2 "child" = some (Slot.single 1) ∧
    getRefS (disposeNode 30 1 exStateM) 2 "child" = some 1 := by
  refine ⟨?_, ?_, ?_⟩ <;> decide

/-- A three-node chain through mutable `next` slots: edge 0 links node 0
to node 1 and edge 1 links node 1 to node 2. -/
def exStateC : PGState :=
  let s1 := (newGraphOp state0).2
  let s2 := (newNodeOp s1 0 [("next", DefaultVal.nullRef)]).2.1
  let s3 := (newNodeOp s2 0 [("next", DefaultVal.nullRef)]).2.1
  let s4 := (newNodeOp s3 0 [("next", DefaultVal.nullRef)]).2.1
  let s5 := (setRefOp s4 0 "next" (some 1) [] 8).1
  (setRefOp s5 1 "next" (some 2) [] 8).1

/-- Witness for C2: disposing node 1 of the chain detaches it on both
sides. -/
theorem C2_dispose_detaches_witness :
    ∃ s1, disposeNode 5 1 exStateC = s1 ∧
      nodeDisposedS s1 1 = true ∧
      listChildEdgesS s1 1 = [] ∧
      listParentEdgesS s1 1 = [] ∧
      listChildrenS s1 1 = [] ∧
      listParentsS s1 1 = [] ∧
      nodeAttr s1 0 "next" = none ∧
      edgeDisposedS s1 1 = true ∧
      edgeDisposedS s1 0 = true :=
  C2_dispose_detaches exStateC 1 0 2 0 1 0 5 "next" "next"
    ⟨0, false, [("next", Slot.single 1)], []⟩
    ⟨0, false, [("next", Slot.single 0)], []⟩
    ⟨"next", 0, 1, [], 0, false,
      [Hook.graphRemove, Hook.singleCleanup 0 "next"]⟩
    ⟨"next", 1, 2, [], 0, false,
      [Hook.graphRemove, Hook.singleCleanup 1 "next"]⟩
    ⟨[0, 1], [(0, [0]), (1, [1])], [(1, [0]), (2, [1])]⟩
    (by decide) (by decide) (by decide) (by decide) (by decide) (by decide)
    (by decide) (by decide) (by decide) (by decide) (by decide) (by decide)
    (by decide) (by decide) (by decide) (by decide) (by decide) (by decide)
    (by decide) (by decide) (by decide) (by decide) (by decide) (by decide)

end PG
